import Mathlib

/-!
# AliDCSClient: a shallow embedding of SHUTTLE/DCSClient/AliDCSClient.cxx

The development has two levels, as the source has.

* Transport. `SendBuffer` and `ReceiveBuffer` run over a scripted socket
  (`TSocket`): the script lists the results that the successive calls of
  `Select`, `SendRaw` and `RecvRaw` return, the socket records every call made.
* Protocol. `Connect`, `Close`, `ReceiveValueSet` and the two `GetValues` run over a
  scripted network (`Network`): the scripts list the outcome of the successive
  socket openings, of the successive `SendMessage` calls and of the successive
  `ReceiveMessage` calls, the network records every call made.

`Int_t` quantities are integers (`Int`); the sums the code forms
(`sentSize + sResult`, `subsetBegin + fMultiSplit`, `receivedValues + sResult`) are
taken to stay inside the 32 bit range, signed overflow being undefined in C++. The
statements on the sub-batches a list query issues state the bound as a hypothesis: the
largest sum `subsetBegin + fMultiSplit` of the run, `lastSum`, is at most 2147483647.
Loops whose end depends on the peer carry a fuel argument; the entry points pass a
fuel that always suffices.
-/

/-! ## Error codes -/

/-- Modelled from the spec: AliDCSClient.h, which declares the error constants, is not
among the sources. The spec lists seven codes, says they are negative and that the
driver branches on them; the values are those of the enumeration order. -/
def fgkBadState : Int := -1

/-- Modelled from the spec: the second code of the enumeration (see `fgkBadState`). -/
def fgkInvalidParameter : Int := -2

/-- Modelled from the spec: the third code of the enumeration (see `fgkBadState`). -/
def fgkTimeout : Int := -3

/-- Modelled from the spec: the fourth code of the enumeration (see `fgkBadState`). -/
def fgkBadMessage : Int := -4

/-- Modelled from the spec: the fifth code of the enumeration (see `fgkBadState`). -/
def fgkCommError : Int := -5

/-- Modelled from the spec: the sixth code of the enumeration (see `fgkBadState`). -/
def fgkServerError : Int := -6

/-- Modelled from the spec: the seventh code of the enumeration (see `fgkBadState`). -/
def fgkUnknownDP : Int := -7

/-! ## Messages -/

/-- Modelled from the spec: AliDCSValue.h is not among the sources. A value record is a
time stamp with a measurement; the client never looks inside. -/
structure AliDCSValue where
  timeStamp : Nat
  value : Int
  deriving DecidableEq, Repr

/-- The entity kind of a request, `AliDCSMessage::RequestType`. -/
inductive RequestType
  | kAlias
  | kDPName
  deriving DecidableEq, Repr

/-- Modelled from the spec: AliDCSMessage is not among the sources. A message is a tagged
variant: `Request`, `MultiRequest`, `ResultSet` (owner index and value records), `Error`
(server error code and text), `UnknownEntity` (text); `other` stands for every remaining
kind, the default constructed message included. -/
inductive AliDCSMessage
  | request (reqType : RequestType) (startTime endTime : Nat) (name : String)
  | multiRequest (reqType : RequestType) (startTime endTime : Nat) (names : List String)
  | resultSet (ownerIndex : Int) (values : List AliDCSValue)
  | error (code : Int) (text : String)
  | unknownDP (text : String)
  | other (kind : Nat)
  deriving DecidableEq, Repr

namespace AliDCSMessage

/-- Modelled from the spec: `CreateRequestMessage`, a `Request` carrying entity kind, time
range and name. -/
def CreateRequestMessage (reqType : RequestType) (startTime endTime : Nat)
    (name : String) : AliDCSMessage :=
  request reqType startTime endTime name

/-- Modelled from the spec: `CreateMultiRequestMessage`, a `MultiRequest` with no name
appended yet. -/
def CreateMultiRequestMessage (reqType : RequestType) (startTime endTime : Nat) :
    AliDCSMessage :=
  multiRequest reqType startTime endTime []

/-- Modelled from the spec: `AddRequestString`. The name is appended after the names
already there; the append fails when the message is no `MultiRequest` or when a capacity
limit of the wire format (number of names, size of a name) would be exceeded. -/
def AddRequestString (maxNames maxNameSize : Nat) (m : AliDCSMessage) (name : String) :
    Option AliDCSMessage :=
  match m with
  | multiRequest t s e names =>
    if names.length < maxNames ∧ name.length ≤ maxNameSize then
      some (multiRequest t s e (names ++ [name]))
    else none
  | _ => none

/-- Modelled from the spec: `GetValues` of a message, which appends the decoded value
records to `result` and returns their number. -/
def GetValues (m : AliDCSMessage) (result : List AliDCSValue) : Int × List AliDCSValue :=
  match m with
  | resultSet _ values => (values.length, result ++ values)
  | _ => (0, result)

end AliDCSMessage

/-! ## The scripted network -/

/-- One call the client makes on the network. -/
inductive NetCall
  | openSocket (host : String) (port : Int) (valid : Bool)
  | sleep (ms : Nat)
  | send (message : AliDCSMessage) (res : Int)
  | receive (res : Int) (message : AliDCSMessage)
  | close
  deriving DecidableEq, Repr

/-- The network the client talks to. `accepts` gives, for the successive `new TSocket`,
whether the socket is valid; `sendResults` the results of the successive `SendMessage`
calls; `replies` the results of the successive `ReceiveMessage` calls with the message
received. A script that is used up stands for a peer that is silent: no socket opens and
every transfer ends in `Timeout`. `maxNames` and `maxNameSize` are the capacity limits of
a `MultiRequest`. `log` is the record of the calls made, oldest first. -/
structure Network where
  accepts : List Bool
  sendResults : List Int
  replies : List (Int × AliDCSMessage)
  maxNames : Nat
  maxNameSize : Nat
  log : List NetCall
  deriving DecidableEq, Repr

/-- The data members of AliDCSClient, with the network it talks to. `fSocket` is `none`
for the null pointer and `some v` for a socket whose `IsValid()` is `v`. -/
structure AliDCSClient where
  fSocket : Option Bool
  fHost : String
  fPort : Int
  fTimeout : Nat
  fRetries : Int
  fMultiSplit : Int
  fServerErrorCode : Int
  fServerError : String
  fResultErrorCode : Int
  net : Network
  deriving DecidableEq, Repr

/-- The result map: the names with their value records, a name at most once, in the order
the names were entered. -/
abbrev TMap := List (String × List AliDCSValue)

namespace TMap

/-- `TMap::GetValue`: the value stored under `key`, if any. -/
def GetValue : TMap → String → Option (List AliDCSValue)
  | [], _ => none
  | (k, v) :: rest, key => if k = key then some v else GetValue rest key

/-- `TMap::Add`: a new pair, entered after the pairs already there. -/
def Add (m : TMap) (key : String) (value : List AliDCSValue) : TMap :=
  m ++ [(key, value)]

/-- `target->AddAll(resultSet)` on the array stored under `key`: the records are
appended to it. -/
def AddAll : TMap → String → List AliDCSValue → TMap
  | [], _, _ => []
  | (k, v) :: rest, key, values =>
    if k = key then (k, v ++ values) :: rest else (k, v) :: AddAll rest key values

end TMap

/-- `TSeqCollection::At`: the entry at `idx`, null when `idx` is out of range. -/
def At (list : List String) (idx : Int) : Option String :=
  if idx < 0 then none else list.get? idx.toNat

/-- How a call ends: it returns, or it dereferences a null pointer (an entry of the name
list that `At` did not find), or the fuel of the model is used up. -/
inductive Exec (α : Type)
  | ret (a : α)
  | nullDeref
  | outOfFuel
  deriving DecidableEq, Repr

namespace AliDCSClient

/-- `AliDCSClient::IsConnected`. -/
def IsConnected (c : AliDCSClient) : Bool :=
  match c.fSocket with
  | some valid => valid
  | none => false

/-- `AliDCSClient::Close`. -/
def Close (c : AliDCSClient) : AliDCSClient :=
  match c.fSocket with
  | some _ => { c with fSocket := none, net := { c.net with log := c.net.log ++ [NetCall.close] } }
  | none => c

/-- The loop of `Connect`; `n` is the number of tries left, `fRetries - tries`. -/
def ConnectLoop : Nat → AliDCSClient → Bool × AliDCSClient
  | 0, c => (false, c)
  | n + 1, c =>
    match c.net.accepts with
    | true :: rest =>
      (true, { c with
        fSocket := some true,
        net := { c.net with accepts := rest,
                            log := c.net.log ++ [NetCall.openSocket c.fHost c.fPort true] } })
    | false :: rest =>
      ConnectLoop n { c with
        fSocket := none,
        net := { c.net with accepts := rest,
                            log := c.net.log ++
                              [NetCall.openSocket c.fHost c.fPort false, NetCall.sleep c.fTimeout] } }
    | [] =>
      ConnectLoop n { c with
        fSocket := none,
        net := { c.net with log := c.net.log ++
                              [NetCall.openSocket c.fHost c.fPort false, NetCall.sleep c.fTimeout] } }

/-- `AliDCSClient::Connect`. -/
def Connect (c : AliDCSClient) : Bool × AliDCSClient :=
  ConnectLoop c.fRetries.toNat (Close c)

/-- `AliDCSClient::SendMessage`, at the level of the scripted network: the result is the
next one of the script. -/
def SendMessage (c : AliDCSClient) (message : AliDCSMessage) : Int × AliDCSClient :=
  match c.net.sendResults with
  | r :: rest =>
    (r, { c with net := { c.net with sendResults := rest,
                                     log := c.net.log ++ [NetCall.send message r] } })
  | [] =>
    (fgkTimeout, { c with net := { c.net with log := c.net.log ++ [NetCall.send message fgkTimeout] } })

/-- `AliDCSClient::ReceiveMessage`, at the level of the scripted network: result and
message are the next ones of the script. -/
def ReceiveMessage (c : AliDCSClient) : Int × AliDCSMessage × AliDCSClient :=
  match c.net.replies with
  | (r, m) :: rest =>
    (r, m, { c with net := { c.net with replies := rest,
                                        log := c.net.log ++ [NetCall.receive r m] } })
  | [] =>
    (fgkTimeout, AliDCSMessage.other 0,
      { c with net := { c.net with log := c.net.log ++
                                     [NetCall.receive fgkTimeout (AliDCSMessage.other 0)] } })

/-- `AliDCSClient::ReceiveValueSet`: the return value, the array `result`, the reference
`ownerIndex` and the client, all after the call. -/
def ReceiveValueSet (c : AliDCSClient) (result : List AliDCSValue) (ownerIndex : Int) :
    Int × List AliDCSValue × Int × AliDCSClient :=
  let (sResult, message, c) := ReceiveMessage c
  if sResult < 0 then (sResult, result, ownerIndex, c)
  else
    match message with
    | AliDCSMessage.resultSet owner _ =>
      if owner < 0 then (0, result, owner, c)
      else
        let (n, result) := message.GetValues result
        (n, result, owner, c)
    | AliDCSMessage.error code text =>
      (fgkServerError, result, ownerIndex,
        { c with fServerErrorCode := code, fServerError := text })
    | AliDCSMessage.unknownDP text =>
      (fgkUnknownDP, result, ownerIndex, { c with fServerError := text })
    | _ => (fgkBadMessage, result, ownerIndex, c)

/-- The `while (1)` loop of the single entity `GetValues`: the count, the array and the
client at the `break`. -/
def GetValuesLoop : Nat → AliDCSClient → List AliDCSValue → Int →
    Option (Int × List AliDCSValue × AliDCSClient)
  | 0, _, _, _ => none
  | fuel + 1, c, result, receivedValues =>
    let (sResult, result, _, c) := ReceiveValueSet c result 0
    if sResult ≤ 0 then some (receivedValues, result, c)
    else GetValuesLoop fuel c result (receivedValues + sResult)

/-- The single entity `AliDCSClient::GetValues`: the return value, the array `result`
and the client, all after the call. -/
def GetValues (c : AliDCSClient) (reqType : RequestType) (reqString : String)
    (startTime endTime : Nat) (result : List AliDCSValue) :
    Option (Int × List AliDCSValue × AliDCSClient) :=
  let c := (Connect c).2
  if !IsConnected c then some (fgkBadState, result, c)
  else
    let requestMessage := AliDCSMessage.CreateRequestMessage reqType startTime endTime reqString
    let (sResult, c) := SendMessage c requestMessage
    if sResult < 0 then some (sResult, result, Close c)
    else
      match GetValuesLoop (c.net.replies.length + 1) c result 0 with
      | none => none
      | some (receivedValues, result, c) => some (receivedValues, result, Close c)

/-- The loop of the list `GetValues` that appends the names `list[i]`, `i` from the
given index on, to the `MultiRequest`; `n` is the number of names left,
`subsetEnd - i`. The result is `none` when an append fails. -/
def AddRequestStrings (c : AliDCSClient) (list : List String) :
    Nat → Int → AliDCSMessage → Exec (Option AliDCSMessage)
  | 0, _, requestMessage => Exec.ret (some requestMessage)
  | n + 1, i, requestMessage =>
    match At list i with
    | none => Exec.nullDeref
    | some aRequest =>
      match requestMessage.AddRequestString c.net.maxNames c.net.maxNameSize aRequest with
      | none => Exec.ret none
      | some requestMessage => AddRequestStrings c list n (i + 1) requestMessage

/-- The request of one sub-batch, as the list `GetValues` builds it: a plain `Request`
when `fMultiSplit` is 1, a `MultiRequest` with the names of the sub-batch otherwise. The
result is `none` when an append fails. -/
def BuildRequest (c : AliDCSClient) (reqType : RequestType) (list : List String)
    (startTime endTime : Nat) (subsetBegin subsetEnd : Int) : Exec (Option AliDCSMessage) :=
  if c.fMultiSplit = 1 then
    match At list subsetBegin with
    | none => Exec.nullDeref
    | some aRequest =>
      Exec.ret (some (AliDCSMessage.CreateRequestMessage reqType startTime endTime aRequest))
  else
    AddRequestStrings c list (subsetEnd - subsetBegin).toNat subsetBegin
      (AliDCSMessage.CreateMultiRequestMessage reqType startTime endTime)

/-- The `while (1)` loop of the list `GetValues`, with the client as the loop leaves it:
`ret none` when the function returns 0 from inside the loop, the map at the `break`
otherwise. The entry `list->At(ownerIndex + subsetBegin)` is not dereferenced here: it is
the key passed to `TMap::GetValue` and `TMap::Add`. For the null key `GetValue` finds
nothing and `Add` enters nothing, so a result set whose owner index designates no list
entry is dropped and the loop goes on. The index is the sum of the integers, which
designates no entry when it is beyond the `Int_t` range. -/
def ReceiveLoop : Nat → AliDCSClient → List String → Int → TMap →
    Exec (Option TMap) × AliDCSClient
  | 0, c, _, _, _ => (Exec.outOfFuel, c)
  | fuel + 1, c, list, subsetBegin, result =>
    let (sResult, resultSet, ownerIndex, c) := ReceiveValueSet c [] (-1)
    let c := { c with fResultErrorCode := sResult }
    if sResult < 0 then (Exec.ret none, c)
    else if ownerIndex < 0 then (Exec.ret (some result), c)
    else
      match At list (ownerIndex + subsetBegin) with
      | none => ReceiveLoop fuel c list subsetBegin result
      | some aRequest =>
        match result.GetValue aRequest with
        | some _ => ReceiveLoop fuel c list subsetBegin (result.AddAll aRequest resultSet)
        | none => ReceiveLoop fuel c list subsetBegin (result.Add aRequest resultSet)

/-- The `for` loop over the sub-batches of the list `GetValues`, with the client as the
loop leaves it: `ret none` when the function returns 0, the map otherwise. The sum
`subsetBegin + fMultiSplit` (the end of the sub-batch and the begin of the next one) is
the sum of the integers; it is the `Int_t` sum of the source as long as it does not exceed
2147483647, and the statements on the sub-batches issued carry that bound on the sums the
loop forms (`lastSum`). -/
def SubsetLoop : Nat → AliDCSClient → RequestType → List String → Nat → Nat → Int → Int →
    TMap → Exec (Option TMap) × AliDCSClient
  | 0, c, _, _, _, _, _, _, _ => (Exec.outOfFuel, c)
  | fuel + 1, c, reqType, list, startTime, endTime, endIndex, subsetBegin, result =>
    if subsetBegin < endIndex then
      let c := (Connect c).2
      if !IsConnected c then (Exec.ret none, { c with fResultErrorCode := fgkBadState })
      else
        let subsetEnd :=
          if subsetBegin + c.fMultiSplit > endIndex then endIndex
          else subsetBegin + c.fMultiSplit
        match BuildRequest c reqType list startTime endTime subsetBegin subsetEnd with
        | Exec.nullDeref => (Exec.nullDeref, c)
        | Exec.outOfFuel => (Exec.outOfFuel, c)
        | Exec.ret none => (Exec.ret none, { c with fResultErrorCode := fgkBadMessage })
        | Exec.ret (some requestMessage) =>
          let (sResult, c) := SendMessage c requestMessage
          let c := { c with fResultErrorCode := sResult }
          if sResult < 0 then (Exec.ret none, Close c)
          else
            match ReceiveLoop (c.net.replies.length + 1) c list subsetBegin result with
            | (Exec.ret (some result), c) =>
              let c := Close c
              match At list subsetBegin with
              | none => (Exec.nullDeref, c)
              | some _ =>
                SubsetLoop fuel c reqType list startTime endTime endIndex
                  (subsetBegin + c.fMultiSplit) result
            | (stop, c) => (stop, c)
    else (Exec.ret (some result), c)

/-- The effective end of the queried range: `endIndex`, set to the number of entries when
it is negative or beyond the list. -/
def clampEndIndex (list : List String) (endIndex : Int) : Int :=
  if endIndex < 0 ∨ endIndex > list.length then list.length else endIndex

/-- The list `AliDCSClient::GetValues`: how the call ends, with the map returned (`none`
for the null pointer), and the client after the call. -/
def GetValuesList (c : AliDCSClient) (reqType : RequestType) (list : List String)
    (startTime endTime : Nat) (startIndex endIndex : Int) :
    Exec (Option TMap) × AliDCSClient :=
  let endIndex := clampEndIndex list endIndex
  SubsetLoop ((endIndex - startIndex).toNat + c.net.accepts.length + 1) c reqType list
    startTime endTime endIndex startIndex []

end AliDCSClient

/-! ## Transport: the scripted socket -/

/-- The interest passed to `TSocket::Select`. -/
inductive ESelect
  | kRead
  | kWrite
  deriving DecidableEq, Repr

/-- One call made on the socket, with its result. The offset of a raw transfer is the
distance of the pointer passed from the start of the buffer. -/
inductive SockCall
  | select (interest : ESelect) (timeout : Nat) (res : Int)
  | sendRaw (offset length res : Int)
  | recvRaw (offset length res : Int)
  deriving DecidableEq, Repr

/-- The socket. `script` lists the results of the successive calls (a script that is used
up answers 0: nothing ready, nothing transferred); `rx` are the bytes the peer has sent
and the client has not read yet; `tx` the bytes written so far; `calls` the record of the
calls made, oldest first. -/
structure TSocket where
  script : List Int
  rx : List Nat
  tx : List Nat
  calls : List SockCall
  deriving DecidableEq, Repr

namespace TSocket

/-- `TSocket::Select`: the next result of the script. -/
def Select (s : TSocket) (interest : ESelect) (timeout : Nat) : Int × TSocket :=
  let res := s.script.headD 0
  (res, { s with script := s.script.tail,
                 calls := s.calls ++ [SockCall.select interest timeout res] })

/-- `TSocket::SendRaw(buffer + offset, length, kDontBlock)`: the next result of the
script; when it is positive, that many bytes from the offset on are written. -/
def SendRaw (s : TSocket) (buffer : List Nat) (offset length : Int) : Int × TSocket :=
  let res := s.script.headD 0
  (res, { s with script := s.script.tail,
                 tx := if res > 0 then s.tx ++ (buffer.drop offset.toNat).take res.toNat
                       else s.tx,
                 calls := s.calls ++ [SockCall.sendRaw offset length res] })

/-- `TSocket::RecvRaw(buffer + offset, length, kDontBlock)`: the next result of the
script; when it is positive, that many bytes of the peer are stored from the offset
on. -/
def RecvRaw (s : TSocket) (buffer : List Nat) (offset length : Int) :
    Int × List Nat × TSocket :=
  let res := s.script.headD 0
  let data := if res > 0 then s.rx.take res.toNat else []
  (res, buffer.take offset.toNat ++ data ++ buffer.drop (offset.toNat + data.length),
    { s with script := s.script.tail,
             rx := s.rx.drop data.length,
             calls := s.calls ++ [SockCall.recvRaw offset length res] })

end TSocket

namespace Transport

/-- The loop of `AliDCSClient::SendBuffer`. -/
def SendBufferLoop (fRetries : Int) (fTimeout : Nat) (buffer : List Nat) (size : Int) :
    Nat → TSocket → Int → Int → Option (Int × TSocket)
  | 0, _, _, _ => none
  | fuel + 1, fSocket, sentSize, tries =>
    if sentSize < size ∧ tries < fRetries then
      let (sResult, fSocket) := fSocket.Select ESelect.kWrite fTimeout
      if sResult = 0 then
        SendBufferLoop fRetries fTimeout buffer size fuel fSocket sentSize (tries + 1)
      else if sResult < 0 then some (fgkCommError, fSocket)
      else
        let (sResult, fSocket) := fSocket.SendRaw buffer sentSize (size - sentSize)
        if sResult > 0 then
          SendBufferLoop fRetries fTimeout buffer size fuel fSocket (sentSize + sResult) tries
        else some (fgkCommError, fSocket)
    else if tries = fRetries then some (fgkTimeout, fSocket)
    else some (sentSize, fSocket)

/-- `AliDCSClient::SendBuffer`: the return value and the socket after the call. -/
def SendBuffer (fRetries : Int) (fTimeout : Nat) (fSocket : TSocket) (buffer : List Nat)
    (size : Int) : Option (Int × TSocket) :=
  SendBufferLoop fRetries fTimeout buffer size (size.toNat + fRetries.toNat + 1) fSocket 0 0

/-- The loop of `AliDCSClient::ReceiveBuffer`. -/
def ReceiveBufferLoop (fRetries : Int) (fTimeout : Nat) (size : Int) :
    Nat → TSocket → List Nat → Int → Int → Option (Int × List Nat × TSocket)
  | 0, _, _, _, _ => none
  | fuel + 1, fSocket, buffer, receivedSize, tries =>
    if receivedSize < size ∧ tries < fRetries then
      let (sResult, fSocket) := fSocket.Select ESelect.kRead fTimeout
      if sResult = 0 then
        ReceiveBufferLoop fRetries fTimeout size fuel fSocket buffer receivedSize (tries + 1)
      else if sResult < 0 then some (fgkCommError, buffer, fSocket)
      else
        let (sResult, buffer, fSocket) := fSocket.RecvRaw buffer receivedSize (size - receivedSize)
        if sResult > 0 then
          ReceiveBufferLoop fRetries fTimeout size fuel fSocket buffer (receivedSize + sResult) tries
        else some (fgkCommError, buffer, fSocket)
    else if tries = fRetries then some (fgkTimeout, buffer, fSocket)
    else some (receivedSize, buffer, fSocket)

/-- `AliDCSClient::ReceiveBuffer`: the return value, the buffer and the socket after the
call. -/
def ReceiveBuffer (fRetries : Int) (fTimeout : Nat) (fSocket : TSocket) (buffer : List Nat)
    (size : Int) : Option (Int × List Nat × TSocket) :=
  ReceiveBufferLoop fRetries fTimeout size (size.toNat + fRetries.toNat + 1) fSocket buffer 0 0

end Transport

/-! ## Scripts and inputs used to state the properties -/

namespace AliDCSClient

/-- The replies a server gives for the result sets `sets`: one received `ResultSet` each,
a result set being the result of the receive, the owner index and the value records. -/
def resultSetReplies (sets : List (Int × Int × List AliDCSValue)) :
    List (Int × AliDCSMessage) :=
  sets.map fun s => (s.1, AliDCSMessage.resultSet s.2.1 s.2.2)

/-- A client with retry bound 2 and batch limit 2, not connected, in front of a network
with the given scripts. -/
def clientOn (accepts : List Bool) (sendResults : List Int)
    (replies : List (Int × AliDCSMessage)) : AliDCSClient :=
  { fSocket := none, fHost := "dcs", fPort := 4242, fTimeout := 100, fRetries := 2,
    fMultiSplit := 2, fServerErrorCode := 0, fServerError := "", fResultErrorCode := 0,
    net := { accepts := accepts, sendResults := sendResults, replies := replies,
             maxNames := 10, maxNameSize := 255, log := [] } }

end AliDCSClient

/-- Whether the call moves a message: a send or a receive. -/
def NetCall.isTransfer : NetCall → Bool
  | NetCall.send _ _ => true
  | NetCall.receive _ _ => true
  | _ => false

namespace AliDCSClient

/-- The next reply of the script: what the next `ReceiveMessage` yields. -/
def nextReply (c : AliDCSClient) : Int × AliDCSMessage :=
  c.net.replies.headD (fgkTimeout, AliDCSMessage.other 0)

/-- The code `ReceiveValueSet` returns for a receive with result `r` and message `m`. -/
def receiveCode (r : Int) (m : AliDCSMessage) : Int :=
  if r < 0 then r
  else
    match m with
    | AliDCSMessage.resultSet owner values => if owner < 0 then 0 else values.length
    | AliDCSMessage.error _ _ => fgkServerError
    | AliDCSMessage.unknownDP _ => fgkUnknownDP
    | _ => fgkBadMessage

/-- The aggregation step of the list query on one result set, given with the absolute
index of its owner: the entry of the owner's name is created if absent, else the records
are appended to it. -/
def mergeStep (list : List String) (m : TMap) (a : Int × List AliDCSValue) : TMap :=
  match At list a.1 with
  | none => m
  | some name =>
    match m.GetValue name with
    | some _ => m.AddAll name a.2
    | none => m.Add name a.2

/-- The end of the sub-batch that begins at `subsetBegin`. -/
def subsetEndOf (L endIndex subsetBegin : Int) : Int :=
  if subsetBegin + L > endIndex then endIndex else subsetBegin + L

/-- The client as the list query has it after the request of a sub-batch was sent. -/
def afterSend (c : AliDCSClient) (requestMessage : AliDCSMessage) : AliDCSClient :=
  { (SendMessage c requestMessage).2 with
    fResultErrorCode := (SendMessage c requestMessage).1 }

/-- The result sets of a list query in the order of arrival, each with the absolute list
index `subsetBegin + ownerIndex` of its owner, read off the script of replies: the
sub-batches follow each other in steps of `L` up to `endIndex`, and the replies of a
sub-batch stop with its first sentinel. -/
def arrivals (L endIndex : Int) : Int → List (Int × AliDCSMessage) →
    List (Int × List AliDCSValue)
  | _, [] => []
  | subsetBegin, (_, AliDCSMessage.resultSet ownerIndex values) :: rest =>
    if subsetBegin < endIndex then
      if ownerIndex < 0 then arrivals L endIndex (subsetBegin + L) rest
      else (ownerIndex + subsetBegin, values) :: arrivals L endIndex subsetBegin rest
    else []
  | _, _ :: _ => []

/-- The result sets among `arr` (each given with the absolute list index of its owner)
whose index designates `name`, in the order of `arr`. -/
def setsOf (list : List String) (arr : List (Int × List AliDCSValue)) (name : String) :
    List (Int × List AliDCSValue) :=
  arr.filter fun a => At list a.1 = some name

/-- The entry `name` is to have in the result map: none when no result set designates
the name, else the concatenation of the values of those that do, in the order of
arrival. -/
def mergedValues (list : List String) (arr : List (Int × List AliDCSValue)) (name : String) :
    Option (List AliDCSValue) :=
  if setsOf list arr name = [] then none
  else some ((setsOf list arr name).map fun a => a.2).flatten

/-- A list of five names, the first of which comes again as the last. -/
def fiveNames : List String := ["a", "b", "c", "d", "a"]

/-- A client with batch limit 2 in front of a server that answers three sub-batches: in
the first the values of entry 0 come split into two result sets, with a result set of
entry 1 between them. -/
def threeBatchClient : AliDCSClient :=
  clientOn [true, true, true] [1, 1, 1]
    [(12, AliDCSMessage.resultSet 0 [⟨1, 5⟩]), (12, AliDCSMessage.resultSet 1 [⟨3, 7⟩]),
     (12, AliDCSMessage.resultSet 0 [⟨4, 7⟩]), (8, AliDCSMessage.resultSet (-1) []),
     (12, AliDCSMessage.resultSet 0 [⟨9, 9⟩]), (8, AliDCSMessage.resultSet (-1) []),
     (12, AliDCSMessage.resultSet 0 [⟨10, 9⟩]), (8, AliDCSMessage.resultSet (-1) [])]

/-- The map the call on `threeBatchClient` and `fiveNames` returns. -/
def threeBatchMap : TMap :=
  [("a", [⟨1, 5⟩, ⟨4, 7⟩, ⟨10, 9⟩]), ("b", [⟨3, 7⟩]), ("c", [⟨9, 9⟩])]

/-- The messages sent, in order, according to a record of calls. -/
def sentMessages (log : List NetCall) : List AliDCSMessage :=
  log.filterMap fun x =>
    match x with
    | NetCall.send m _ => some m
    | _ => none

/-- The number of sub-batches of the range `[startIndex, endIndex)` for batch limit `L`:
the quotient `(endIndex - startIndex) / L` rounded up, none for an empty range. -/
def subBatchCount (startIndex endIndex L : Int) : Nat :=
  ((endIndex - startIndex + L - 1) / L).toNat

/-- The index range `[startIndex + i * L, min (startIndex + (i + 1) * L) endIndex)` of the
sub-batch number `i`, as the pair of its bounds. -/
def subBatch (startIndex endIndex L : Int) (i : Nat) : Int × Int :=
  (startIndex + i * L, min (startIndex + (i + 1) * L) endIndex)

/-- The sub-batches of the range `[startIndex, endIndex)` for batch limit `L`, in order. -/
def subBatches (startIndex endIndex L : Int) : List (Int × Int) :=
  (List.range (subBatchCount startIndex endIndex L)).map (subBatch startIndex endIndex L)

/-- The largest sum `subsetBegin + fMultiSplit` that a list query over the range
`[startIndex, endIndex)` with batch limit `L` forms when it runs through all its
sub-batches: the begin of the last sub-batch plus `L`. -/
def lastSum (startIndex endIndex L : Int) : Int :=
  startIndex + subBatchCount startIndex endIndex L * L

/-- The names `list[b..e)`, in list order. -/
def namesOf (list : List String) (b e : Int) : List String :=
  (list.drop b.toNat).take (e - b).toNat

/-- The request of the sub-batch `[be.1, be.2)` for batch limit `L`: a plain `Request`
with the name `list[be.1]` when `L` is 1, else a `MultiRequest` with the names
`list[be.1..be.2)`. -/
def requestFor (L : Int) (reqType : RequestType) (startTime endTime : Nat)
    (list : List String) (be : Int × Int) : AliDCSMessage :=
  if L = 1 then AliDCSMessage.request reqType startTime endTime ((At list be.1).getD "")
  else AliDCSMessage.multiRequest reqType startTime endTime (namesOf list be.1 be.2)

end AliDCSClient

/-- Whether the call is a receive step that yields a negative code. -/
def NetCall.isFailedReceive : NetCall → Bool
  | NetCall.receive r m => decide (AliDCSClient.receiveCode r m < 0)
  | _ => false

namespace AliDCSClient

/-- What the calls `d` made by a list query say about failed receive steps: there is
none, or the one there is is the last call of all, the call returned null and the code of
the step is the retained result error code. -/
def FailsLast (d : List NetCall) (out : Exec (Option TMap) × AliDCSClient) : Prop :=
  (∀ x ∈ d, x.isFailedReceive = false) ∨
  ∃ d0 r m, d = d0 ++ [NetCall.receive r m] ∧ (∀ x ∈ d0, x.isFailedReceive = false) ∧
    receiveCode r m < 0 ∧ out.1 = Exec.ret none ∧ out.2.fResultErrorCode = receiveCode r m

/-- A client with batch limit 2 in front of a server that answers the first sub-batch and
replies to the second with an `Error` message. -/
def errorInSecondBatchClient : AliDCSClient :=
  clientOn [true, true, true] [1, 1, 1]
    [(12, AliDCSMessage.resultSet 0 [⟨1, 5⟩]), (8, AliDCSMessage.resultSet (-1) []),
     (12, AliDCSMessage.error 3 "no archive"),
     (12, AliDCSMessage.resultSet 0 [⟨9, 9⟩]), (8, AliDCSMessage.resultSet (-1) [])]

/-- The client `threeBatchClient` with a wire format that takes one name per
`MultiRequest`: the append of the second name of a sub-batch fails. -/
def oneNameClient : AliDCSClient :=
  { threeBatchClient with net := { threeBatchClient.net with maxNames := 1 } }

end AliDCSClient

/-! ## Transport: what a run of calls says -/

namespace SockCall

/-- Whether the call reports a hard error: a readiness poll with a negative result, or a
raw write or read with a result that is not positive. -/
def isHardError : SockCall → Bool
  | select _ _ res => decide (res < 0)
  | sendRaw _ _ res => decide (res ≤ 0)
  | recvRaw _ _ res => decide (res ≤ 0)

/-- Whether the call is a readiness poll that reports nothing ready (result 0). -/
def isZeroPoll : SockCall → Bool
  | select _ _ res => decide (res = 0)
  | _ => false

/-- The number of bytes the call moved. -/
def moved : SockCall → Int
  | select _ _ _ => 0
  | sendRaw _ _ res => if res > 0 then res else 0
  | recvRaw _ _ res => if res > 0 then res else 0

/-- Whether the call is a raw write or read that moved more bytes than it was asked
for. -/
def overshoots : SockCall → Bool
  | select _ _ _ => false
  | sendRaw _ length res => decide (length < res)
  | recvRaw _ length res => decide (length < res)

end SockCall

namespace Transport

/-- The number of polls among `d` that reported nothing ready. -/
def zeroPolls (d : List SockCall) : Nat := d.countP SockCall.isZeroPoll

/-- The number of bytes the calls `d` moved. -/
def transferred (d : List SockCall) : Int := (d.map SockCall.moved).sum

/-- The raw transfers among `d` continue each other: each starts at the offset `offset`
where the transfers before it stopped and asks for what is left up to `size`. -/
def Contiguous (size : Int) : Int → List SockCall → Prop
  | _, [] => True
  | offset, SockCall.select _ _ _ :: rest => Contiguous size offset rest
  | offset, SockCall.sendRaw o length res :: rest =>
    o = offset ∧ length = size - offset ∧
      Contiguous size (offset + SockCall.moved (SockCall.sendRaw o length res)) rest
  | offset, SockCall.recvRaw o length res :: rest =>
    o = offset ∧ length = size - offset ∧
      Contiguous size (offset + SockCall.moved (SockCall.recvRaw o length res)) rest

/-- The bytes of `buffer` that the raw writes among `d` wrote, in order. -/
def sentBytes (buffer : List Nat) : List SockCall → List Nat
  | [] => []
  | SockCall.sendRaw o _ res :: rest =>
    (if res > 0 then (buffer.drop o.toNat).take res.toNat else []) ++ sentBytes buffer rest
  | _ :: rest => sentBytes buffer rest

/-- The runs of the transfer loop shared by `SendBuffer` and `ReceiveBuffer`:
`XferRun R size interest t raw sent tries d code` says that the loop, entered with the
counters `sent` and `tries`, makes the calls `d` and returns `code`. -/
inductive XferRun (R size : Int) (interest : ESelect) (t : Nat)
    (raw : Int → Int → Int → SockCall) : Int → Int → List SockCall → Int → Prop
  | timeout (sent tries : Int) : ¬ (sent < size ∧ tries < R) → tries = R →
      XferRun R size interest t raw sent tries [] fgkTimeout
  | done (sent tries : Int) : ¬ (sent < size ∧ tries < R) → tries ≠ R →
      XferRun R size interest t raw sent tries [] sent
  | zero (sent tries : Int) (d : List SockCall) (code : Int) :
      sent < size → tries < R →
      XferRun R size interest t raw sent (tries + 1) d code →
      XferRun R size interest t raw sent tries (SockCall.select interest t 0 :: d) code
  | pollError (sent tries r : Int) : sent < size → tries < R → r < 0 →
      XferRun R size interest t raw sent tries [SockCall.select interest t r] fgkCommError
  | rawOk (sent tries r res : Int) (d : List SockCall) (code : Int) :
      sent < size → tries < R → 0 < r → 0 < res →
      XferRun R size interest t raw (sent + res) tries d code →
      XferRun R size interest t raw sent tries
        (SockCall.select interest t r :: raw sent (size - sent) res :: d) code
  | rawError (sent tries r res : Int) : sent < size → tries < R → 0 < r → res ≤ 0 →
      XferRun R size interest t raw sent tries
        [SockCall.select interest t r, raw sent (size - sent) res] fgkCommError

/-- The buffer and the unread bytes of the peer, given as a pair, after the raw reads
among `d`: each stores the bytes it read at its offset. -/
def storeBytes : List Nat × List Nat → List SockCall → List Nat × List Nat
  | state, [] => state
  | (buffer, rx), SockCall.recvRaw o _ res :: rest =>
    storeBytes
      (buffer.take o.toNat ++ (if res > 0 then rx.take res.toNat else []) ++
          buffer.drop (o.toNat + (if res > 0 then rx.take res.toNat else []).length),
        rx.drop (if res > 0 then rx.take res.toNat else []).length) rest
  | state, _ :: rest => storeBytes state rest

/-- Among the calls `d` the only one that can report a hard error is the last, and when it
does the code is `CommError`. -/
def HardLast (d : List SockCall) (code : Int) : Prop :=
  (∀ x ∈ d, x.isHardError = false) ∨
  ∃ d0 x, d = d0 ++ [x] ∧ (∀ y ∈ d0, y.isHardError = false) ∧ x.isHardError = true ∧
    code = fgkCommError

/-- A socket whose polls report: nothing ready, ready (2 bytes move), nothing ready,
ready (1 byte moves), ready; the peer has three bytes to read. -/
def slowSocket : TSocket :=
  { script := [0, 1, 2, 0, 1, 1, 1], rx := [5, 6, 7], tx := [], calls := [] }

/-- A socket whose second poll reports an error, with more results scripted behind. -/
def brokenSocket : TSocket :=
  { script := [1, 2, -1, 1, 1, 1], rx := [5, 6, 7], tx := [], calls := [] }

end Transport

namespace AliDCSClient

/-- The client after a receive that yielded the result `r` and the message `m` and left
the replies `tl` in the script. -/
def afterReceive (c : AliDCSClient) (r : Int) (m : AliDCSMessage)
    (tl : List (Int × AliDCSMessage)) : AliDCSClient :=
  { c with net := { c.net with replies := tl, log := c.net.log ++ [NetCall.receive r m] } }

/-- A client whose server never accepts a connection. -/
def refusedClient : AliDCSClient :=
  clientOn [false, false, false] [20] [(12, AliDCSMessage.resultSet 0 [⟨1, 5⟩])]

end AliDCSClient

/-- Whether the call opens a socket: one connection attempt. -/
def NetCall.isOpen : NetCall → Bool
  | NetCall.openSocket _ _ _ => true
  | _ => false

namespace AliDCSClient

/-- The calls of `n` connection attempts that fail, in order: each opens a socket that is
not valid and is followed by a sleep of `fTimeout`. -/
def failedAttempts (c : AliDCSClient) (n : Nat) : List NetCall :=
  (List.replicate n
    [NetCall.openSocket c.fHost c.fPort false, NetCall.sleep c.fTimeout]).flatten

/-- One sub-batch that succeeds. `TurnStep reqType list s e E st st1` says that the loop
over the sub-batches, at its head with the client, the `subsetBegin` and the map `st`,
connects, builds and sends the request, receives up to the sentinel, closes, and is at its
head again with `st1`. -/
inductive TurnStep (reqType : RequestType) (list : List String) (s e : Nat) (E : Int) :
    AliDCSClient × Int × TMap → AliDCSClient × Int × TMap → Prop
  | mk (c : AliDCSClient) (b : Int) (result result1 : TMap) (msg : AliDCSMessage)
      (c3 : AliDCSClient) (name : String) :
      b < E → IsConnected (Connect c).2 = true →
      BuildRequest (Connect c).2 reqType list s e b
        (subsetEndOf (Connect c).2.fMultiSplit E b) = Exec.ret (some msg) →
      0 ≤ (SendMessage (Connect c).2 msg).1 →
      ReceiveLoop ((afterSend (Connect c).2 msg).net.replies.length + 1)
        (afterSend (Connect c).2 msg) list b result = (Exec.ret (some result1), c3) →
      At list b = some name →
      TurnStep reqType list s e E (c, b, result)
        (Close c3, b + (Close c3).fMultiSplit, result1)

/-- The sub-batches before a given one. `Turns reqType list s e E k st st1` says that the
loop over the sub-batches, started with `st`, is at its head with `st1` after `k`
sub-batches that succeeded: `st1` is where sub-batch number `k` (counted from 0)
begins. -/
inductive Turns (reqType : RequestType) (list : List String) (s e : Nat) (E : Int) :
    Nat → AliDCSClient × Int × TMap → AliDCSClient × Int × TMap → Prop
  | start (st : AliDCSClient × Int × TMap) : Turns reqType list s e E 0 st st
  | step (k : Nat) (st st1 st2 : AliDCSClient × Int × TMap) :
      TurnStep reqType list s e E st st1 → Turns reqType list s e E k st1 st2 →
      Turns reqType list s e E (k + 1) st st2

/-- The client at the head of the next sub-batch, when the sub-batch that begins at
`subsetBegin` with the client `c`, the request `msg` and the map `result` succeeds. -/
def nextTurn (c : AliDCSClient) (msg : AliDCSMessage) (list : List String)
    (subsetBegin : Int) (result : TMap) : AliDCSClient :=
  Close (ReceiveLoop ((afterSend (Connect c).2 msg).net.replies.length + 1)
    (afterSend (Connect c).2 msg) list subsetBegin result).2

/-- A client with batch limit 2 whose server accepts the connection of the first sub-batch,
answers it, and refuses every later connection. -/
def secondRefusedClient : AliDCSClient :=
  clientOn [true, false, false] [1]
    [(12, AliDCSMessage.resultSet 0 [⟨1, 5⟩]), (8, AliDCSMessage.resultSet (-1) [])]

/-- The client `threeBatchClient` with requests that take names of one character only. -/
def shortNamesClient : AliDCSClient :=
  { threeBatchClient with net := { threeBatchClient.net with maxNameSize := 1 } }

/-- A list of five names, the fourth of which has two characters. -/
def longFourthName : List String := ["a", "b", "c", "dd", "a"]

/-- A client with batch limit 2 whose first sub-batch succeeds and whose second send
fails with the code -4. -/
def secondSendFailsClient : AliDCSClient :=
  clientOn [true, true, true] [1, -4, 1]
    [(12, AliDCSMessage.resultSet 0 [⟨1, 5⟩]), (8, AliDCSMessage.resultSet (-1) []),
     (12, AliDCSMessage.resultSet 0 [⟨9, 9⟩]), (8, AliDCSMessage.resultSet (-1) [])]

/-- Whether the calls are receives, ended by one close. -/
def receivesThenClose : List NetCall → Bool
  | [NetCall.close] => true
  | NetCall.receive _ _ :: rest => receivesThenClose rest
  | _ => false

/-- Whether the calls are the block of one sub-batch: the connection (attempts that fail,
each followed by its sleep, then the attempt that succeeds), one send, receives, and one
close that ends the block. -/
def isBlock : List NetCall → Bool
  | NetCall.openSocket _ _ false :: NetCall.sleep _ :: rest => isBlock rest
  | NetCall.openSocket _ _ true :: NetCall.send _ _ :: rest => receivesThenClose rest
  | _ => false

/-- Runs over a record of calls and keeps whether a connection is open. The result is
`none` when a socket is opened while a connection is open, or when a message is sent or
received while none is; else it says whether a connection is open after the calls. -/
def connAfter : Bool → List NetCall → Option Bool
  | isOpen, [] => some isOpen
  | isOpen, NetCall.openSocket _ _ valid :: rest =>
    if isOpen then none else connAfter valid rest
  | _, NetCall.close :: rest => connAfter false rest
  | isOpen, NetCall.sleep _ :: rest => connAfter isOpen rest
  | isOpen, NetCall.send _ _ :: rest => if isOpen then connAfter isOpen rest else none
  | isOpen, NetCall.receive _ _ :: rest => if isOpen then connAfter isOpen rest else none

/-- The result sets received in the calls `d` of the sub-batch that begins at
`subsetBegin`, in the order of the calls, each with the absolute list index of its owner;
a sentinel is no result set. -/
def receivedSets (subsetBegin : Int) (d : List NetCall) : List (Int × List AliDCSValue) :=
  d.filterMap fun x =>
    match x with
    | NetCall.receive _ (AliDCSMessage.resultSet ownerIndex values) =>
      if ownerIndex < 0 then none else some (ownerIndex + subsetBegin, values)
    | _ => none

/-- The result sets received in the blocks of consecutive sub-batches, the first of which
begins at `subsetBegin`, for batch limit `L`: block after block, in the order of the
calls. -/
def blockSets (L : Int) : Int → List (List NetCall) → List (Int × List AliDCSValue)
  | _, [] => []
  | subsetBegin, d :: rest => receivedSets subsetBegin d ++ blockSets L (subsetBegin + L) rest

/-- A client with batch limit 2 that is connected before the call, in front of a server
that refuses the first connection attempt and then answers two sub-batches. -/
def retryClient : AliDCSClient :=
  { clientOn [false, true, true] [1, 1]
      [(12, AliDCSMessage.resultSet 0 [⟨1, 5⟩]), (8, AliDCSMessage.resultSet (-1) []),
       (12, AliDCSMessage.resultSet 0 [⟨2, 6⟩]), (8, AliDCSMessage.resultSet (-1) [])]
    with fSocket := some true }

end AliDCSClient

namespace Transport

/-- Modelled from the spec: the wire format of a message, as far as `ReceiveMessage` uses
it. `HEADER_SIZE` is the fixed size of a header; `SetRawHeader` decodes a header and
yields the body size it announces (`GetBodySize`), or nothing when the header does not
decode; `LoadFromBuffer` decodes the message from its header and body. -/
structure Codec where
  HEADER_SIZE : Nat
  SetRawHeader : List Nat → Option Nat
  LoadFromBuffer : List Nat → List Nat → AliDCSMessage

/-- `AliDCSClient::ReceiveMessage`: the return value, the message when it was decoded
(`LoadFromBuffer` was called), and the socket after the call. The header buffer and the
body buffer of the message are zero before they are read into. -/
def ReceiveMessage (codec : Codec) (fRetries : Int) (fTimeout : Nat) (fSocket : TSocket) :
    Option (Int × Option AliDCSMessage × TSocket) :=
  match ReceiveBuffer fRetries fTimeout fSocket (List.replicate codec.HEADER_SIZE 0)
      codec.HEADER_SIZE with
  | none => none
  | some (sResult, header, fSocket) =>
    if sResult < 0 then some (sResult, none, fSocket)
    else
      match codec.SetRawHeader header with
      | none => some (fgkBadMessage, none, fSocket)
      | some bodySize =>
        match ReceiveBuffer fRetries fTimeout fSocket (List.replicate bodySize 0)
            bodySize with
        | none => none
        | some (sResult, body, fSocket) =>
          if sResult < 0 then some (sResult, none, fSocket)
          else
            some (codec.HEADER_SIZE + sResult, some (codec.LoadFromBuffer header body),
              fSocket)

/-- A wire format with headers of two bytes: the byte 1, then the size of the body; the
message decoded is told by the sum of the bytes of the body. -/
def sumCodec : Codec :=
  { HEADER_SIZE := 2,
    SetRawHeader := fun header =>
      match header with
      | [1, n] => some n
      | _ => none,
    LoadFromBuffer := fun _ body => AliDCSMessage.other body.sum }

/-- A socket whose peer has sent a header that announces three bytes and a body of three
bytes; the header comes at once, the body in two pieces. -/
def framedSocket : TSocket :=
  { script := [1, 2, 1, 2, 0, 1, 1], rx := [1, 3, 7, 8, 9], tx := [], calls := [] }

end Transport

namespace AliDCSClient

/-- `AliDCSClient::fgkBadStateString`. -/
def fgkBadStateString : String := "BadState"

/-- `AliDCSClient::fgkInvalidParameterString`. -/
def fgkInvalidParameterString : String := "InvalidParameter"

/-- `AliDCSClient::fgkTimeoutString`. -/
def fgkTimeoutString : String := "Timeout"

/-- `AliDCSClient::fgkBadMessageString`. -/
def fgkBadMessageString : String := "BadMessage"

/-- `AliDCSClient::fgkCommErrorString`. -/
def fgkCommErrorString : String := "CommunicationError"

/-- `AliDCSClient::fgkServerErrorString`. -/
def fgkServerErrorString : String := "ServerError"

/-- `AliDCSClient::fgkUnknownDPString`. -/
def fgkUnknownDPString : String := "UnknownAlias/DP"

/-- `AliDCSClient::GetErrorString`: the `switch` over the code, the cases in the order of
the source. -/
def GetErrorString (code : Int) : String :=
  if code = fgkBadState then fgkBadStateString
  else if code = fgkInvalidParameter then fgkInvalidParameterString
  else if code = fgkTimeout then fgkTimeoutString
  else if code = fgkBadMessage then fgkBadMessageString
  else if code = fgkCommError then fgkCommErrorString
  else if code = fgkServerError then fgkServerErrorString
  else if code = fgkUnknownDP then fgkUnknownDPString
  else "UnknownCode"

/-- Whether `code` is one of the seven error codes. -/
def isErrorCode (code : Int) : Bool :=
  decide (code = fgkBadState ∨ code = fgkInvalidParameter ∨ code = fgkTimeout ∨
    code = fgkBadMessage ∨ code = fgkCommError ∨ code = fgkServerError ∨
    code = fgkUnknownDP)

/-- A client that is connected and retains the code of a call that failed, in front of a
server that would answer. -/
def staleClient : AliDCSClient :=
  { threeBatchClient with fSocket := some true, fResultErrorCode := fgkTimeout }

/-- The entity names a message asks for. -/
def requestedNames : AliDCSMessage → List String
  | AliDCSMessage.request _ _ _ name => [name]
  | AliDCSMessage.multiRequest _ _ _ names => names
  | _ => []

end AliDCSClient

namespace SockCall

/-- Whether the call is a readiness poll. -/
def isPoll : SockCall → Bool
  | select _ _ _ => true
  | _ => false

/-- Whether the call is a raw transfer: a raw write or a raw read. -/
def isRaw : SockCall → Bool
  | select _ _ _ => false
  | _ => true

end SockCall

namespace Transport

/-- The number of readiness polls among `d`. -/
def polls (d : List SockCall) : Nat := d.countP SockCall.isPoll

/-- The number of raw transfers among `d`. -/
def rawTransfers (d : List SockCall) : Nat := d.countP SockCall.isRaw

end Transport

namespace AliDCSClient

/-- A client in front of a server that sends two records, then a result set of entity 0
without records, then three records more and the end sentinel. -/
def emptySetClient : AliDCSClient :=
  clientOn [true] [20]
    [(12, AliDCSMessage.resultSet 0 [⟨1, 5⟩, ⟨2, 6⟩]),
     (8, AliDCSMessage.resultSet 0 []),
     (14, AliDCSMessage.resultSet 0 [⟨3, 7⟩, ⟨4, 8⟩, ⟨5, 9⟩]),
     (8, AliDCSMessage.resultSet (-1) [])]

end AliDCSClient

namespace AliDCSClient

/-- The owner indices of the result sets of a list query in the order of arrival, each
given as the pair of the begin of the sub-batch it arrives in and the owner index; read
off the script of replies the way `arrivals` is. -/
def ownerArrivals (L endIndex : Int) : Int → List (Int × AliDCSMessage) → List (Int × Int)
  | _, [] => []
  | subsetBegin, (_, AliDCSMessage.resultSet ownerIndex _) :: rest =>
    if subsetBegin < endIndex then
      if ownerIndex < 0 then ownerArrivals L endIndex (subsetBegin + L) rest
      else (subsetBegin, ownerIndex) :: ownerArrivals L endIndex subsetBegin rest
    else []
  | _, _ :: _ => []

/-- The names under which the map has an entry, in the order of entry. -/
def keysOf (m : TMap) : List String := m.map Prod.fst

/-- A client with batch limit 2 in front of a server that answers a sub-batch of one name
with result sets for the owner indices 1 and 2. -/
def strayOwnerClient : AliDCSClient :=
  clientOn [true] [1]
    [(12, AliDCSMessage.resultSet 1 [⟨1, 5⟩]), (12, AliDCSMessage.resultSet 2 [⟨2, 6⟩]),
     (8, AliDCSMessage.resultSet (-1) [])]

/-- A client with batch limit 2 in front of a server that answers the sub-batch "a", "b"
with a result set of "b" without records, one record of "a" and a result set of "a"
without records, and the sub-batch "c", "d" with one record of "c" and nothing for "d". -/
def emptySetsClient : AliDCSClient :=
  clientOn [true, true] [1, 1]
    [(8, AliDCSMessage.resultSet 1 []), (12, AliDCSMessage.resultSet 0 [⟨1, 5⟩]),
     (8, AliDCSMessage.resultSet 0 []), (8, AliDCSMessage.resultSet (-1) []),
     (12, AliDCSMessage.resultSet 0 [⟨9, 9⟩]), (8, AliDCSMessage.resultSet (-1) [])]

end AliDCSClient

namespace SockCall

/-- The result of the call. -/
def result : SockCall → Int
  | select _ _ res => res
  | sendRaw _ _ res => res
  | recvRaw _ _ res => res

end SockCall

namespace Transport

/-- The results a socket with the given script gives to its first `n` calls, in order: the
entries of the script, and 0 once the script is used up. -/
def scriptResults (script : List Int) (n : Nat) : List Int :=
  (List.range n).map fun i => script.getD i 0

/-- A socket whose peer is silent: every poll reports nothing ready. -/
def silentSocket : TSocket :=
  { script := [], rx := [], tx := [], calls := [] }

end Transport

namespace AliDCSClient

/-- A client with batch limit 2 in front of a server that answers with a result set whose
owner index, 5, designates no entry of a list of three names, and then with an `Error`
message. -/
def outOfListOwnerClient : AliDCSClient :=
  clientOn [true] [1]
    [(12, AliDCSMessage.resultSet 5 [⟨1, 5⟩]), (12, AliDCSMessage.error 3 "no archive")]

/-- A client with batch limit 2 in front of a server that answers with a result set whose
owner index, 5, designates no entry of a list of three names, then with a record of the
entry 0 and the sentinel. -/
def droppedSetClient : AliDCSClient :=
  clientOn [true] [1]
    [(12, AliDCSMessage.resultSet 5 [⟨1, 5⟩]), (12, AliDCSMessage.resultSet 0 [⟨2, 6⟩]),
     (8, AliDCSMessage.resultSet (-1) [])]

/-- A client with batch limit 2 in front of a server that answers two sub-batches, each
with one record of its first entry. -/
def clampClient : AliDCSClient :=
  clientOn [true, true] [1, 1]
    [(12, AliDCSMessage.resultSet 0 [⟨1, 5⟩]), (8, AliDCSMessage.resultSet (-1) []),
     (12, AliDCSMessage.resultSet 0 [⟨9, 9⟩]), (8, AliDCSMessage.resultSet (-1) [])]

/-- Whether the first of the calls is a receive. -/
def startsWithReceive : List NetCall → Bool
  | NetCall.receive _ _ :: _ => true
  | _ => false

/-- Whether every receive of a result set with an owner index that is not negative is
directly followed by a further receive. -/
def setsGoOn : List NetCall → Bool
  | [] => true
  | NetCall.receive _ (AliDCSMessage.resultSet k _) :: rest =>
    (decide (k < 0) || startsWithReceive rest) && setsGoOn rest
  | _ :: rest => setsGoOn rest

end AliDCSClient

/-! # Properties -/

namespace AliDCSClient

/-! ## Frame lemmas: what the steps leave alone -/

theorem Close_net_replies (c : AliDCSClient) : (Close c).net.replies = c.net.replies := by
  unfold Close; cases c.fSocket <;> rfl

theorem ConnectLoop_replies (n : Nat) (c : AliDCSClient) :
    (ConnectLoop n c).2.net.replies = c.net.replies := by
  induction n generalizing c with
  | zero => rfl
  | succ n ih =>
    unfold ConnectLoop
    split
    · rfl
    · rw [ih]
    · rw [ih]

theorem Connect_replies (c : AliDCSClient) : (Connect c).2.net.replies = c.net.replies := by
  unfold Connect; rw [ConnectLoop_replies, Close_net_replies]

theorem SendMessage_replies (c : AliDCSClient) (m : AliDCSMessage) :
    (SendMessage c m).2.net.replies = c.net.replies := by
  unfold SendMessage; split <;> rfl

theorem ReceiveMessage_replies (c : AliDCSClient) :
    (ReceiveMessage c).2.2.net.replies = c.net.replies.tail := by
  unfold ReceiveMessage; split <;> simp_all

theorem ReceiveValueSet_replies (c : AliDCSClient) (result : List AliDCSValue) (k : Int) :
    (ReceiveValueSet c result k).2.2.2.net.replies = c.net.replies.tail := by
  have h := ReceiveMessage_replies c
  unfold ReceiveValueSet
  generalize ReceiveMessage c = rm at h ⊢
  obtain ⟨r, m, c1⟩ := rm
  simp only at h ⊢
  split
  · exact h
  · split
    · split <;> exact h
    · exact h
    · exact h
    · exact h

theorem ReceiveValueSet_empty (c : AliDCSClient) (result : List AliDCSValue) (k : Int)
    (h : c.net.replies = []) : (ReceiveValueSet c result k).1 = fgkTimeout := by
  unfold ReceiveValueSet ReceiveMessage
  rw [h]
  simp [fgkTimeout]

/-! ## The single entity query -/

theorem ReceiveValueSet_resultSet (c : AliDCSClient) (result : List AliDCSValue)
    (k r owner : Int) (values : List AliDCSValue) (tl : List (Int × AliDCSMessage))
    (h : c.net.replies = (r, AliDCSMessage.resultSet owner values) :: tl) (hr : 0 ≤ r) :
    ∃ c1, c1.net.replies = tl ∧
      ReceiveValueSet c result k =
        if owner < 0 then (0, result, owner, c1)
        else ((values.length : Int), result ++ values, owner, c1) := by
  unfold ReceiveValueSet ReceiveMessage
  rw [h]
  simp only [not_lt.mpr hr, if_false]
  refine ⟨_, ?_, rfl⟩
  rfl

theorem GetValuesLoop_sets (sets : List (Int × Int × List AliDCSValue)) :
    ∀ (fuel : Nat) (c : AliDCSClient) (result : List AliDCSValue) (n rEnd sentinel : Int)
      (vsEnd : List AliDCSValue) (rest : List (Int × AliDCSMessage)),
      sets.length < fuel →
      (∀ s ∈ sets, 0 ≤ s.1 ∧ 0 ≤ s.2.1 ∧ s.2.2 ≠ []) →
      0 ≤ rEnd → sentinel < 0 →
      c.net.replies =
        resultSetReplies sets ++ (rEnd, AliDCSMessage.resultSet sentinel vsEnd) :: rest →
      ∃ c1, c1.net.replies = rest ∧
        GetValuesLoop fuel c result n =
          some (n + (sets.map fun s => (s.2.2.length : Int)).sum,
                result ++ (sets.map fun s => s.2.2).flatten, c1) := by
  induction sets with
  | nil =>
    intro fuel c result n rEnd sentinel vsEnd rest hf _ hE hS hrep
    obtain ⟨fuel, rfl⟩ : ∃ k, fuel = k + 1 := ⟨fuel - 1, by simp at hf; omega⟩
    simp only [resultSetReplies, List.map_nil, List.nil_append] at hrep
    obtain ⟨c1, hc1, hrv⟩ :=
      ReceiveValueSet_resultSet c result 0 rEnd sentinel vsEnd rest hrep hE
    refine ⟨c1, hc1, ?_⟩
    unfold GetValuesLoop
    rw [hrv]
    simp [hS]
  | cons s sets ih =>
    intro fuel c result n rEnd sentinel vsEnd rest hf hsets hE hS hrep
    obtain ⟨fuel, rfl⟩ : ∃ k, fuel = k + 1 := ⟨fuel - 1, by simp at hf; omega⟩
    have hs := hsets s (List.mem_cons_self _ _)
    simp only [resultSetReplies, List.map_cons, List.cons_append] at hrep
    obtain ⟨c1, hc1, hrv⟩ :=
      ReceiveValueSet_resultSet c result 0 s.1 s.2.1 s.2.2 _ hrep hs.1
    have hlen : (0 : Int) < (s.2.2.length : Int) := by
      have := List.length_pos.mpr hs.2.2
      exact_mod_cast this
    obtain ⟨c2, hc2, hloop⟩ := ih fuel c1 (result ++ s.2.2) (n + s.2.2.length) rEnd sentinel
      vsEnd rest (by simp at hf; omega) (fun t ht => hsets t (List.mem_cons_of_mem _ ht))
      hE hS hc1
    refine ⟨c2, hc2, ?_⟩
    unfold GetValuesLoop
    rw [hrv]
    simp only [not_lt.mpr hs.2.1, if_false, not_le.mpr hlen]
    rw [hloop]
    simp [List.append_assoc, add_assoc]

theorem GetValuesLoop_returns (fuel : Nat) :
    ∀ (c : AliDCSClient) (result : List AliDCSValue) (n : Int),
      c.net.replies.length < fuel →
      ∃ n1 result1 c1, GetValuesLoop fuel c result n = some (n1, result1, c1) ∧ n ≤ n1 := by
  induction fuel with
  | zero => intro c result n h; omega
  | succ fuel ih =>
    intro c result n h
    unfold GetValuesLoop
    have hrep := ReceiveValueSet_replies c result 0
    have hemp := ReceiveValueSet_empty c result 0
    generalize ReceiveValueSet c result 0 = rv at hrep hemp ⊢
    obtain ⟨sResult, result1, o, c1⟩ := rv
    simp only at hrep hemp ⊢
    by_cases hs : sResult ≤ 0
    · simp only [hs, if_true]
      exact ⟨n, result1, c1, rfl, le_refl _⟩
    · simp only [hs, if_false]
      have hne : c.net.replies ≠ [] := by
        intro h0
        rw [hemp h0] at hs
        exact hs (by decide)
      have hlen : c1.net.replies.length < fuel := by
        rw [hrep, List.length_tail]
        have := List.length_pos.mpr hne
        omega
      obtain ⟨n1, r1, c2, h1, h2⟩ := ih c1 result1 (n + sResult) hlen
      exact ⟨n1, r1, c2, h1, by omega⟩

/-- C1. Single entity `GetValues`, happy path: when the connection is established, the
request is sent, and the server answers with result sets that are no sentinel and carry
at least one value record each, followed by the end sentinel, the call returns the total
number of records, the array is its previous content followed by the records in the
order of arrival, and nothing after the sentinel is read. -/
theorem GetValues_happy_path (c : AliDCSClient) (reqType : RequestType) (reqString : String)
    (startTime endTime : Nat) (result : List AliDCSValue)
    (sets : List (Int × Int × List AliDCSValue)) (rEnd sentinel : Int)
    (vsEnd : List AliDCSValue) (rest : List (Int × AliDCSMessage))
    (hconn : IsConnected (Connect c).2 = true)
    (hsend : 0 ≤ (SendMessage (Connect c).2
      (AliDCSMessage.CreateRequestMessage reqType startTime endTime reqString)).1)
    (hsets : ∀ s ∈ sets, 0 ≤ s.1 ∧ 0 ≤ s.2.1 ∧ s.2.2 ≠ [])
    (hEnd : 0 ≤ rEnd) (hsentinel : sentinel < 0)
    (hreplies : c.net.replies =
      resultSetReplies sets ++ (rEnd, AliDCSMessage.resultSet sentinel vsEnd) :: rest) :
    ∃ c1, c1.net.replies = rest ∧
      GetValues c reqType reqString startTime endTime result =
        some ((sets.map fun s => (s.2.2.length : Int)).sum,
              result ++ (sets.map fun s => s.2.2).flatten, c1) := by
  unfold GetValues
  simp only [hconn, Bool.not_true, Bool.false_eq_true, if_false]
  have hrep : (SendMessage (Connect c).2
      (AliDCSMessage.CreateRequestMessage reqType startTime endTime reqString)).2.net.replies =
      resultSetReplies sets ++ (rEnd, AliDCSMessage.resultSet sentinel vsEnd) :: rest := by
    rw [SendMessage_replies, Connect_replies, hreplies]
  generalize SendMessage (Connect c).2
      (AliDCSMessage.CreateRequestMessage reqType startTime endTime reqString) = sm
    at hsend hrep ⊢
  obtain ⟨sResult, c2⟩ := sm
  simp only at hsend hrep ⊢
  simp only [not_lt.mpr hsend, if_false]
  obtain ⟨c3, hc3, hloop⟩ := GetValuesLoop_sets sets (c2.net.replies.length + 1) c2 result 0
    rEnd sentinel vsEnd rest (by rw [hrep]; simp [resultSetReplies]; omega) hsets hEnd
    hsentinel hrep
  rw [hloop]
  exact ⟨Close c3, by rw [Close_net_replies, hc3], by simp⟩

/-- C1, at a concrete input: the connection opens at the second try, the server sends two
records, then one record, then the sentinel; the call returns 3 and the array holds the
three records behind its previous content. -/
theorem GetValues_happy_path_witness :
    ∃ c1, c1.net.replies = [] ∧
      GetValues (clientOn [false, true] [20]
          [(12, AliDCSMessage.resultSet 0 [⟨1, 5⟩, ⟨2, 6⟩]),
           (10, AliDCSMessage.resultSet 0 [⟨3, 7⟩]),
           (8, AliDCSMessage.resultSet (-1) [])])
        RequestType.kAlias "a" 0 10 [⟨0, 4⟩] =
      some (3, [⟨0, 4⟩, ⟨1, 5⟩, ⟨2, 6⟩, ⟨3, 7⟩], c1) :=
  GetValues_happy_path _ RequestType.kAlias "a" 0 10 [⟨0, 4⟩]
    [(12, 0, [⟨1, 5⟩, ⟨2, 6⟩]), (10, 0, [⟨3, 7⟩])] 8 (-1) [] []
    (by decide) (by decide) (by decide) (by decide) (by decide) (by decide)

/-- Whenever the connection is established and the request is sent, the single entity
`GetValues` returns, and what it returns is a count, never a negative code: the code of a
failed receive only ends the loop. -/
theorem GetValues_returns_count (c : AliDCSClient) (reqType : RequestType)
    (reqString : String) (startTime endTime : Nat) (result : List AliDCSValue)
    (hconn : IsConnected (Connect c).2 = true)
    (hsend : 0 ≤ (SendMessage (Connect c).2
      (AliDCSMessage.CreateRequestMessage reqType startTime endTime reqString)).1) :
    ∃ n result1 c1,
      GetValues c reqType reqString startTime endTime result = some (n, result1, c1) ∧
      0 ≤ n := by
  unfold GetValues
  simp only [hconn, Bool.not_true, Bool.false_eq_true, if_false]
  generalize SendMessage (Connect c).2
      (AliDCSMessage.CreateRequestMessage reqType startTime endTime reqString) = sm
    at hsend ⊢
  obtain ⟨sResult, c2⟩ := sm
  simp only at hsend ⊢
  simp only [not_lt.mpr hsend, if_false]
  obtain ⟨n1, r1, c3, h1, h2⟩ :=
    GetValuesLoop_returns (c2.net.replies.length + 1) c2 result 0 (Nat.lt_succ_self _)
  rw [h1]
  exact ⟨n1, r1, Close c3, rfl, h2⟩

/-- C2, the code at the failing input: the server answers the request with an `Error`
message; the receive step yields `ServerError`, and the call returns 0. With two records
received before the `Error` message it returns 2. -/
theorem GetValues_receive_error_lost :
    (ReceiveValueSet (clientOn [] [] [(12, AliDCSMessage.error 3 "no archive")]) [] 0).1 =
      fgkServerError ∧
    (GetValues (clientOn [true] [20] [(12, AliDCSMessage.error 3 "no archive")])
      RequestType.kAlias "a" 0 10 []).map (fun r => r.1) = some 0 ∧
    (GetValues (clientOn [true] [20]
        [(12, AliDCSMessage.resultSet 0 [⟨1, 5⟩, ⟨2, 6⟩]),
         (12, AliDCSMessage.error 3 "no archive")])
      RequestType.kAlias "a" 0 10 []).map (fun r => (r.1, r.2.1)) =
      some (2, [⟨1, 5⟩, ⟨2, 6⟩]) := by
  decide

/-! ## The list query: frame and log lemmas -/

theorem Close_fMultiSplit (c : AliDCSClient) : (Close c).fMultiSplit = c.fMultiSplit := by
  unfold Close; cases c.fSocket <;> rfl

theorem ConnectLoop_fMultiSplit (n : Nat) (c : AliDCSClient) :
    (ConnectLoop n c).2.fMultiSplit = c.fMultiSplit := by
  induction n generalizing c with
  | zero => rfl
  | succ n ih =>
    unfold ConnectLoop
    split
    · rfl
    · rw [ih]
    · rw [ih]

theorem Connect_fMultiSplit (c : AliDCSClient) : (Connect c).2.fMultiSplit = c.fMultiSplit := by
  unfold Connect; rw [ConnectLoop_fMultiSplit, Close_fMultiSplit]

theorem SendMessage_fMultiSplit (c : AliDCSClient) (m : AliDCSMessage) :
    (SendMessage c m).2.fMultiSplit = c.fMultiSplit := by
  unfold SendMessage; split <;> rfl

theorem ReceiveMessage_eq (c : AliDCSClient) :
    ReceiveMessage c = ((nextReply c).1, (nextReply c).2,
      { c with net := { c.net with
          replies := c.net.replies.tail,
          log := c.net.log ++ [NetCall.receive (nextReply c).1 (nextReply c).2] } }) := by
  unfold ReceiveMessage nextReply
  split <;> rename_i h <;> simp [h]

theorem ReceiveValueSet_fst (c : AliDCSClient) (result : List AliDCSValue) (k : Int) :
    (ReceiveValueSet c result k).1 = receiveCode (nextReply c).1 (nextReply c).2 := by
  unfold ReceiveValueSet receiveCode
  rw [ReceiveMessage_eq]
  generalize nextReply c = rm
  obtain ⟨r, m⟩ := rm
  dsimp only
  by_cases hr : r < 0
  · simp only [hr, if_true]
  · simp only [hr, if_false]
    cases m <;> try rfl
    dsimp only
    split <;> rfl

theorem ReceiveValueSet_net (c : AliDCSClient) (result : List AliDCSValue) (k : Int) :
    (ReceiveValueSet c result k).2.2.2.net = { c.net with
          replies := c.net.replies.tail,
          log := c.net.log ++ [NetCall.receive (nextReply c).1 (nextReply c).2] } := by
  unfold ReceiveValueSet
  rw [ReceiveMessage_eq]
  generalize nextReply c = rm
  obtain ⟨r, m⟩ := rm
  dsimp only
  by_cases hr : r < 0
  · simp only [hr, if_true]
  · simp only [hr, if_false]
    cases m <;> try rfl
    dsimp only
    split <;> rfl

theorem ReceiveValueSet_fMultiSplit (c : AliDCSClient) (result : List AliDCSValue) (k : Int) :
    (ReceiveValueSet c result k).2.2.2.fMultiSplit = c.fMultiSplit := by
  unfold ReceiveValueSet
  rw [ReceiveMessage_eq]
  generalize nextReply c = rm
  obtain ⟨r, m⟩ := rm
  dsimp only
  by_cases hr : r < 0
  · simp only [hr, if_true]
  · simp only [hr, if_false]
    cases m <;> try rfl
    dsimp only
    split <;> rfl

theorem ReceiveValueSet_fSocket (c : AliDCSClient) (result : List AliDCSValue) (k : Int) :
    (ReceiveValueSet c result k).2.2.2.fSocket = c.fSocket := by
  unfold ReceiveValueSet
  rw [ReceiveMessage_eq]
  generalize nextReply c = rm
  obtain ⟨r, m⟩ := rm
  dsimp only
  by_cases hr : r < 0
  · simp only [hr, if_true]
  · simp only [hr, if_false]
    cases m <;> try rfl
    dsimp only
    split <;> rfl

theorem ReceiveLoop_fMultiSplit (fuel : Nat) :
    ∀ (c : AliDCSClient) (list : List String) (b : Int) (result : TMap),
      (ReceiveLoop fuel c list b result).2.fMultiSplit = c.fMultiSplit := by
  induction fuel with
  | zero => intro c list b result; rfl
  | succ fuel ih =>
    intro c list b result
    unfold ReceiveLoop
    have h := ReceiveValueSet_fMultiSplit c [] (-1)
    generalize ReceiveValueSet c [] (-1) = rv at h ⊢
    obtain ⟨sResult, resultSet, ownerIndex, c1⟩ := rv
    simp only at h ⊢
    split
    · exact h
    · split
      · exact h
      · split
        · rw [ih]; exact h
        · split
          · rw [ih]; exact h
          · rw [ih]; exact h

theorem Close_log (c : AliDCSClient) :
    ∃ d, (Close c).net.log = c.net.log ++ d ∧ ∀ x ∈ d, x.isTransfer = false := by
  unfold Close
  cases c.fSocket with
  | none => exact ⟨[], by simp, by simp⟩
  | some v => exact ⟨[NetCall.close], rfl, by simp [NetCall.isTransfer]⟩

theorem ConnectLoop_log (n : Nat) :
    ∀ c : AliDCSClient, ∃ d, (ConnectLoop n c).2.net.log = c.net.log ++ d ∧
      ∀ x ∈ d, x.isTransfer = false := by
  induction n with
  | zero => intro c; exact ⟨[], by simp [ConnectLoop], by simp⟩
  | succ n ih =>
    intro c
    unfold ConnectLoop
    split
    · exact ⟨[NetCall.openSocket c.fHost c.fPort true], rfl, by simp [NetCall.isTransfer]⟩
    · obtain ⟨d, hd, hq⟩ := ih { c with
        fSocket := none,
        net := { c.net with accepts := _,
                            log := c.net.log ++
                              [NetCall.openSocket c.fHost c.fPort false, NetCall.sleep c.fTimeout] } }
      refine ⟨[NetCall.openSocket c.fHost c.fPort false, NetCall.sleep c.fTimeout] ++ d, ?_, ?_⟩
      · rw [hd]; simp
      · intro x hx
        simp only [List.mem_append, List.mem_cons, List.mem_singleton] at hx
        rcases hx with (rfl | rfl | h) | h
        · rfl
        · rfl
        · exact absurd h (List.not_mem_nil _)
        · exact hq x h
    · obtain ⟨d, hd, hq⟩ := ih { c with
        fSocket := none,
        net := { c.net with log := c.net.log ++
                              [NetCall.openSocket c.fHost c.fPort false, NetCall.sleep c.fTimeout] } }
      refine ⟨[NetCall.openSocket c.fHost c.fPort false, NetCall.sleep c.fTimeout] ++ d, ?_, ?_⟩
      · rw [hd]; simp
      · intro x hx
        simp only [List.mem_append, List.mem_cons, List.mem_singleton] at hx
        rcases hx with (rfl | rfl | h) | h
        · rfl
        · rfl
        · exact absurd h (List.not_mem_nil _)
        · exact hq x h

theorem Connect_log (c : AliDCSClient) :
    ∃ d, (Connect c).2.net.log = c.net.log ++ d ∧ ∀ x ∈ d, x.isTransfer = false := by
  unfold Connect
  obtain ⟨d1, h1, q1⟩ := Close_log c
  obtain ⟨d2, h2, q2⟩ := ConnectLoop_log c.fRetries.toNat (Close c)
  refine ⟨d1 ++ d2, by rw [h2, h1, List.append_assoc], ?_⟩
  intro x hx
  rcases List.mem_append.mp hx with h | h
  · exact q1 x h
  · exact q2 x h

theorem SendMessage_log (c : AliDCSClient) (m : AliDCSMessage) :
    (SendMessage c m).2.net.log = c.net.log ++ [NetCall.send m (SendMessage c m).1] := by
  unfold SendMessage; split <;> rfl

/-! ## The list query: the receive loop -/

theorem receiveCode_nonneg (r : Int) (m : AliDCSMessage) (h : 0 ≤ receiveCode r m) :
    0 ≤ r ∧ ∃ o vs, m = AliDCSMessage.resultSet o vs := by
  unfold receiveCode at h
  by_cases hr : r < 0
  · simp only [hr, if_true] at h; omega
  · simp only [hr, if_false] at h
    refine ⟨by omega, ?_⟩
    cases m with
    | resultSet o vs => exact ⟨o, vs, rfl⟩
    | request _ _ _ _ => simp [fgkBadMessage] at h
    | multiRequest _ _ _ _ => simp [fgkBadMessage] at h
    | error _ _ => simp [fgkServerError] at h
    | unknownDP _ => simp [fgkUnknownDP] at h
    | other _ => simp [fgkBadMessage] at h

theorem nextReply_nonneg (c : AliDCSClient)
    (h : 0 ≤ receiveCode (nextReply c).1 (nextReply c).2) :
    ∃ r o vs tl, c.net.replies = (r, AliDCSMessage.resultSet o vs) :: tl ∧ 0 ≤ r := by
  obtain ⟨hr, o, vs, hm⟩ := receiveCode_nonneg _ _ h
  unfold nextReply at hr hm
  cases hrep : c.net.replies with
  | nil =>
    rw [hrep] at hm
    simp at hm
  | cons x tl =>
    rw [hrep] at hr hm
    obtain ⟨r, m⟩ := x
    simp only [List.headD_cons] at hr hm
    subst hm
    exact ⟨r, o, vs, tl, rfl, hr⟩

theorem ReceiveLoop_success (fuel : Nat) :
    ∀ (c : AliDCSClient) (list : List String) (b : Int) (result m : TMap),
      (ReceiveLoop fuel c list b result).1 = Exec.ret (some m) →
      ∃ sets rEnd sentinel vsEnd,
        c.net.replies = resultSetReplies sets ++
          (rEnd, AliDCSMessage.resultSet sentinel vsEnd) ::
            (ReceiveLoop fuel c list b result).2.net.replies ∧
        (∀ s ∈ sets, 0 ≤ s.1 ∧ 0 ≤ s.2.1) ∧
        0 ≤ rEnd ∧ sentinel < 0 ∧
        m = (sets.map fun s => (s.2.1 + b, s.2.2)).foldl (mergeStep list) result := by
  induction fuel with
  | zero => intro c list b result m h; simp [ReceiveLoop] at h
  | succ fuel ih =>
    intro c list b result m h
    have hfst := ReceiveValueSet_fst c [] (-1)
    unfold ReceiveLoop at h ⊢
    by_cases hneg : (ReceiveValueSet c [] (-1)).1 < 0
    · simp only [hneg, if_true] at h
      simp at h
    · obtain ⟨r, o, vs, tl, hrep, hr⟩ := nextReply_nonneg c (by rw [← hfst]; omega)
      obtain ⟨c1, hc1, hrv⟩ := ReceiveValueSet_resultSet c [] (-1) r o vs tl hrep hr
      rw [hrv] at h ⊢
      by_cases ho : o < 0
      · simp only [ho, if_true, lt_irrefl, if_false] at h ⊢
        refine ⟨[], r, o, vs, ?_, by simp, hr, ho, ?_⟩
        · simp [resultSetReplies, hrep, hc1]
        · simp at h
          simp [h]
      · simp only [ho, if_false] at h ⊢
        have hlen : ¬ ((vs.length : Int) < 0) := by omega
        simp only [hlen, if_false] at h ⊢
        cases hat : At list (o + b) with
        | none =>
          simp only [hat] at h ⊢
          obtain ⟨sets, rEnd, sentinel, vsEnd, h1, h2, h3, h4, h5⟩ := ih _ list b _ m h
          refine ⟨(r, o, vs) :: sets, rEnd, sentinel, vsEnd, ?_, ?_, h3, h4, ?_⟩
          · simp only [hc1] at h1
            simp [resultSetReplies, hrep, h1]
          · intro s hs
            rcases List.mem_cons.mp hs with rfl | hs
            · exact ⟨hr, by simp only; omega⟩
            · exact h2 s hs
          · rw [h5]
            simp [mergeStep, hat]
        | some name =>
          simp only [hat] at h ⊢
          cases hget : TMap.GetValue result name with
          | some old =>
            simp only [hget] at h ⊢
            obtain ⟨sets, rEnd, sentinel, vsEnd, h1, h2, h3, h4, h5⟩ := ih _ list b _ m h
            refine ⟨(r, o, vs) :: sets, rEnd, sentinel, vsEnd, ?_, ?_, h3, h4, ?_⟩
            · simp only [hc1] at h1
              simp [resultSetReplies, hrep, h1]
            · intro s hs
              rcases List.mem_cons.mp hs with rfl | hs
              · exact ⟨hr, by simp only; omega⟩
              · exact h2 s hs
            · rw [h5]
              simp [mergeStep, hat, hget]
          | none =>
            simp only [hget] at h ⊢
            obtain ⟨sets, rEnd, sentinel, vsEnd, h1, h2, h3, h4, h5⟩ := ih _ list b _ m h
            refine ⟨(r, o, vs) :: sets, rEnd, sentinel, vsEnd, ?_, ?_, h3, h4, ?_⟩
            · simp only [hc1] at h1
              simp [resultSetReplies, hrep, h1]
            · intro s hs
              rcases List.mem_cons.mp hs with rfl | hs
              · exact ⟨hr, by simp only; omega⟩
              · exact h2 s hs
            · rw [h5]
              simp [mergeStep, hat, hget]

/-! ## The list query: one sub-batch -/

theorem SubsetLoop_done (fuel : Nat) (c : AliDCSClient) (reqType : RequestType)
    (list : List String) (s e : Nat) (E b : Int) (result : TMap) (h : ¬ b < E) :
    SubsetLoop (fuel + 1) c reqType list s e E b result = (Exec.ret (some result), c) := by
  rw [SubsetLoop]
  simp only [h, if_false]

theorem SubsetLoop_step_success (fuel : Nat) (c : AliDCSClient) (reqType : RequestType)
    (list : List String) (s e : Nat) (E b : Int) (result m : TMap) (hb : b < E)
    (h : (SubsetLoop (fuel + 1) c reqType list s e E b result).1 = Exec.ret (some m)) :
    ∃ msg result1 c3,
      IsConnected (Connect c).2 = true ∧
      BuildRequest (Connect c).2 reqType list s e b (subsetEndOf c.fMultiSplit E b) =
        Exec.ret (some msg) ∧
      0 ≤ (SendMessage (Connect c).2 msg).1 ∧
      ReceiveLoop ((afterSend (Connect c).2 msg).net.replies.length + 1)
        (afterSend (Connect c).2 msg) list b result = (Exec.ret (some result1), c3) ∧
      At list b ≠ none ∧
      SubsetLoop (fuel + 1) c reqType list s e E b result =
        SubsetLoop fuel (Close c3) reqType list s e E (b + c.fMultiSplit) result1 := by
  rw [SubsetLoop] at h ⊢
  simp only [hb, if_true] at h ⊢
  by_cases hconn : IsConnected (Connect c).2 = true
  · simp only [hconn, Bool.not_true, Bool.false_eq_true, if_false] at h ⊢
    rw [Connect_fMultiSplit] at h ⊢
    cases hbr : BuildRequest (Connect c).2 reqType list s e b
        (if b + c.fMultiSplit > E then E else b + c.fMultiSplit) with
    | nullDeref => simp [hbr] at h
    | outOfFuel => simp [hbr] at h
    | ret om =>
      cases om with
      | none => simp [hbr] at h
      | some msg =>
        simp only [hbr] at h ⊢
        by_cases hs : (SendMessage (Connect c).2 msg).1 < 0
        · simp [hs] at h
        · simp only [hs, if_false] at h ⊢
          generalize hrl : ReceiveLoop
            ({ (SendMessage (Connect c).2 msg).2 with
                fResultErrorCode := (SendMessage (Connect c).2 msg).1 }.net.replies.length + 1)
            { (SendMessage (Connect c).2 msg).2 with
                fResultErrorCode := (SendMessage (Connect c).2 msg).1 } list b result = rl at h ⊢
          obtain ⟨stop, c3⟩ := rl
          cases stop with
          | nullDeref => simp at h
          | outOfFuel => simp at h
          | ret om2 =>
            cases om2 with
            | none => simp at h
            | some result1 =>
              simp only at h ⊢
              cases hat : At list b with
              | none => simp [hat] at h
              | some name =>
                simp only [hat] at h ⊢
                have hc3 : c3.fMultiSplit = c.fMultiSplit := by
                  have := ReceiveLoop_fMultiSplit
                    ({ (SendMessage (Connect c).2 msg).2 with
                        fResultErrorCode := (SendMessage (Connect c).2 msg).1 }.net.replies.length + 1)
                    { (SendMessage (Connect c).2 msg).2 with
                        fResultErrorCode := (SendMessage (Connect c).2 msg).1 } list b result
                  rw [hrl] at this
                  simp only at this
                  rw [this]
                  show (SendMessage (Connect c).2 msg).2.fMultiSplit = c.fMultiSplit
                  rw [SendMessage_fMultiSplit, Connect_fMultiSplit]
                rw [Close_fMultiSplit, hc3] at h ⊢
                refine ⟨msg, result1, c3, trivial, ?_, by omega, ?_, by simp, rfl⟩
                · simpa [subsetEndOf] using hbr
                · simpa [afterSend] using hrl
  · simp [hconn] at h

/-! ## The list query: the map of a successful call -/

theorem arrivals_done (L E b : Int) (replies : List (Int × AliDCSMessage)) (h : ¬ b < E) :
    arrivals L E b replies = [] := by
  cases replies with
  | nil => rfl
  | cons x rest =>
    obtain ⟨r, m⟩ := x
    cases m <;> simp [arrivals, h]

theorem arrivals_append (L E b : Int) (hb : b < E) (sets : List (Int × Int × List AliDCSValue)) :
    ∀ (rEnd sentinel : Int) (vsEnd : List AliDCSValue) (rest : List (Int × AliDCSMessage)),
      (∀ s ∈ sets, 0 ≤ s.2.1) → sentinel < 0 →
      arrivals L E b
        (resultSetReplies sets ++ (rEnd, AliDCSMessage.resultSet sentinel vsEnd) :: rest) =
      (sets.map fun s => (s.2.1 + b, s.2.2)) ++ arrivals L E (b + L) rest := by
  induction sets with
  | nil =>
    intro rEnd sentinel vsEnd rest _ hs
    simp [resultSetReplies, arrivals, hb, hs]
  | cons s sets ih =>
    intro rEnd sentinel vsEnd rest hsets hs
    have h0 : ¬ s.2.1 < 0 := by
      have := hsets s (List.mem_cons_self _ _)
      omega
    have := ih rEnd sentinel vsEnd rest (fun t ht => hsets t (List.mem_cons_of_mem _ ht)) hs
    simp only [resultSetReplies] at this
    simp [resultSetReplies, arrivals, hb, h0, this]

theorem afterSend_replies (c : AliDCSClient) (msg : AliDCSMessage) :
    (afterSend c msg).net.replies = c.net.replies := by
  unfold afterSend
  exact SendMessage_replies c msg

/-- The map of a successful list query: the result sets of the script, merged one by one
in the order of arrival. -/
theorem SubsetLoop_map (fuel : Nat) :
    ∀ (c : AliDCSClient) (reqType : RequestType) (list : List String) (s e : Nat)
      (E b : Int) (result m : TMap),
      (SubsetLoop fuel c reqType list s e E b result).1 = Exec.ret (some m) →
      m = (arrivals c.fMultiSplit E b c.net.replies).foldl (mergeStep list) result := by
  induction fuel with
  | zero => intro c reqType list s e E b result m h; simp [SubsetLoop] at h
  | succ fuel ih =>
    intro c reqType list s e E b result m h
    by_cases hb : b < E
    · obtain ⟨msg, result1, c3, _, _, _, hrl, _, hstep⟩ :=
        SubsetLoop_step_success fuel c reqType list s e E b result m hb h
      rw [hstep] at h
      have hm := ih (Close c3) reqType list s e E (b + c.fMultiSplit) result1 m h
      have hrl1 : (ReceiveLoop ((afterSend (Connect c).2 msg).net.replies.length + 1)
          (afterSend (Connect c).2 msg) list b result).1 = Exec.ret (some result1) := by
        rw [hrl]
      obtain ⟨sets, rEnd, sentinel, vsEnd, h1, h2, h3, h4, h5⟩ :=
        ReceiveLoop_success _ _ list b result result1 hrl1
      rw [hrl, afterSend_replies, Connect_replies] at h1
      simp only at h1
      have hc3 : (Close c3).fMultiSplit = c.fMultiSplit := by
        have := ReceiveLoop_fMultiSplit ((afterSend (Connect c).2 msg).net.replies.length + 1)
          (afterSend (Connect c).2 msg) list b result
        rw [hrl] at this
        rw [Close_fMultiSplit, this]
        show (SendMessage (Connect c).2 msg).2.fMultiSplit = c.fMultiSplit
        rw [SendMessage_fMultiSplit, Connect_fMultiSplit]
      rw [hc3, Close_net_replies] at hm
      rw [h1, arrivals_append c.fMultiSplit E b hb sets rEnd sentinel vsEnd c3.net.replies
        (fun t ht => (h2 t ht).2) h4, List.foldl_append, ← h5]
      exact hm
    · rw [SubsetLoop_done fuel c reqType list s e E b result hb] at h
      simp only [Exec.ret.injEq, Option.some.injEq] at h
      rw [arrivals_done _ _ _ _ hb]
      simp [h]

/-! ## The list query: merging -/

theorem GetValue_AddAll (m : TMap) (k name : String) (vs : List AliDCSValue) :
    (TMap.AddAll m k vs).GetValue name =
      if k = name then (m.GetValue name).map (fun v => v ++ vs) else m.GetValue name := by
  induction m with
  | nil => simp [TMap.AddAll, TMap.GetValue]
  | cons x rest ih =>
    obtain ⟨k1, v1⟩ := x
    by_cases h1 : k1 = k
    · subst h1
      by_cases h2 : k1 = name
      · simp [TMap.AddAll, TMap.GetValue, h2]
      · simp [TMap.AddAll, TMap.GetValue, h2]
    · by_cases h2 : k1 = name
      · subst h2
        have : ¬ k = k1 := fun h => h1 h.symm
        simp [TMap.AddAll, TMap.GetValue, h1, this]
      · simp only [TMap.AddAll, h1, if_false, TMap.GetValue, h2]
        exact ih

theorem GetValue_Add (m : TMap) (k name : String) (vs : List AliDCSValue) :
    (TMap.Add m k vs).GetValue name =
      match m.GetValue name with
      | some v => some v
      | none => if k = name then some vs else none := by
  unfold TMap.Add
  induction m with
  | nil => simp [TMap.GetValue]
  | cons x rest ih =>
    obtain ⟨k1, v1⟩ := x
    by_cases h2 : k1 = name
    · simp [TMap.GetValue, h2]
    · simp only [List.cons_append, TMap.GetValue, h2, if_false]
      exact ih

theorem GetValue_mergeStep (list : List String) (m : TMap) (a : Int × List AliDCSValue)
    (name : String) :
    (mergeStep list m a).GetValue name =
      if At list a.1 = some name then some ((m.GetValue name).getD [] ++ a.2)
      else m.GetValue name := by
  unfold mergeStep
  cases hat : At list a.1 with
  | none => simp
  | some k =>
    simp only [Option.some.injEq]
    cases hget : TMap.GetValue m k with
    | some old =>
      simp only [GetValue_AddAll]
      by_cases hk : k = name
      · subst hk; simp [hget]
      · simp [hk]
    | none =>
      simp only [GetValue_Add]
      by_cases hk : k = name
      · subst hk; simp [hget]
      · simp only [hk, if_false]
        cases TMap.GetValue m name <;> rfl

theorem GetValue_foldl_mergeStep (list : List String) (name : String)
    (arr : List (Int × List AliDCSValue)) :
    ∀ m : TMap, (arr.foldl (mergeStep list) m).GetValue name =
      if setsOf list arr name = [] then m.GetValue name
      else some ((m.GetValue name).getD [] ++
        ((setsOf list arr name).map fun a => a.2).flatten) := by
  induction arr with
  | nil => intro m; simp [setsOf]
  | cons a arr ih =>
    intro m
    rw [List.foldl_cons, ih, GetValue_mergeStep]
    by_cases ha : At list a.1 = some name
    · have hs : setsOf list (a :: arr) name = a :: setsOf list arr name := by
        simp [setsOf, List.filter_cons, ha]
      rw [hs]
      simp only [ha, if_true, Option.getD_some]
      by_cases hr : setsOf list arr name = []
      · simp [hr]
      · simp [hr, List.append_assoc]
    · have hs : setsOf list (a :: arr) name = setsOf list arr name := by
        simp [setsOf, List.filter_cons, ha]
      rw [hs]
      simp only [ha, if_false]

/-- C3. List `GetValues`, merging: in a successful list query the returned map gives each
name the concatenation, in the order of arrival within a sub-batch and across the
sub-batches, of the values of exactly those result sets whose absolute index
`subsetBegin + ownerIndex` designates the name, and no entry to a name that none
designates; a second successful run on the same script of replies returns the same map. -/
theorem GetValuesList_merges (c : AliDCSClient) (reqType : RequestType) (list : List String)
    (startTime endTime : Nat) (startIndex endIndex : Int) (m : TMap)
    (h : (GetValuesList c reqType list startTime endTime startIndex endIndex).1 =
      Exec.ret (some m)) :
    (∀ name, m.GetValue name =
      mergedValues list
        (arrivals c.fMultiSplit (clampEndIndex list endIndex) startIndex c.net.replies) name) ∧
    (∀ (c2 : AliDCSClient) (m2 : TMap),
      c2.fMultiSplit = c.fMultiSplit → c2.net.replies = c.net.replies →
      (GetValuesList c2 reqType list startTime endTime startIndex endIndex).1 =
        Exec.ret (some m2) → m2 = m) := by
  have hm := SubsetLoop_map _ c reqType list startTime endTime (clampEndIndex list endIndex)
    startIndex [] m h
  constructor
  · intro name
    rw [hm, GetValue_foldl_mergeStep]
    unfold mergedValues
    split <;> simp [TMap.GetValue]
  · intro c2 m2 hL hrep h2
    have hm2 := SubsetLoop_map _ c2 reqType list startTime endTime
      (clampEndIndex list endIndex) startIndex [] m2 h2
    rw [hm, hm2, hL, hrep]

/-- C3, at a concrete input: five names in batches of two, the values of the first name
split into two result sets of the first sub-batch and a third one in the last sub-batch
(the name is also the last of the list); its entry is the three in the order of
arrival. -/
theorem GetValuesList_merges_witness :
    TMap.GetValue threeBatchMap "a" = some [⟨1, 5⟩, ⟨4, 7⟩, ⟨10, 9⟩] ∧
    TMap.GetValue threeBatchMap "d" = none ∧
    (∀ name, threeBatchMap.GetValue name =
      mergedValues fiveNames
        (arrivals threeBatchClient.fMultiSplit (clampEndIndex fiveNames (-1)) 0
          threeBatchClient.net.replies) name) ∧
    (∀ (c2 : AliDCSClient) (m2 : TMap),
      c2.fMultiSplit = threeBatchClient.fMultiSplit →
      c2.net.replies = threeBatchClient.net.replies →
      (GetValuesList c2 RequestType.kAlias fiveNames 0 10 0 (-1)).1 =
        Exec.ret (some m2) → m2 = threeBatchMap) :=
  ⟨by decide, by decide,
    GetValuesList_merges threeBatchClient RequestType.kAlias fiveNames 0 10 0 (-1)
      threeBatchMap (by decide)⟩

/-! ## The list query: the sub-batches -/

theorem subBatchCount_done (b E L : Int) (hL : 1 ≤ L) (h : ¬ b < E) :
    subBatchCount b E L = 0 := by
  unfold subBatchCount
  have h1 : (E - b + L - 1) / L ≤ 0 := by
    have : E - b + L - 1 < L := by omega
    have := Int.ediv_lt_of_lt_mul (by omega : 0 < L) (by linarith : E - b + L - 1 < 1 * L)
    omega
  omega

theorem subBatchCount_step (b E L : Int) (hL : 1 ≤ L) (h : b < E) :
    subBatchCount b E L = subBatchCount (b + L) E L + 1 := by
  unfold subBatchCount
  have e1 : E - b + L - 1 = (E - (b + L) + L - 1) + 1 * L := by ring
  rw [e1, Int.add_mul_ediv_right _ _ (by omega : L ≠ 0)]
  have h0 : 0 ≤ (E - (b + L) + L - 1) / L := Int.ediv_nonneg (by omega) (by omega)
  omega

theorem subBatches_done (b E L : Int) (hL : 1 ≤ L) (h : ¬ b < E) : subBatches b E L = [] := by
  unfold subBatches
  rw [subBatchCount_done b E L hL h]
  rfl

theorem subBatches_step (b E L : Int) (hL : 1 ≤ L) (h : b < E) :
    subBatches b E L = (b, min (b + L) E) :: subBatches (b + L) E L := by
  unfold subBatches
  rw [subBatchCount_step b E L hL h, List.range_succ_eq_map, List.map_cons, List.map_map]
  congr 1
  · simp [subBatch]
  · apply List.map_congr_left
    intro i _
    simp only [subBatch, Function.comp, Nat.succ_eq_add_one]
    push_cast
    have e1 : b + ((i : Int) + 1) * L = b + L + i * L := by ring
    have e2 : b + ((i : Int) + 1 + 1) * L = b + L + (i + 1) * L := by ring
    rw [e1, e2]

/-! ## The list query: the request of a sub-batch -/

theorem At_some (list : List String) (i : Int) (name : String) (h : At list i = some name) :
    0 ≤ i ∧ list.get? i.toNat = some name := by
  unfold At at h
  by_cases hi : i < 0
  · simp [hi] at h
  · simp only [hi, if_false] at h
    exact ⟨by omega, h⟩

theorem AddRequestStrings_success (c : AliDCSClient) (list : List String) (n : Nat) :
    ∀ (i : Int) (t : RequestType) (s e : Nat) (names : List String) (msg : AliDCSMessage),
      AddRequestStrings c list n i (AliDCSMessage.multiRequest t s e names) =
        Exec.ret (some msg) →
      msg = AliDCSMessage.multiRequest t s e (names ++ (list.drop i.toNat).take n) := by
  induction n with
  | zero =>
    intro i t s e names msg h
    simp [AddRequestStrings] at h
    simp [h]
  | succ n ih =>
    intro i t s e names msg h
    unfold AddRequestStrings at h
    cases hat : At list i with
    | none => simp [hat] at h
    | some name =>
      obtain ⟨hi, hget⟩ := At_some list i name hat
      simp only [hat] at h
      unfold AliDCSMessage.AddRequestString at h
      by_cases hcap : names.length < c.net.maxNames ∧ name.length ≤ c.net.maxNameSize
      · simp only [hcap, and_self, if_true] at h
        have := ih (i + 1) t s e (names ++ [name]) msg h
        rw [this]
        have hlt : i.toNat < list.length := by
          by_contra hge
          rw [List.get?_eq_none.mpr (by omega)] at hget
          exact absurd hget (by simp)
        have hdrop : list.drop i.toNat = name :: list.drop (i + 1).toNat := by
          have e1 : (i + 1).toNat = i.toNat + 1 := by omega
          rw [e1, List.drop_eq_getElem_cons hlt]
          congr 1
          rw [List.get?_eq_getElem? , List.getElem?_eq_getElem hlt] at hget
          exact Option.some.inj hget
        rw [hdrop]
        simp
      · simp only [hcap, if_false] at h
        simp at h

theorem BuildRequest_success (c : AliDCSClient) (reqType : RequestType) (list : List String)
    (s e : Nat) (b e1 : Int) (msg : AliDCSMessage)
    (h : BuildRequest c reqType list s e b e1 = Exec.ret (some msg)) :
    msg = requestFor c.fMultiSplit reqType s e list (b, e1) := by
  unfold BuildRequest at h
  unfold requestFor
  by_cases hL : c.fMultiSplit = 1
  · simp only [hL, if_true] at h ⊢
    cases hat : At list b with
    | none => simp [hat] at h
    | some name =>
      simp only [hat, Exec.ret.injEq, Option.some.injEq] at h
      simp [← h, AliDCSMessage.CreateRequestMessage]
  · simp only [hL, if_false] at h ⊢
    have := AddRequestStrings_success c list _ b reqType s e [] msg h
    simpa [namesOf] using this

/-- Case analysis on one turn of the loop over the sub-batches: what holds of every way
the turn can end holds of the loop. -/
theorem SubsetLoop_cases {P : Exec (Option TMap) × AliDCSClient → Prop}
    (fuel : Nat) (c : AliDCSClient) (reqType : RequestType)
    (list : List String) (s e : Nat) (E b : Int) (result : TMap) (hb : b < E)
    (hBadState : IsConnected (Connect c).2 = false →
      P (Exec.ret none, { (Connect c).2 with fResultErrorCode := fgkBadState }))
    (hBuild : ∀ stop, IsConnected (Connect c).2 = true →
      BuildRequest (Connect c).2 reqType list s e b (subsetEndOf (Connect c).2.fMultiSplit E b) = stop →
      (stop = Exec.nullDeref ∨ stop = Exec.outOfFuel) →
      P (match stop with
         | Exec.outOfFuel => Exec.outOfFuel
         | _ => Exec.nullDeref, (Connect c).2))
    (hAppend : IsConnected (Connect c).2 = true →
      BuildRequest (Connect c).2 reqType list s e b (subsetEndOf (Connect c).2.fMultiSplit E b) =
        Exec.ret none →
      P (Exec.ret none, { (Connect c).2 with fResultErrorCode := fgkBadMessage }))
    (hSend : ∀ msg, IsConnected (Connect c).2 = true →
      BuildRequest (Connect c).2 reqType list s e b (subsetEndOf (Connect c).2.fMultiSplit E b) =
        Exec.ret (some msg) →
      (SendMessage (Connect c).2 msg).1 < 0 →
      P (Exec.ret none, Close (afterSend (Connect c).2 msg)))
    (hReceive : ∀ msg stop c3, IsConnected (Connect c).2 = true →
      BuildRequest (Connect c).2 reqType list s e b (subsetEndOf (Connect c).2.fMultiSplit E b) =
        Exec.ret (some msg) →
      0 ≤ (SendMessage (Connect c).2 msg).1 →
      ReceiveLoop ((afterSend (Connect c).2 msg).net.replies.length + 1)
        (afterSend (Connect c).2 msg) list b result = (stop, c3) →
      (∀ r, stop ≠ Exec.ret (some r)) → P (stop, c3))
    (hInfo : ∀ msg result1 c3, IsConnected (Connect c).2 = true →
      BuildRequest (Connect c).2 reqType list s e b (subsetEndOf (Connect c).2.fMultiSplit E b) =
        Exec.ret (some msg) →
      0 ≤ (SendMessage (Connect c).2 msg).1 →
      ReceiveLoop ((afterSend (Connect c).2 msg).net.replies.length + 1)
        (afterSend (Connect c).2 msg) list b result = (Exec.ret (some result1), c3) →
      At list b = none → P (Exec.nullDeref, Close c3))
    (hNext : ∀ msg result1 c3 name, IsConnected (Connect c).2 = true →
      BuildRequest (Connect c).2 reqType list s e b (subsetEndOf (Connect c).2.fMultiSplit E b) =
        Exec.ret (some msg) →
      0 ≤ (SendMessage (Connect c).2 msg).1 →
      ReceiveLoop ((afterSend (Connect c).2 msg).net.replies.length + 1)
        (afterSend (Connect c).2 msg) list b result = (Exec.ret (some result1), c3) →
      At list b = some name → (Close c3).fMultiSplit = c.fMultiSplit →
      P (SubsetLoop fuel (Close c3) reqType list s e E (b + (Close c3).fMultiSplit)
        result1)) :
    P (SubsetLoop (fuel + 1) c reqType list s e E b result) := by
  rw [SubsetLoop]
  simp only [hb, if_true]
  by_cases hconn : IsConnected (Connect c).2 = true
  · simp only [hconn, Bool.not_true, Bool.false_eq_true, if_false]
    have hse : (if b + (Connect c).2.fMultiSplit > E then E
        else b + (Connect c).2.fMultiSplit) =
        subsetEndOf (Connect c).2.fMultiSplit E b := rfl
    rw [hse]
    cases hbr : BuildRequest (Connect c).2 reqType list s e b (subsetEndOf (Connect c).2.fMultiSplit E b) with
    | nullDeref => exact hBuild _ hconn hbr (Or.inl rfl)
    | outOfFuel => exact hBuild _ hconn hbr (Or.inr rfl)
    | ret om =>
      cases om with
      | none => exact hAppend hconn hbr
      | some msg =>
        simp only
        by_cases hs : (SendMessage (Connect c).2 msg).1 < 0
        · simp only [hs, if_true]
          exact hSend msg hconn hbr hs
        · simp only [hs, if_false]
          have hrl0 : ∀ x, ReceiveLoop ((afterSend (Connect c).2 msg).net.replies.length + 1)
              (afterSend (Connect c).2 msg) list b result = x →
              ReceiveLoop
                ({ (SendMessage (Connect c).2 msg).2 with
                    fResultErrorCode := (SendMessage (Connect c).2 msg).1 }.net.replies.length + 1)
                { (SendMessage (Connect c).2 msg).2 with
                    fResultErrorCode := (SendMessage (Connect c).2 msg).1 } list b result = x :=
            fun x hx => hx
          generalize hrl : ReceiveLoop ((afterSend (Connect c).2 msg).net.replies.length + 1)
              (afterSend (Connect c).2 msg) list b result = rl
          rw [hrl0 rl hrl]
          obtain ⟨stop, c3⟩ := rl
          have hc3 : c3.fMultiSplit = c.fMultiSplit := by
            have := ReceiveLoop_fMultiSplit
              ((afterSend (Connect c).2 msg).net.replies.length + 1)
              (afterSend (Connect c).2 msg) list b result
            rw [hrl] at this
            simp only at this
            rw [this]
            show (SendMessage (Connect c).2 msg).2.fMultiSplit = c.fMultiSplit
            rw [SendMessage_fMultiSplit, Connect_fMultiSplit]
          cases stop with
          | nullDeref => exact hReceive msg _ c3 hconn hbr (by omega) hrl (by simp)
          | outOfFuel => exact hReceive msg _ c3 hconn hbr (by omega) hrl (by simp)
          | ret om2 =>
            cases om2 with
            | none => exact hReceive msg _ c3 hconn hbr (by omega) hrl (by simp)
            | some result1 =>
              simp only
              cases hat : At list b with
              | none => exact hInfo msg result1 c3 hconn hbr (by omega) hrl hat
              | some name =>
                simp only
                exact hNext msg result1 c3 name hconn hbr (by omega) hrl hat
                  (by rw [Close_fMultiSplit, hc3])
  · have hconn1 : IsConnected (Connect c).2 = false := by simpa using hconn
    simp only [hconn1, Bool.not_false, if_true]
    exact hBadState hconn1

/-! ## The list query: failed receive steps -/

theorem FailsLast_append (d1 d2 : List NetCall) (out : Exec (Option TMap) × AliDCSClient)
    (h1 : ∀ x ∈ d1, x.isFailedReceive = false) (h2 : FailsLast d2 out) :
    FailsLast (d1 ++ d2) out := by
  rcases h2 with h2 | ⟨d0, r, m, hd, hq, hc, ho, hf⟩
  · left
    intro x hx
    rcases List.mem_append.mp hx with h | h
    · exact h1 x h
    · exact h2 x h
  · right
    refine ⟨d1 ++ d0, r, m, by rw [hd, List.append_assoc], ?_, hc, ho, hf⟩
    intro x hx
    rcases List.mem_append.mp hx with h | h
    · exact h1 x h
    · exact hq x h

theorem isFailedReceive_of_not_transfer (x : NetCall) (h : x.isTransfer = false) :
    x.isFailedReceive = false := by
  cases x <;> simp_all [NetCall.isTransfer, NetCall.isFailedReceive]

theorem ReceiveLoop_log (fuel : Nat) :
    ∀ (c : AliDCSClient) (list : List String) (b : Int) (result : TMap),
      ∃ d, (ReceiveLoop fuel c list b result).2.net.log = c.net.log ++ d ∧
        (∀ x ∈ d, ∃ r m, x = NetCall.receive r m) ∧
        FailsLast d (ReceiveLoop fuel c list b result) := by
  induction fuel with
  | zero =>
    intro c list b result
    exact ⟨[], by simp [ReceiveLoop], by simp, Or.inl (by simp)⟩
  | succ fuel ih =>
    intro c list b result
    have hfst := ReceiveValueSet_fst c [] (-1)
    have hnet := ReceiveValueSet_net c [] (-1)
    unfold ReceiveLoop
    generalize ReceiveValueSet c [] (-1) = rv at hfst hnet ⊢
    obtain ⟨sResult, resultSet, ownerIndex, c1⟩ := rv
    simp only at hfst hnet ⊢
    have hlog : c1.net.log = c.net.log ++ [NetCall.receive (nextReply c).1 (nextReply c).2] := by
      rw [hnet]
    have hone : ∀ x ∈ [NetCall.receive (nextReply c).1 (nextReply c).2],
        ∃ r m, x = NetCall.receive r m := by
      intro x hx
      rw [List.mem_singleton] at hx
      exact ⟨_, _, hx⟩
    by_cases hneg : sResult < 0
    · simp only [hneg, if_true]
      refine ⟨[NetCall.receive (nextReply c).1 (nextReply c).2], hlog, hone, Or.inr ?_⟩
      exact ⟨[], _, _, rfl, by simp, by rw [← hfst]; exact hneg, rfl, hfst⟩
    · have hquiet : ∀ x ∈ [NetCall.receive (nextReply c).1 (nextReply c).2],
          x.isFailedReceive = false := by
        intro x hx
        rw [List.mem_singleton] at hx
        subst hx
        simp only [NetCall.isFailedReceive, decide_eq_false_iff_not]
        rw [← hfst]
        exact hneg
      simp only [hneg, if_false]
      by_cases ho : ownerIndex < 0
      · simp only [ho, if_true]
        exact ⟨_, hlog, hone, Or.inl hquiet⟩
      · simp only [ho, if_false]
        cases At list (ownerIndex + b) with
        | none =>
          simp only
          obtain ⟨d, hd, hr, hf⟩ := ih { c1 with fResultErrorCode := sResult } list b result
          refine ⟨[NetCall.receive (nextReply c).1 (nextReply c).2] ++ d, ?_, ?_, ?_⟩
          · rw [hd]
            show c1.net.log ++ d = _
            rw [hlog, List.append_assoc]
          · intro x hx
            rcases List.mem_append.mp hx with h | h
            · exact hone x h
            · exact hr x h
          · exact FailsLast_append _ _ _ hquiet hf
        | some name =>
          simp only
          cases TMap.GetValue result name with
          | some old =>
            simp only
            obtain ⟨d, hd, hr, hf⟩ := ih { c1 with fResultErrorCode := sResult } list b
              (TMap.AddAll result name resultSet)
            refine ⟨[NetCall.receive (nextReply c).1 (nextReply c).2] ++ d, ?_, ?_, ?_⟩
            · rw [hd]
              show c1.net.log ++ d = _
              rw [hlog, List.append_assoc]
            · intro x hx
              rcases List.mem_append.mp hx with h | h
              · exact hone x h
              · exact hr x h
            · exact FailsLast_append _ _ _ hquiet hf
          | none =>
            simp only
            obtain ⟨d, hd, hr, hf⟩ := ih { c1 with fResultErrorCode := sResult } list b
              (TMap.Add result name resultSet)
            refine ⟨[NetCall.receive (nextReply c).1 (nextReply c).2] ++ d, ?_, ?_, ?_⟩
            · rw [hd]
              show c1.net.log ++ d = _
              rw [hlog, List.append_assoc]
            · intro x hx
              rcases List.mem_append.mp hx with h | h
              · exact hone x h
              · exact hr x h
            · exact FailsLast_append _ _ _ hquiet hf

theorem afterSend_log (c : AliDCSClient) (msg : AliDCSMessage) :
    ∃ d, (afterSend (Connect c).2 msg).net.log = c.net.log ++ d ∧
      (∀ x ∈ d, x.isFailedReceive = false) := by
  obtain ⟨d1, h1, q1⟩ := Connect_log c
  refine ⟨d1 ++ [NetCall.send msg (SendMessage (Connect c).2 msg).1], ?_, ?_⟩
  · show (SendMessage (Connect c).2 msg).2.net.log = _
    rw [SendMessage_log, h1, List.append_assoc]
  · intro x hx
    rcases List.mem_append.mp hx with h | h
    · exact isFailedReceive_of_not_transfer x (q1 x h)
    · rw [List.mem_singleton] at h
      subst h
      rfl

theorem Close_log_quiet (c : AliDCSClient) :
    ∃ d, (Close c).net.log = c.net.log ++ d ∧ (∀ x ∈ d, x.isFailedReceive = false) := by
  obtain ⟨d, h, q⟩ := Close_log c
  exact ⟨d, h, fun x hx => isFailedReceive_of_not_transfer x (q x hx)⟩

theorem FailsLast_quiet_of_ret (d : List NetCall) (stop : Exec (Option TMap))
    (c3 : AliDCSClient) (h : FailsLast d (stop, c3)) (hs : stop ≠ Exec.ret none) :
    ∀ x ∈ d, x.isFailedReceive = false := by
  rcases h with h | ⟨_, _, _, _, _, _, ho, _⟩
  · exact h
  · exact absurd ho hs

theorem SubsetLoop_log (fuel : Nat) :
    ∀ (c : AliDCSClient) (reqType : RequestType) (list : List String) (s e : Nat)
      (E b : Int) (result : TMap),
      ∃ d, (SubsetLoop fuel c reqType list s e E b result).2.net.log = c.net.log ++ d ∧
        FailsLast d (SubsetLoop fuel c reqType list s e E b result) := by
  induction fuel with
  | zero =>
    intro c reqType list s e E b result
    exact ⟨[], by simp [SubsetLoop], Or.inl (by simp)⟩
  | succ fuel ih =>
    intro c reqType list s e E b result
    by_cases hb : b < E
    · obtain ⟨d1, h1, q1⟩ := Connect_log c
      have q1f : ∀ x ∈ d1, x.isFailedReceive = false :=
        fun x hx => isFailedReceive_of_not_transfer x (q1 x hx)
      apply SubsetLoop_cases (P := fun out => ∃ d, out.2.net.log = c.net.log ++ d ∧
        FailsLast d out) fuel c reqType list s e E b result hb
      · intro _
        exact ⟨d1, h1, Or.inl q1f⟩
      · intro stop _ _ _
        exact ⟨d1, h1, Or.inl q1f⟩
      · intro _ _
        exact ⟨d1, h1, Or.inl q1f⟩
      · intro msg _ _ _
        obtain ⟨d2, h2, q2⟩ := afterSend_log c msg
        obtain ⟨d3, h3, q3⟩ := Close_log_quiet (afterSend (Connect c).2 msg)
        refine ⟨d2 ++ d3, by rw [h3, h2, List.append_assoc], Or.inl ?_⟩
        intro x hx
        rcases List.mem_append.mp hx with h | h
        · exact q2 x h
        · exact q3 x h
      · intro msg stop c3 _ _ _ hrl _
        obtain ⟨d2, h2, q2⟩ := afterSend_log c msg
        obtain ⟨d3, h3, _, f3⟩ := ReceiveLoop_log
          ((afterSend (Connect c).2 msg).net.replies.length + 1)
          (afterSend (Connect c).2 msg) list b result
        rw [hrl] at h3 f3
        exact ⟨d2 ++ d3, by rw [h3, h2, List.append_assoc], FailsLast_append _ _ _ q2 f3⟩
      · intro msg result1 c3 _ _ _ hrl _
        obtain ⟨d2, h2, q2⟩ := afterSend_log c msg
        obtain ⟨d3, h3, _, f3⟩ := ReceiveLoop_log
          ((afterSend (Connect c).2 msg).net.replies.length + 1)
          (afterSend (Connect c).2 msg) list b result
        rw [hrl] at h3 f3
        have q3 := FailsLast_quiet_of_ret d3 _ c3 f3 (by simp)
        obtain ⟨d4, h4, q4⟩ := Close_log_quiet c3
        refine ⟨d2 ++ d3 ++ d4, by rw [h4, h3, h2]; simp [List.append_assoc], Or.inl ?_⟩
        intro x hx
        rcases List.mem_append.mp hx with h | h
        · rcases List.mem_append.mp h with h | h
          · exact q2 x h
          · exact q3 x h
        · exact q4 x h
      · intro msg result1 c3 name _ _ _ hrl _ _
        obtain ⟨d2, h2, q2⟩ := afterSend_log c msg
        obtain ⟨d3, h3, _, f3⟩ := ReceiveLoop_log
          ((afterSend (Connect c).2 msg).net.replies.length + 1)
          (afterSend (Connect c).2 msg) list b result
        rw [hrl] at h3 f3
        have q3 := FailsLast_quiet_of_ret d3 _ c3 f3 (by simp)
        obtain ⟨d4, h4, q4⟩ := Close_log_quiet c3
        obtain ⟨d5, h5, f5⟩ := ih (Close c3) reqType list s e E (b + (Close c3).fMultiSplit)
          result1
        refine ⟨(d2 ++ d3 ++ d4) ++ d5, by rw [h5, h4, h3, h2]; simp [List.append_assoc], ?_⟩
        apply FailsLast_append _ _ _ _ f5
        intro x hx
        rcases List.mem_append.mp hx with h | h
        · rcases List.mem_append.mp h with h | h
          · exact q2 x h
          · exact q3 x h
        · exact q4 x h
    · rw [SubsetLoop_done fuel c reqType list s e E b result hb]
      exact ⟨[], by simp, Or.inl (by simp)⟩

theorem last_of_append_cons {α : Type} (pre post d0 : List α) (a a1 : α)
    (h : pre ++ a :: post = d0 ++ [a1]) (hn : a ∉ d0) : post = [] ∧ a = a1 := by
  cases hp : post with
  | nil =>
    rw [hp] at h
    have := List.append_inj' h rfl
    exact ⟨rfl, by simpa using this.2⟩
  | cons p ps =>
    exfalso
    rw [hp] at h
    have h2 := congrArg List.dropLast h
    rw [List.dropLast_concat, List.dropLast_append_of_ne_nil _ (by simp),
      List.dropLast_cons_of_ne_nil (by simp)] at h2
    apply hn
    rw [← h2]
    simp

/-- C5. List `GetValues`, error short-circuit: when a receive step of the call yields a
negative code, in whatever sub-batch, the call returns the null pointer (no map, so what
earlier sub-batches gave is dropped), the retained result error code is that code, and
the step is the last call made on the network: no later connect, send or receive. -/
theorem GetValuesList_receive_error (c : AliDCSClient) (reqType : RequestType)
    (list : List String) (startTime endTime : Nat) (startIndex endIndex : Int)
    (pre post : List NetCall) (r : Int) (msg : AliDCSMessage)
    (hlog : (GetValuesList c reqType list startTime endTime startIndex endIndex).2.net.log =
      c.net.log ++ pre ++ NetCall.receive r msg :: post)
    (hneg : receiveCode r msg < 0) :
    (GetValuesList c reqType list startTime endTime startIndex endIndex).1 = Exec.ret none ∧
    (GetValuesList c reqType list startTime endTime startIndex endIndex).2.fResultErrorCode =
      receiveCode r msg ∧
    post = [] := by
  unfold GetValuesList at hlog ⊢
  simp only at hlog ⊢
  obtain ⟨d, hd, hf⟩ := SubsetLoop_log
    ((clampEndIndex list endIndex - startIndex).toNat + c.net.accepts.length + 1) c reqType
    list startTime endTime (clampEndIndex list endIndex) startIndex []
  rw [hd, List.append_assoc] at hlog
  have hdeq : d = pre ++ NetCall.receive r msg :: post := List.append_cancel_left hlog
  have hfail : (NetCall.receive r msg).isFailedReceive = true := by
    simp [NetCall.isFailedReceive, hneg]
  rcases hf with hq | ⟨d0, r1, m1, hd0, hq, hc, ho, hres⟩
  · have := hq (NetCall.receive r msg) (by rw [hdeq]; simp)
    rw [hfail] at this
    exact absurd this (by simp)
  · have hnot : NetCall.receive r msg ∉ d0 := by
      intro hmem
      have := hq _ hmem
      rw [hfail] at this
      exact absurd this (by simp)
    obtain ⟨hpost, heq⟩ := last_of_append_cons pre post d0 _ _ (hdeq.symm.trans hd0) hnot
    simp only [NetCall.receive.injEq] at heq
    obtain ⟨rfl, rfl⟩ := heq
    exact ⟨ho, hres, hpost⟩

/-- C5, at two concrete inputs. The server answers the second of three sub-batches with
an `Error` message: the call returns null, the retained code is `ServerError`, and the
receive of that message is the last call on the network. The server sends a result set
whose owner index designates no list entry, which is dropped, and then an `Error`
message: the same holds. -/
theorem GetValuesList_receive_error_witness :
    (receiveCode 12 (AliDCSMessage.error 3 "no archive") = fgkServerError ∧
     At ["a", "b", "c"] (5 + 0) = none) ∧
    ((GetValuesList errorInSecondBatchClient RequestType.kAlias fiveNames 0 10 0 (-1)).1 =
      Exec.ret none ∧
    (GetValuesList errorInSecondBatchClient RequestType.kAlias fiveNames 0 10 0
      (-1)).2.fResultErrorCode = receiveCode 12 (AliDCSMessage.error 3 "no archive") ∧
    ([] : List NetCall) = []) ∧
    ((GetValuesList outOfListOwnerClient RequestType.kAlias ["a", "b", "c"] 0 10 0 (-1)).1 =
      Exec.ret none ∧
    (GetValuesList outOfListOwnerClient RequestType.kAlias ["a", "b", "c"] 0 10 0
      (-1)).2.fResultErrorCode = receiveCode 12 (AliDCSMessage.error 3 "no archive") ∧
    ([] : List NetCall) = []) :=
  ⟨by decide,
    GetValuesList_receive_error errorInSecondBatchClient RequestType.kAlias fiveNames 0 10 0
      (-1)
      [NetCall.openSocket "dcs" 4242 true,
       NetCall.send (AliDCSMessage.multiRequest RequestType.kAlias 0 10 ["a", "b"]) 1,
       NetCall.receive 12 (AliDCSMessage.resultSet 0 [⟨1, 5⟩]),
       NetCall.receive 8 (AliDCSMessage.resultSet (-1) []),
       NetCall.close,
       NetCall.openSocket "dcs" 4242 true,
       NetCall.send (AliDCSMessage.multiRequest RequestType.kAlias 0 10 ["c", "d"]) 1]
      [] 12 (AliDCSMessage.error 3 "no archive") (by decide) (by decide),
    GetValuesList_receive_error outOfListOwnerClient RequestType.kAlias ["a", "b", "c"] 0 10
      0 (-1)
      [NetCall.openSocket "dcs" 4242 true,
       NetCall.send (AliDCSMessage.multiRequest RequestType.kAlias 0 10 ["a", "b"]) 1,
       NetCall.receive 12 (AliDCSMessage.resultSet 5 [⟨1, 5⟩])]
      [] 12 (AliDCSMessage.error 3 "no archive") (by decide) (by decide)⟩

/-! ## The list query: the requests sent -/

theorem sentMessages_append (a b : List NetCall) :
    sentMessages (a ++ b) = sentMessages a ++ sentMessages b := by
  simp [sentMessages, List.filterMap_append]

theorem sentMessages_of_not_transfer (d : List NetCall)
    (h : ∀ x ∈ d, x.isTransfer = false) : sentMessages d = [] := by
  induction d with
  | nil => rfl
  | cons x d ih =>
    have hx := h x (List.mem_cons_self _ _)
    have hd := ih (fun y hy => h y (List.mem_cons_of_mem _ hy))
    cases x <;> simp_all [sentMessages, NetCall.isTransfer]

theorem sentMessages_of_receives (d : List NetCall)
    (h : ∀ x ∈ d, ∃ r m, x = NetCall.receive r m) : sentMessages d = [] := by
  induction d with
  | nil => rfl
  | cons x d ih =>
    obtain ⟨r, m, rfl⟩ := h x (List.mem_cons_self _ _)
    have hd := ih (fun y hy => h y (List.mem_cons_of_mem _ hy))
    simp_all [sentMessages]

theorem Connect_sent (c : AliDCSClient) :
    sentMessages (Connect c).2.net.log = sentMessages c.net.log := by
  obtain ⟨d, h, q⟩ := Connect_log c
  rw [h, sentMessages_append, sentMessages_of_not_transfer d q, List.append_nil]

theorem Close_sent (c : AliDCSClient) :
    sentMessages (Close c).net.log = sentMessages c.net.log := by
  obtain ⟨d, h, q⟩ := Close_log c
  rw [h, sentMessages_append, sentMessages_of_not_transfer d q, List.append_nil]

theorem afterSend_sent (c : AliDCSClient) (msg : AliDCSMessage) :
    sentMessages (afterSend c msg).net.log = sentMessages c.net.log ++ [msg] := by
  show sentMessages (SendMessage c msg).2.net.log = _
  rw [SendMessage_log, sentMessages_append]
  rfl

theorem ReceiveLoop_sent (fuel : Nat) (c : AliDCSClient) (list : List String) (b : Int)
    (result : TMap) :
    sentMessages (ReceiveLoop fuel c list b result).2.net.log = sentMessages c.net.log := by
  obtain ⟨d, h, q, _⟩ := ReceiveLoop_log fuel c list b result
  rw [h, sentMessages_append, sentMessages_of_receives d q, List.append_nil]

theorem subsetEndOf_eq_min (L E b : Int) : subsetEndOf L E b = min (b + L) E := by
  unfold subsetEndOf
  by_cases h : b + L > E
  · simp only [h, if_true]
    rw [min_eq_right (by omega)]
  · simp only [h, if_false]
    rw [min_eq_left (by omega)]

/-- The requests a list query sends are, in order, those of the sub-batches of the range:
all of them when the call returns a map, the first ones when it ends before. -/
theorem SubsetLoop_sent (fuel : Nat) :
    ∀ (c : AliDCSClient) (reqType : RequestType) (list : List String) (s e : Nat)
      (E b : Int) (result : TMap), 1 ≤ c.fMultiSplit →
      ∃ sent,
        sentMessages (SubsetLoop fuel c reqType list s e E b result).2.net.log =
          sentMessages c.net.log ++ sent ∧
        sent <+: (subBatches b E c.fMultiSplit).map
          (requestFor c.fMultiSplit reqType s e list) ∧
        (∀ m, (SubsetLoop fuel c reqType list s e E b result).1 = Exec.ret (some m) →
          sent = (subBatches b E c.fMultiSplit).map
            (requestFor c.fMultiSplit reqType s e list)) := by
  induction fuel with
  | zero =>
    intro c reqType list s e E b result _
    exact ⟨[], by simp [SubsetLoop], List.nil_prefix, by simp [SubsetLoop]⟩
  | succ fuel ih =>
    intro c reqType list s e E b result hL
    by_cases hb : b < E
    · have hmsg : ∀ msg, BuildRequest (Connect c).2 reqType list s e b
          (subsetEndOf (Connect c).2.fMultiSplit E b) = Exec.ret (some msg) →
          (subBatches b E c.fMultiSplit).map (requestFor c.fMultiSplit reqType s e list) =
            msg :: (subBatches (b + c.fMultiSplit) E c.fMultiSplit).map
              (requestFor c.fMultiSplit reqType s e list) := by
        intro msg hbr
        have := BuildRequest_success _ _ _ _ _ _ _ _ hbr
        rw [Connect_fMultiSplit, subsetEndOf_eq_min] at this
        rw [subBatches_step b E c.fMultiSplit hL hb, List.map_cons, this]
      apply SubsetLoop_cases (P := fun out => ∃ sent,
        sentMessages out.2.net.log = sentMessages c.net.log ++ sent ∧
        sent <+: (subBatches b E c.fMultiSplit).map
          (requestFor c.fMultiSplit reqType s e list) ∧
        (∀ m, out.1 = Exec.ret (some m) →
          sent = (subBatches b E c.fMultiSplit).map
            (requestFor c.fMultiSplit reqType s e list)))
        fuel c reqType list s e E b result hb
      · intro _
        exact ⟨[], by simp [Connect_sent], List.nil_prefix, by simp⟩
      · intro stop _ _ hstop
        refine ⟨[], by simp [Connect_sent], List.nil_prefix, ?_⟩
        rcases hstop with rfl | rfl <;> simp
      · intro _ _
        exact ⟨[], by simp [Connect_sent], List.nil_prefix, by simp⟩
      · intro msg _ hbr _
        refine ⟨[msg], by rw [Close_sent, afterSend_sent, Connect_sent], ?_, by simp⟩
        rw [hmsg msg hbr]
        exact List.prefix_cons_inj msg |>.mpr List.nil_prefix
      · intro msg stop c3 _ hbr _ hrl hstop
        have h3 := ReceiveLoop_sent ((afterSend (Connect c).2 msg).net.replies.length + 1)
          (afterSend (Connect c).2 msg) list b result
        rw [hrl] at h3
        refine ⟨[msg], by rw [h3, afterSend_sent, Connect_sent], ?_, ?_⟩
        · rw [hmsg msg hbr]
          exact List.prefix_cons_inj msg |>.mpr List.nil_prefix
        · intro m hm
          exact absurd hm (hstop m)
      · intro msg result1 c3 _ hbr _ hrl _
        have h3 := ReceiveLoop_sent ((afterSend (Connect c).2 msg).net.replies.length + 1)
          (afterSend (Connect c).2 msg) list b result
        rw [hrl] at h3
        refine ⟨[msg], by rw [Close_sent, h3, afterSend_sent, Connect_sent], ?_, by simp⟩
        rw [hmsg msg hbr]
        exact List.prefix_cons_inj msg |>.mpr List.nil_prefix
      · intro msg result1 c3 name _ hbr _ hrl _ hc3
        have h3 := ReceiveLoop_sent ((afterSend (Connect c).2 msg).net.replies.length + 1)
          (afterSend (Connect c).2 msg) list b result
        rw [hrl] at h3
        obtain ⟨sent, h1, h2, h4⟩ := ih (Close c3) reqType list s e E
          (b + (Close c3).fMultiSplit) result1 (by rw [hc3]; exact hL)
        rw [hc3] at h1 h2 h4
        refine ⟨msg :: sent, ?_, ?_, ?_⟩
        · rw [hc3, h1, Close_sent, h3, afterSend_sent, Connect_sent]
          simp
        · rw [hmsg msg hbr]
          exact List.prefix_cons_inj msg |>.mpr h2
        · intro m hm
          rw [hc3] at hm
          rw [hmsg msg hbr, h4 m hm]
    · rw [SubsetLoop_done fuel c reqType list s e E b result hb]
      exact ⟨[], by simp, List.nil_prefix, by simp [subBatches_done b E c.fMultiSplit hL hb]⟩

/-! ## The list query: partition and request shape -/

theorem subBatch_begin_lt (b E L : Int) (hL : 1 ≤ L) (i : Nat)
    (hi : i < subBatchCount b E L) : b + i * L < E := by
  unfold subBatchCount at hi
  have h1 : ((i : Int) + 1) ≤ (E - b + L - 1) / L := by omega
  have h2 := (Int.le_ediv_iff_mul_le (by omega : 0 < L)).mp h1
  nlinarith

theorem subBatch_count_cover (b E L : Int) (hL : 1 ≤ L) (h : 0 < subBatchCount b E L) :
    E ≤ b + (subBatchCount b E L : Int) * L := by
  unfold subBatchCount at h ⊢
  have hq : 0 < (E - b + L - 1) / L := by omega
  have h1 := Int.lt_mul_ediv_self_add (x := E - b + L - 1) (by omega : 0 < L)
  rw [Int.toNat_of_nonneg (by omega)]
  nlinarith

theorem subBatches_facts (b E L : Int) (hL : 1 ≤ L) :
    (subBatches b E L).length = subBatchCount b E L ∧
    (∀ i, i < subBatchCount b E L →
      (subBatches b E L).get? i = some (subBatch b E L i) ∧
      1 ≤ (subBatch b E L i).2 - (subBatch b E L i).1 ∧
      (subBatch b E L i).2 - (subBatch b E L i).1 ≤ L) ∧
    (∀ i, i + 1 < subBatchCount b E L →
      (subBatch b E L i).2 = (subBatch b E L (i + 1)).1) ∧
    (0 < subBatchCount b E L →
      (subBatch b E L 0).1 = b ∧ (subBatch b E L (subBatchCount b E L - 1)).2 = E) := by
  refine ⟨by simp [subBatches], ?_, ?_, ?_⟩
  · intro i hi
    have hlt := subBatch_begin_lt b E L hL i hi
    refine ⟨by simp [subBatches, List.getElem?_range hi, hi], ?_, ?_⟩
    · simp only [subBatch]
      have : b + (i : Int) * L + 1 ≤ min (b + ((i : Int) + 1) * L) E := by
        apply le_min
        · nlinarith
        · omega
      omega
    · simp only [subBatch]
      have : min (b + ((i : Int) + 1) * L) E ≤ b + ((i : Int) + 1) * L := min_le_left _ _
      nlinarith
  · intro i hi
    have hlt := subBatch_begin_lt b E L hL (i + 1) hi
    simp only [subBatch]
    push_cast at hlt ⊢
    rw [min_eq_left (by omega)]
  · intro h
    constructor
    · simp [subBatch]
    · have hc := subBatch_count_cover b E L hL h
      simp only [subBatch]
      have e1 : ((subBatchCount b E L - 1 : Nat) : Int) + 1 = (subBatchCount b E L : Int) := by
        omega
      rw [e1, min_eq_right hc]

theorem subBatches_two_L_plus_one (L : Int) (hL : 1 ≤ L) :
    subBatches 0 (2 * L + 1) L = [(0, L), (L, 2 * L), (2 * L, 2 * L + 1)] := by
  rw [subBatches_step 0 _ L hL (by omega)]
  rw [subBatches_step (0 + L) _ L hL (by omega)]
  rw [subBatches_step (0 + L + L) _ L hL (by omega)]
  rw [subBatches_done (0 + L + L + L) _ L hL (by omega)]
  have e1 : min (0 + L) (2 * L + 1) = L := by rw [min_eq_left (by omega)]; omega
  have e2 : min (0 + L + L) (2 * L + 1) = 2 * L := by rw [min_eq_left (by omega)]; omega
  have e3 : min (0 + L + L + L) (2 * L + 1) = 2 * L + 1 := by rw [min_eq_right (by omega)]
  rw [e1, e2, e3]
  simp
  omega

/-- When the largest sum the loop forms stays inside `Int_t`, so does the sum formed for
every sub-batch. -/
theorem subBatch_sum_fits (b E L : Int) (hL : 1 ≤ L) (hfit : lastSum b E L ≤ 2147483647)
    (i : Nat) (hi : i < subBatchCount b E L) : (subBatch b E L i).1 + L ≤ 2147483647 := by
  unfold lastSum at hfit
  simp only [subBatch]
  have h1 : ((i : Int) + 1) ≤ (subBatchCount b E L : Int) := by exact_mod_cast hi
  have h2 : ((i : Int) + 1) * L ≤ (subBatchCount b E L : Int) * L :=
    Int.mul_le_mul_of_nonneg_right h1 (by omega)
  nlinarith

/-- C4. List `GetValues`, partition: a list query with batch limit `L >= 1` that returns
a map, the sums `subsetBegin + L` of which stay inside `Int_t`, has sent exactly one
request per sub-batch of `[startIndex, E)`, in order, built
from the names of the sub-batch (`E` is the clamped end index); the sub-batches are
`ceil((E - startIndex) / L)` in number, the one numbered `i` is
`[startIndex + i * L, min (startIndex + (i + 1) * L) E)`, each holds between 1 and `L`
indices, each ends where the next begins, the first begins at `startIndex`, the last ends
at `E`; for a list of `2 * L + 1` names queried in full they are `[0, L)`, `[L, 2 * L)`
and `[2 * L, 2 * L + 1)`. -/
theorem GetValuesList_partition (c : AliDCSClient) (reqType : RequestType)
    (list : List String) (startTime endTime : Nat) (startIndex endIndex : Int) (m : TMap)
    (hL : 1 ≤ c.fMultiSplit)
    (hfit : lastSum startIndex (clampEndIndex list endIndex) c.fMultiSplit ≤ 2147483647)
    (h : (GetValuesList c reqType list startTime endTime startIndex endIndex).1 =
      Exec.ret (some m)) :
    sentMessages (GetValuesList c reqType list startTime endTime startIndex endIndex).2.net.log =
      sentMessages c.net.log ++
        (subBatches startIndex (clampEndIndex list endIndex) c.fMultiSplit).map
          (requestFor c.fMultiSplit reqType startTime endTime list) ∧
    (∀ i, i < subBatchCount startIndex (clampEndIndex list endIndex) c.fMultiSplit →
      (subBatch startIndex (clampEndIndex list endIndex) c.fMultiSplit i).1 +
        c.fMultiSplit ≤ 2147483647) ∧
    (subBatches startIndex (clampEndIndex list endIndex) c.fMultiSplit).length =
      subBatchCount startIndex (clampEndIndex list endIndex) c.fMultiSplit ∧
    (∀ i, i < subBatchCount startIndex (clampEndIndex list endIndex) c.fMultiSplit →
      (subBatches startIndex (clampEndIndex list endIndex) c.fMultiSplit).get? i =
        some (subBatch startIndex (clampEndIndex list endIndex) c.fMultiSplit i) ∧
      1 ≤ (subBatch startIndex (clampEndIndex list endIndex) c.fMultiSplit i).2 -
        (subBatch startIndex (clampEndIndex list endIndex) c.fMultiSplit i).1 ∧
      (subBatch startIndex (clampEndIndex list endIndex) c.fMultiSplit i).2 -
        (subBatch startIndex (clampEndIndex list endIndex) c.fMultiSplit i).1 ≤
          c.fMultiSplit) ∧
    (∀ i, i + 1 < subBatchCount startIndex (clampEndIndex list endIndex) c.fMultiSplit →
      (subBatch startIndex (clampEndIndex list endIndex) c.fMultiSplit i).2 =
        (subBatch startIndex (clampEndIndex list endIndex) c.fMultiSplit (i + 1)).1) ∧
    (0 < subBatchCount startIndex (clampEndIndex list endIndex) c.fMultiSplit →
      (subBatch startIndex (clampEndIndex list endIndex) c.fMultiSplit 0).1 = startIndex ∧
      (subBatch startIndex (clampEndIndex list endIndex) c.fMultiSplit
        (subBatchCount startIndex (clampEndIndex list endIndex) c.fMultiSplit - 1)).2 =
        clampEndIndex list endIndex) ∧
    ((list.length : Int) = 2 * c.fMultiSplit + 1 → startIndex = 0 →
      clampEndIndex list endIndex = list.length →
      subBatches startIndex (clampEndIndex list endIndex) c.fMultiSplit =
        [(0, c.fMultiSplit), (c.fMultiSplit, 2 * c.fMultiSplit),
         (2 * c.fMultiSplit, 2 * c.fMultiSplit + 1)]) := by
  obtain ⟨sent, h1, _, h3⟩ := SubsetLoop_sent
    ((clampEndIndex list endIndex - startIndex).toNat + c.net.accepts.length + 1) c reqType
    list startTime endTime (clampEndIndex list endIndex) startIndex [] hL
  obtain ⟨f1, f2, f3, f4⟩ :=
    subBatches_facts startIndex (clampEndIndex list endIndex) c.fMultiSplit hL
  refine ⟨?_, ?_, f1, f2, f3, f4, ?_⟩
  · unfold GetValuesList at h ⊢
    rw [h1, h3 m h]
  · intro i hi
    exact subBatch_sum_fits startIndex (clampEndIndex list endIndex) c.fMultiSplit hL hfit
      i hi
  · intro hlen h0 hE
    rw [hE, hlen, h0]
    exact subBatches_two_L_plus_one c.fMultiSplit hL

/-- C4, at a concrete input: five names in batches of two; three requests are sent, for
the sub-batches `[0, 2)`, `[2, 4)` and `[4, 5)`. -/
theorem GetValuesList_partition_witness :
    sentMessages (GetValuesList threeBatchClient RequestType.kAlias fiveNames 0 10 0
      (-1)).2.net.log =
      sentMessages threeBatchClient.net.log ++
        (subBatches 0 (clampEndIndex fiveNames (-1)) threeBatchClient.fMultiSplit).map
          (requestFor threeBatchClient.fMultiSplit RequestType.kAlias 0 10 fiveNames) ∧
    subBatches 0 (clampEndIndex fiveNames (-1)) threeBatchClient.fMultiSplit =
      [(0, 2), (2, 4), (4, 5)] :=
  ⟨(GetValuesList_partition threeBatchClient RequestType.kAlias fiveNames 0 10 0 (-1)
      threeBatchMap (by decide) (by decide) (by decide)).1,
    (GetValuesList_partition threeBatchClient RequestType.kAlias fiveNames 0 10 0 (-1)
      threeBatchMap (by decide) (by decide) (by decide)).2.2.2.2.2.2 (by decide) rfl
      (by decide)⟩

/-- C6 as stated fails: with batch limit 2 and five names the last sub-batch, `[4, 5)`,
holds exactly one entity, and the request sent for it is a `MultiRequest` with that one
name, not a plain `Request`. -/
theorem request_shape_counterexample :
    (subBatches 0 (clampEndIndex fiveNames (-1)) threeBatchClient.fMultiSplit).get? 2 =
      some (4, 5) ∧
    (sentMessages (GetValuesList threeBatchClient RequestType.kAlias fiveNames 0 10 0
      (-1)).2.net.log).get? 2 =
      some (AliDCSMessage.multiRequest RequestType.kAlias 0 10 ["a"]) ∧
    (sentMessages (GetValuesList threeBatchClient RequestType.kAlias fiveNames 0 10 0
      (-1)).2.net.log).get? 2 ≠
      some (AliDCSMessage.request RequestType.kAlias 0 10 "a") := by
  decide

/-- C6 as amended. List `GetValues`, request shape: for batch limit `L >= 1` and sums
`subsetBegin + L` that stay inside `Int_t`, the requests
sent by a list query are, in order, those of the sub-batches of the range (all of them
when the call returns a map, the first ones when it ends before); the request of a
sub-batch is a plain `Request` with the name `list[subsetBegin]` when `L` is 1, and a
`MultiRequest` with the names `list[subsetBegin..subsetEnd)` in list order when `L` is 2
or more, whatever the number of entities of the sub-batch. -/
theorem GetValuesList_request_shape (c : AliDCSClient) (reqType : RequestType)
    (list : List String) (startTime endTime : Nat) (startIndex endIndex : Int)
    (hL : 1 ≤ c.fMultiSplit)
    (hfit : lastSum startIndex (clampEndIndex list endIndex) c.fMultiSplit ≤ 2147483647) :
    (∃ sent,
      sentMessages (GetValuesList c reqType list startTime endTime startIndex
        endIndex).2.net.log = sentMessages c.net.log ++ sent ∧
      sent <+: (subBatches startIndex (clampEndIndex list endIndex) c.fMultiSplit).map
        (requestFor c.fMultiSplit reqType startTime endTime list) ∧
      (∀ m, (GetValuesList c reqType list startTime endTime startIndex endIndex).1 =
          Exec.ret (some m) →
        sent = (subBatches startIndex (clampEndIndex list endIndex) c.fMultiSplit).map
          (requestFor c.fMultiSplit reqType startTime endTime list))) ∧
    (∀ i, i < subBatchCount startIndex (clampEndIndex list endIndex) c.fMultiSplit →
      (subBatch startIndex (clampEndIndex list endIndex) c.fMultiSplit i).1 +
        c.fMultiSplit ≤ 2147483647) ∧
    (c.fMultiSplit = 1 → ∀ be, requestFor c.fMultiSplit reqType startTime endTime list be =
      AliDCSMessage.request reqType startTime endTime ((At list be.1).getD "")) ∧
    (2 ≤ c.fMultiSplit → ∀ be, requestFor c.fMultiSplit reqType startTime endTime list be =
      AliDCSMessage.multiRequest reqType startTime endTime (namesOf list be.1 be.2)) := by
  refine ⟨?_, ?_, ?_, ?_⟩
  · exact SubsetLoop_sent
      ((clampEndIndex list endIndex - startIndex).toNat + c.net.accepts.length + 1) c
      reqType list startTime endTime (clampEndIndex list endIndex) startIndex [] hL
  · intro i hi
    exact subBatch_sum_fits startIndex (clampEndIndex list endIndex) c.fMultiSplit hL hfit
      i hi
  · intro h1 be
    simp [requestFor, h1]
  · intro h2 be
    have : c.fMultiSplit ≠ 1 := by omega
    simp [requestFor, this]

/-- C6 as amended, at a concrete input: batch limit 2, five names. -/
theorem GetValuesList_request_shape_witness :
    (∃ sent,
      sentMessages (GetValuesList threeBatchClient RequestType.kAlias fiveNames 0 10 0
        (-1)).2.net.log = sentMessages threeBatchClient.net.log ++ sent ∧
      sent <+: (subBatches 0 (clampEndIndex fiveNames (-1)) threeBatchClient.fMultiSplit).map
        (requestFor threeBatchClient.fMultiSplit RequestType.kAlias 0 10 fiveNames) ∧
      (∀ m, (GetValuesList threeBatchClient RequestType.kAlias fiveNames 0 10 0 (-1)).1 =
          Exec.ret (some m) →
        sent = (subBatches 0 (clampEndIndex fiveNames (-1)) threeBatchClient.fMultiSplit).map
          (requestFor threeBatchClient.fMultiSplit RequestType.kAlias 0 10 fiveNames))) ∧
    (subBatches 0 (clampEndIndex fiveNames (-1)) threeBatchClient.fMultiSplit).map
        (requestFor threeBatchClient.fMultiSplit RequestType.kAlias 0 10 fiveNames) =
      [AliDCSMessage.multiRequest RequestType.kAlias 0 10 ["a", "b"],
       AliDCSMessage.multiRequest RequestType.kAlias 0 10 ["c", "d"],
       AliDCSMessage.multiRequest RequestType.kAlias 0 10 ["a"]] :=
  ⟨(GetValuesList_request_shape threeBatchClient RequestType.kAlias fiveNames 0 10 0 (-1)
      (by decide) (by decide)).1, by decide⟩

/-- C7, the code at two failing inputs. The server answers the second sub-batch with an
`Error` message: the call returns null with `ServerError` retained, and the client is
still connected. The append of a name fails: the call returns null with `BadMessage`
retained, and the client is still connected. -/
theorem GetValuesList_error_leaves_connected :
    (GetValuesList errorInSecondBatchClient RequestType.kAlias fiveNames 0 10 0 (-1)).1 =
      Exec.ret none ∧
    (GetValuesList errorInSecondBatchClient RequestType.kAlias fiveNames 0 10 0
      (-1)).2.fResultErrorCode = fgkServerError ∧
    IsConnected (GetValuesList errorInSecondBatchClient RequestType.kAlias fiveNames 0 10 0
      (-1)).2 = true ∧
    (GetValuesList oneNameClient RequestType.kAlias fiveNames 0 10 0 (-1)).1 =
      Exec.ret none ∧
    (GetValuesList oneNameClient RequestType.kAlias fiveNames 0 10 0
      (-1)).2.fResultErrorCode = fgkBadMessage ∧
    IsConnected (GetValuesList oneNameClient RequestType.kAlias fiveNames 0 10 0
      (-1)).2 = true := by
  decide

/-! ## The entry points return -/

theorem Close_accepts (c : AliDCSClient) : (Close c).net.accepts = c.net.accepts := by
  unfold Close; cases c.fSocket <;> rfl

theorem Close_fSocket (c : AliDCSClient) : (Close c).fSocket = none := by
  unfold Close
  cases h : c.fSocket with
  | none => simp [h]
  | some v => rfl

theorem ConnectLoop_accepts (n : Nat) :
    ∀ c : AliDCSClient, c.fSocket = none →
      ((ConnectLoop n c).2.fSocket = none ∨
        (ConnectLoop n c).2.net.accepts.length < c.net.accepts.length) ∧
      (ConnectLoop n c).2.net.accepts.length ≤ c.net.accepts.length := by
  induction n with
  | zero => intro c hc; exact ⟨Or.inl hc, le_refl _⟩
  | succ n ih =>
    intro c hc
    unfold ConnectLoop
    split
    · rename_i rest heq
      simp [heq]
    · rename_i rest heq
      obtain ⟨h1, h2⟩ := ih { c with
        fSocket := none,
        net := { c.net with accepts := rest,
                            log := c.net.log ++
                              [NetCall.openSocket c.fHost c.fPort false, NetCall.sleep c.fTimeout] } }
        rfl
      simp only at h1 h2
      rw [heq]
      simp only [List.length_cons]
      constructor
      · rcases h1 with h | h
        · exact Or.inl h
        · exact Or.inr (by omega)
      · omega
    · rename_i heq
      obtain ⟨h1, h2⟩ := ih { c with
        fSocket := none,
        net := { c.net with log := c.net.log ++
                              [NetCall.openSocket c.fHost c.fPort false, NetCall.sleep c.fTimeout] } }
        rfl
      simp only at h1 h2
      exact ⟨h1, h2⟩

theorem Connect_accepts (c : AliDCSClient) (h : IsConnected (Connect c).2 = true) :
    (Connect c).2.net.accepts.length < c.net.accepts.length := by
  unfold Connect at h ⊢
  obtain ⟨h1, _⟩ := ConnectLoop_accepts c.fRetries.toNat (Close c) (Close_fSocket c)
  rw [Close_accepts] at h1
  rcases h1 with h1 | h1
  · unfold IsConnected at h
    rw [h1] at h
    exact absurd h (by simp)
  · exact h1

theorem SendMessage_accepts (c : AliDCSClient) (m : AliDCSMessage) :
    (SendMessage c m).2.net.accepts = c.net.accepts := by
  unfold SendMessage; split <;> rfl

theorem ReceiveLoop_accepts (fuel : Nat) :
    ∀ (c : AliDCSClient) (list : List String) (b : Int) (result : TMap),
      (ReceiveLoop fuel c list b result).2.net.accepts = c.net.accepts := by
  induction fuel with
  | zero => intro c list b result; rfl
  | succ fuel ih =>
    intro c list b result
    have hnet := ReceiveValueSet_net c [] (-1)
    unfold ReceiveLoop
    generalize ReceiveValueSet c [] (-1) = rv at hnet ⊢
    obtain ⟨sResult, resultSet, ownerIndex, c1⟩ := rv
    simp only at hnet ⊢
    have h1 : c1.net.accepts = c.net.accepts := by rw [hnet]
    split
    · exact h1
    · split
      · exact h1
      · split
        · rw [ih]; exact h1
        · split
          · rw [ih]; exact h1
          · rw [ih]; exact h1

/-- The single entity `GetValues` always returns. -/
theorem GetValues_returns (c : AliDCSClient) (reqType : RequestType)
    (reqString : String) (startTime endTime : Nat) (result : List AliDCSValue) :
    ∃ r, GetValues c reqType reqString startTime endTime result = some r := by
  unfold GetValues
  simp only
  split
  · exact ⟨_, rfl⟩
  · split
    · exact ⟨_, rfl⟩
    · obtain ⟨n1, r1, c3, h1, _⟩ := GetValuesLoop_returns
        ((SendMessage (Connect c).2
          (AliDCSMessage.CreateRequestMessage reqType startTime endTime reqString)).2.net.replies.length + 1)
        (SendMessage (Connect c).2
          (AliDCSMessage.CreateRequestMessage reqType startTime endTime reqString)).2
        result 0 (Nat.lt_succ_self _)
      rw [h1]
      exact ⟨_, rfl⟩

/-! ## ReceiveValueSet, and the single entity query without a connection -/

theorem Close_sendResults (c : AliDCSClient) :
    (Close c).net.sendResults = c.net.sendResults := by
  unfold Close; cases c.fSocket <;> rfl

theorem ConnectLoop_sendResults (n : Nat) (c : AliDCSClient) :
    (ConnectLoop n c).2.net.sendResults = c.net.sendResults := by
  induction n generalizing c with
  | zero => rfl
  | succ n ih =>
    unfold ConnectLoop
    split
    · rfl
    · rw [ih]
    · rw [ih]

theorem Connect_sendResults (c : AliDCSClient) :
    (Connect c).2.net.sendResults = c.net.sendResults := by
  unfold Connect; rw [ConnectLoop_sendResults, Close_sendResults]

theorem IsConnected_Close (c : AliDCSClient) : IsConnected (Close c) = false := by
  unfold IsConnected
  rw [Close_fSocket]

/-- C16. `ReceiveValueSet` on a `ResultSet` message that was received: with a negative
owner index (the sentinel) it returns 0, reports that owner index and leaves the target
as it was; otherwise it reports the owner index, appends the value records of the message
to the target in order and returns their number. -/
theorem ReceiveValueSet_on_resultSet (c : AliDCSClient) (result : List AliDCSValue)
    (k r owner : Int) (values : List AliDCSValue) (tl : List (Int × AliDCSMessage))
    (h : c.net.replies = (r, AliDCSMessage.resultSet owner values) :: tl) (hr : 0 ≤ r) :
    (owner < 0 → ReceiveValueSet c result k =
      (0, result, owner, afterReceive c r (AliDCSMessage.resultSet owner values) tl)) ∧
    (0 ≤ owner → ReceiveValueSet c result k =
      ((values.length : Int), result ++ values, owner,
        afterReceive c r (AliDCSMessage.resultSet owner values) tl)) := by
  unfold ReceiveValueSet ReceiveMessage afterReceive
  rw [h]
  simp only [not_lt.mpr hr, if_false]
  constructor
  · intro ho
    simp only [ho, if_true]
  · intro ho
    simp only [not_lt.mpr ho, if_false]
    rfl

/-- C16, at concrete inputs: a result set of entry 1 with two records, and a sentinel. -/
theorem ReceiveValueSet_on_resultSet_witness :
    ((1 : Int) < 0 → ReceiveValueSet
        (clientOn [] [] [(12, AliDCSMessage.resultSet 1 [⟨1, 5⟩, ⟨2, 6⟩])]) [⟨0, 4⟩] (-1) =
      (0, [⟨0, 4⟩], 1, afterReceive
        (clientOn [] [] [(12, AliDCSMessage.resultSet 1 [⟨1, 5⟩, ⟨2, 6⟩])]) 12
        (AliDCSMessage.resultSet 1 [⟨1, 5⟩, ⟨2, 6⟩]) [])) ∧
    ((0 : Int) ≤ 1 → ReceiveValueSet
        (clientOn [] [] [(12, AliDCSMessage.resultSet 1 [⟨1, 5⟩, ⟨2, 6⟩])]) [⟨0, 4⟩] (-1) =
      ((([⟨1, 5⟩, ⟨2, 6⟩] : List AliDCSValue).length : Int),
        [⟨0, 4⟩] ++ [⟨1, 5⟩, ⟨2, 6⟩], 1, afterReceive
        (clientOn [] [] [(12, AliDCSMessage.resultSet 1 [⟨1, 5⟩, ⟨2, 6⟩])]) 12
        (AliDCSMessage.resultSet 1 [⟨1, 5⟩, ⟨2, 6⟩]) [])) :=
  ReceiveValueSet_on_resultSet _ [⟨0, 4⟩] (-1) 12 1 [⟨1, 5⟩, ⟨2, 6⟩] [] (by decide)
    (by decide)

/-- C17. `ReceiveValueSet` on a received message that is no `ResultSet`: an `Error`
message yields `ServerError` and stores the code and the text of the message; an
`UnknownEntity` message yields `UnknownEntity` and stores the text of the message, the
stored code staying as it was; every other kind yields `BadMessage` and leaves the stored
code and text as they were; in all three cases the target and the owner index of the
caller stay as they were. -/
theorem ReceiveValueSet_dispatch (c : AliDCSClient) (result : List AliDCSValue)
    (k r : Int) (tl : List (Int × AliDCSMessage)) (hr : 0 ≤ r) :
    (∀ code text, c.net.replies = (r, AliDCSMessage.error code text) :: tl →
      ReceiveValueSet c result k =
        (fgkServerError, result, k,
          { afterReceive c r (AliDCSMessage.error code text) tl with
            fServerErrorCode := code, fServerError := text })) ∧
    (∀ text, c.net.replies = (r, AliDCSMessage.unknownDP text) :: tl →
      ReceiveValueSet c result k =
        (fgkUnknownDP, result, k,
          { afterReceive c r (AliDCSMessage.unknownDP text) tl with
            fServerError := text })) ∧
    (∀ m, (∀ owner values, m ≠ AliDCSMessage.resultSet owner values) →
      (∀ code text, m ≠ AliDCSMessage.error code text) →
      (∀ text, m ≠ AliDCSMessage.unknownDP text) →
      c.net.replies = (r, m) :: tl →
      ReceiveValueSet c result k = (fgkBadMessage, result, k, afterReceive c r m tl)) := by
  refine ⟨?_, ?_, ?_⟩
  · intro code text h
    unfold ReceiveValueSet ReceiveMessage afterReceive
    rw [h]
    simp only [not_lt.mpr hr, if_false]
  · intro text h
    unfold ReceiveValueSet ReceiveMessage afterReceive
    rw [h]
    simp only [not_lt.mpr hr, if_false]
  · intro m h1 h2 h3 h
    unfold ReceiveValueSet ReceiveMessage afterReceive
    rw [h]
    simp only [not_lt.mpr hr, if_false]

/-- C17, at concrete inputs: an `Error` message with code 3. -/
theorem ReceiveValueSet_dispatch_witness :
    ReceiveValueSet (clientOn [] [] [(12, AliDCSMessage.error 3 "no archive")]) [⟨0, 4⟩] 7 =
      (fgkServerError, [⟨0, 4⟩], 7,
        { afterReceive (clientOn [] [] [(12, AliDCSMessage.error 3 "no archive")]) 12
            (AliDCSMessage.error 3 "no archive") [] with
          fServerErrorCode := 3, fServerError := "no archive" }) :=
  (ReceiveValueSet_dispatch (clientOn [] [] [(12, AliDCSMessage.error 3 "no archive")])
    [⟨0, 4⟩] 7 12 [] (by decide)).1 3 "no archive" rfl

/-- C12. Single entity `GetValues` without a connection: when `Connect` leaves the client
not connected, the call returns `BadState` with the array of the caller as it was; the
client is the one `Connect` left, so the calls made are those of `Connect`, none of them
a send or a receive, and the scripts of sends and replies are untouched. -/
theorem GetValues_not_connected (c : AliDCSClient) (reqType : RequestType)
    (reqString : String) (startTime endTime : Nat) (result : List AliDCSValue)
    (hconn : IsConnected (Connect c).2 = false) :
    GetValues c reqType reqString startTime endTime result =
      some (fgkBadState, result, (Connect c).2) ∧
    (∃ d, (Connect c).2.net.log = c.net.log ++ d ∧ ∀ x ∈ d, x.isTransfer = false) ∧
    (Connect c).2.net.sendResults = c.net.sendResults ∧
    (Connect c).2.net.replies = c.net.replies := by
  refine ⟨?_, Connect_log c, Connect_sendResults c, Connect_replies c⟩
  unfold GetValues
  simp only [hconn, Bool.not_false, if_true]

/-- C12, at a concrete input: the server refuses every connection. -/
theorem GetValues_not_connected_witness :
    GetValues refusedClient RequestType.kAlias "a" 0 10 [⟨0, 4⟩] =
      some (fgkBadState, [⟨0, 4⟩], (Connect refusedClient).2) ∧
    (∃ d, (Connect refusedClient).2.net.log = refusedClient.net.log ++ d ∧
      ∀ x ∈ d, x.isTransfer = false) ∧
    (Connect refusedClient).2.net.sendResults = refusedClient.net.sendResults ∧
    (Connect refusedClient).2.net.replies = refusedClient.net.replies :=
  GetValues_not_connected refusedClient RequestType.kAlias "a" 0 10 [⟨0, 4⟩] (by decide)

/-- C19. Single entity `GetValues` closes on every path: the call returns, and whatever
it returns (the code of a failed connect or send, or the count after a receive error or
the sentinel), the client is not connected afterwards. -/
theorem GetValues_closes (c : AliDCSClient) (reqType : RequestType)
    (reqString : String) (startTime endTime : Nat) (result : List AliDCSValue) :
    ∃ code result1 c1,
      GetValues c reqType reqString startTime endTime result = some (code, result1, c1) ∧
      IsConnected c1 = false := by
  unfold GetValues
  simp only
  by_cases hconn : IsConnected (Connect c).2 = true
  · simp only [hconn, Bool.not_true, Bool.false_eq_true, if_false]
    split
    · exact ⟨_, _, _, rfl, IsConnected_Close _⟩
    · obtain ⟨n1, r1, c3, h1, _⟩ := GetValuesLoop_returns
        ((SendMessage (Connect c).2
          (AliDCSMessage.CreateRequestMessage reqType startTime endTime reqString)).2.net.replies.length + 1)
        (SendMessage (Connect c).2
          (AliDCSMessage.CreateRequestMessage reqType startTime endTime reqString)).2
        result 0 (Nat.lt_succ_self _)
      rw [h1]
      exact ⟨_, _, _, rfl, IsConnected_Close _⟩
  · have hconn1 : IsConnected (Connect c).2 = false := by simpa using hconn
    simp only [hconn1, Bool.not_false, if_true]
    exact ⟨_, _, _, rfl, hconn1⟩

/-! ## Connect -/

theorem failedAttempts_succ (c : AliDCSClient) (n : Nat) :
    failedAttempts c (n + 1) =
      [NetCall.openSocket c.fHost c.fPort false, NetCall.sleep c.fTimeout] ++
        failedAttempts c n := by
  simp [failedAttempts, List.replicate_succ]

theorem failedAttempts_count (c : AliDCSClient) (n : Nat) :
    (failedAttempts c n).countP NetCall.isOpen = n := by
  induction n with
  | zero => simp [failedAttempts]
  | succ n ih =>
    rw [failedAttempts_succ, List.countP_append, ih]
    simp [List.countP_cons, NetCall.isOpen]
    omega

theorem failedAttempts_congr (c c1 : AliDCSClient) (n : Nat) (h1 : c1.fHost = c.fHost)
    (h2 : c1.fPort = c.fPort) (h3 : c1.fTimeout = c.fTimeout) :
    failedAttempts c1 n = failedAttempts c n := by
  simp [failedAttempts, h1, h2, h3]

theorem ConnectLoop_refused (n : Nat) :
    ∀ c : AliDCSClient, c.fSocket = none → (∀ b ∈ c.net.accepts, b = false) →
      (ConnectLoop n c).1 = false ∧ (ConnectLoop n c).2.fSocket = none ∧
      (ConnectLoop n c).2.net.log = c.net.log ++ failedAttempts c n := by
  induction n with
  | zero =>
    intro c hs _
    simp [ConnectLoop, hs, failedAttempts]
  | succ n ih =>
    intro c hs hacc
    unfold ConnectLoop
    split
    · rename_i rest heq
      have := hacc true (by rw [heq]; simp)
      exact absurd this (by simp)
    · rename_i rest heq
      obtain ⟨h1, h2, h3⟩ := ih { c with
        fSocket := none,
        net := { c.net with accepts := rest,
                            log := c.net.log ++
                              [NetCall.openSocket c.fHost c.fPort false, NetCall.sleep c.fTimeout] } }
        rfl (fun b hb => hacc b (by rw [heq]; exact List.mem_cons_of_mem _ hb))
      refine ⟨h1, h2, ?_⟩
      rw [h3, failedAttempts_succ]
      simp [failedAttempts]
    · rename_i heq
      obtain ⟨h1, h2, h3⟩ := ih { c with
        fSocket := none,
        net := { c.net with log := c.net.log ++
                              [NetCall.openSocket c.fHost c.fPort false, NetCall.sleep c.fTimeout] } }
        rfl (fun b hb => hacc b hb)
      refine ⟨h1, h2, ?_⟩
      rw [h3, failedAttempts_succ]
      simp [failedAttempts]

theorem ConnectLoop_accepted (k : Nat) :
    ∀ (n : Nat) (c : AliDCSClient) (rest : List Bool), k < n →
      c.net.accepts = List.replicate k false ++ true :: rest →
      (ConnectLoop n c).1 = true ∧ (ConnectLoop n c).2.fSocket = some true ∧
      (ConnectLoop n c).2.net.log =
        c.net.log ++ failedAttempts c k ++ [NetCall.openSocket c.fHost c.fPort true] ∧
      (ConnectLoop n c).2.net.accepts = rest := by
  induction k with
  | zero =>
    intro n c rest hn hacc
    obtain ⟨n, rfl⟩ : ∃ m, n = m + 1 := ⟨n - 1, by omega⟩
    simp only [List.replicate_zero, List.nil_append] at hacc
    unfold ConnectLoop
    rw [hacc]
    simp [failedAttempts]
  | succ k ih =>
    intro n c rest hn hacc
    obtain ⟨n, rfl⟩ : ∃ m, n = m + 1 := ⟨n - 1, by omega⟩
    simp only [List.replicate_succ, List.cons_append] at hacc
    unfold ConnectLoop
    rw [hacc]
    simp only
    obtain ⟨h1, h2, h3, h4⟩ := ih n { c with
        fSocket := none,
        net := { c.net with accepts := List.replicate k false ++ true :: rest,
                            log := c.net.log ++
                              [NetCall.openSocket c.fHost c.fPort false, NetCall.sleep c.fTimeout] } }
        rest (by omega) rfl
    refine ⟨h1, h2, ?_, h4⟩
    rw [h3, failedAttempts_succ]
    simp [failedAttempts]

theorem Close_fields (c : AliDCSClient) :
    (Close c).fHost = c.fHost ∧ (Close c).fPort = c.fPort ∧
    (Close c).fTimeout = c.fTimeout ∧ (Close c).fRetries = c.fRetries := by
  unfold Close; cases c.fSocket <;> simp

/-- C11. `Connect` is bounded, for retry bound `R >= 0`. When the server never accepts a
connection, `Connect` returns false, leaves the client not connected, and the calls it
made after its initial `Close` are exactly `R` attempts, each followed by a sleep of
`fTimeout`, so there is one such sleep between every two consecutive attempts. When the
attempt number `j <= R` is the first the server accepts, `Connect` returns true, leaves
the client connected, and the calls are `j - 1` failed attempts, each followed by a sleep
of `fTimeout`, and the attempt that succeeds: `j` attempts in all. -/
theorem Connect_bounded (c : AliDCSClient) (hR : 0 ≤ c.fRetries) :
    ((∀ b ∈ c.net.accepts, b = false) →
      (Connect c).1 = false ∧ IsConnected (Connect c).2 = false ∧
      (Connect c).2.net.log = (Close c).net.log ++ failedAttempts c c.fRetries.toNat ∧
      ((failedAttempts c c.fRetries.toNat).countP NetCall.isOpen : Int) = c.fRetries) ∧
    (∀ (j : Nat) (rest : List Bool), 1 ≤ j → (j : Int) ≤ c.fRetries →
      c.net.accepts = List.replicate (j - 1) false ++ true :: rest →
      (Connect c).1 = true ∧ IsConnected (Connect c).2 = true ∧
      (Connect c).2.net.log = (Close c).net.log ++ failedAttempts c (j - 1) ++
        [NetCall.openSocket c.fHost c.fPort true] ∧
      (failedAttempts c (j - 1) ++
        [NetCall.openSocket c.fHost c.fPort true]).countP NetCall.isOpen = j ∧
      (Connect c).2.net.accepts = rest) := by
  obtain ⟨f1, f2, f3, _⟩ := Close_fields c
  constructor
  · intro hacc
    obtain ⟨h1, h2, h3⟩ := ConnectLoop_refused c.fRetries.toNat (Close c) (Close_fSocket c)
      (by rw [Close_accepts]; exact hacc)
    unfold Connect
    refine ⟨h1, ?_, ?_, ?_⟩
    · unfold IsConnected
      rw [h2]
    · rw [h3, failedAttempts_congr c (Close c) _ f1 f2 f3]
    · rw [failedAttempts_count]
      omega
  · intro j rest hj hjR hacc
    obtain ⟨h1, h2, h3, h4⟩ := ConnectLoop_accepted (j - 1) c.fRetries.toNat (Close c) rest
      (by omega) (by rw [Close_accepts]; exact hacc)
    unfold Connect
    refine ⟨h1, ?_, ?_, ?_, h4⟩
    · unfold IsConnected
      rw [h2]
    · rw [h3, failedAttempts_congr c (Close c) _ f1 f2 f3, f1, f2]
    · rw [List.countP_append, failedAttempts_count]
      simp [NetCall.isOpen]
      omega

/-- C11, at concrete inputs: retry bound 2; a server that refuses every connection, and
a server that accepts the second attempt. -/
theorem Connect_bounded_witness :
    ((Connect refusedClient).1 = false ∧ IsConnected (Connect refusedClient).2 = false ∧
      (Connect refusedClient).2.net.log =
        (Close refusedClient).net.log ++ failedAttempts refusedClient
          refusedClient.fRetries.toNat ∧
      ((failedAttempts refusedClient refusedClient.fRetries.toNat).countP NetCall.isOpen :
        Int) = refusedClient.fRetries) ∧
    (Connect (clientOn [false, true, true] [] [])).2.net.log =
      [NetCall.openSocket "dcs" 4242 false, NetCall.sleep 100,
       NetCall.openSocket "dcs" 4242 true] ∧
    ((Connect (clientOn [false, true, true] [] [])).1 = true ∧
      IsConnected (Connect (clientOn [false, true, true] [] [])).2 = true ∧
      (Connect (clientOn [false, true, true] [] [])).2.net.log =
        (Close (clientOn [false, true, true] [] [])).net.log ++
          failedAttempts (clientOn [false, true, true] [] []) (2 - 1) ++
          [NetCall.openSocket (clientOn [false, true, true] [] []).fHost
            (clientOn [false, true, true] [] []).fPort true] ∧
      (failedAttempts (clientOn [false, true, true] [] []) (2 - 1) ++
        [NetCall.openSocket (clientOn [false, true, true] [] []).fHost
          (clientOn [false, true, true] [] []).fPort true]).countP NetCall.isOpen = 2 ∧
      (Connect (clientOn [false, true, true] [] [])).2.net.accepts = [true]) :=
  ⟨(Connect_bounded refusedClient (by decide)).1 (by decide), by decide,
    (Connect_bounded (clientOn [false, true, true] [] []) (by decide)).2 2 [true]
      (by decide) (by decide) (by decide)⟩

/-! ## The list query: a sub-batch that fails before it receives -/

theorem TurnStep_loop (reqType : RequestType) (list : List String) (s e : Nat) (E : Int)
    (st st1 : AliDCSClient × Int × TMap) (h : TurnStep reqType list s e E st st1)
    (fuel : Nat) :
    SubsetLoop (fuel + 1) st.1 reqType list s e E st.2.1 st.2.2 =
      SubsetLoop fuel st1.1 reqType list s e E st1.2.1 st1.2.2 := by
  cases h with
  | mk c b result result1 msg c3 name hb hconn hbr hs hrl hat =>
    apply SubsetLoop_cases (P := fun out => out =
      SubsetLoop fuel (Close c3) reqType list s e E (b + (Close c3).fMultiSplit) result1)
      fuel c reqType list s e E b result hb
    · intro h; rw [hconn] at h; exact absurd h (by simp)
    · intro stop _ hbr2 hstop
      rw [hbr] at hbr2
      rcases hstop with rfl | rfl <;> simp at hbr2
    · intro _ hbr2
      rw [hbr] at hbr2
      simp at hbr2
    · intro msg2 _ hbr2 hs2
      rw [hbr] at hbr2
      simp only [Exec.ret.injEq, Option.some.injEq] at hbr2
      subst hbr2
      omega
    · intro msg2 stop c4 _ hbr2 _ hrl2 hstop
      rw [hbr] at hbr2
      simp only [Exec.ret.injEq, Option.some.injEq] at hbr2
      subst hbr2
      rw [hrl] at hrl2
      simp only [Prod.mk.injEq] at hrl2
      exact absurd hrl2.1.symm (hstop result1)
    · intro msg2 result2 c4 _ _ _ _ hat2
      rw [hat] at hat2
      simp at hat2
    · intro msg2 result2 c4 name2 _ hbr2 _ hrl2 _ _
      rw [hbr] at hbr2
      simp only [Exec.ret.injEq, Option.some.injEq] at hbr2
      subst hbr2
      rw [hrl] at hrl2
      simp only [Prod.mk.injEq, Exec.ret.injEq, Option.some.injEq] at hrl2
      obtain ⟨rfl, rfl⟩ := hrl2
      rfl

theorem Turns_loop (reqType : RequestType) (list : List String) (s e : Nat) (E : Int)
    (k : Nat) (st st1 : AliDCSClient × Int × TMap) (h : Turns reqType list s e E k st st1) :
    ∀ fuel : Nat, SubsetLoop (fuel + k) st.1 reqType list s e E st.2.1 st.2.2 =
      SubsetLoop fuel st1.1 reqType list s e E st1.2.1 st1.2.2 := by
  induction h with
  | start st => intro fuel; rfl
  | step k st st1 st2 hstep _ ih =>
    intro fuel
    have := TurnStep_loop reqType list s e E st st1 hstep (fuel + k)
    rw [← ih fuel, ← this]
    rfl

theorem TurnStep_accepts (reqType : RequestType) (list : List String) (s e : Nat) (E : Int)
    (st st1 : AliDCSClient × Int × TMap) (h : TurnStep reqType list s e E st st1) :
    st1.1.net.accepts.length < st.1.net.accepts.length := by
  cases h with
  | mk c b result result1 msg c3 name hb hconn hbr hs hrl hat =>
    have h3 := ReceiveLoop_accepts ((afterSend (Connect c).2 msg).net.replies.length + 1)
      (afterSend (Connect c).2 msg) list b result
    rw [hrl] at h3
    simp only at h3 ⊢
    rw [Close_accepts, h3]
    have h4 : (afterSend (Connect c).2 msg).net.accepts = (Connect c).2.net.accepts :=
      SendMessage_accepts _ _
    rw [h4]
    exact Connect_accepts c hconn

theorem Turns_accepts (reqType : RequestType) (list : List String) (s e : Nat) (E : Int)
    (k : Nat) (st st1 : AliDCSClient × Int × TMap) (h : Turns reqType list s e E k st st1) :
    st1.1.net.accepts.length + k ≤ st.1.net.accepts.length := by
  induction h with
  | start st => simp
  | step k st st1 st2 hstep _ ih =>
    have := TurnStep_accepts reqType list s e E st st1 hstep
    omega

/-- The call is the loop at the head of any sub-batch it arrives at. -/
theorem GetValuesList_at_turn (c0 : AliDCSClient) (reqType : RequestType)
    (list : List String) (s e : Nat) (startIndex endIndex : Int) (k : Nat)
    (c : AliDCSClient) (b : Int) (result : TMap)
    (h : Turns reqType list s e (clampEndIndex list endIndex) k (c0, startIndex, [])
      (c, b, result)) :
    ∃ n, GetValuesList c0 reqType list s e startIndex endIndex =
      SubsetLoop (n + 1) c reqType list s e (clampEndIndex list endIndex) b result := by
  have hacc := Turns_accepts _ _ _ _ _ _ _ _ h
  simp only at hacc
  have hloop := Turns_loop _ _ _ _ _ _ _ _ h
  simp only at hloop
  refine ⟨(clampEndIndex list endIndex - startIndex).toNat + c0.net.accepts.length - k, ?_⟩
  unfold GetValuesList
  simp only
  rw [← hloop]
  congr 1
  omega

theorem IsConnected_fSocket (c : AliDCSClient) (h : IsConnected c = true) :
    c.fSocket = some true := by
  unfold IsConnected at h
  cases hs : c.fSocket with
  | none => rw [hs] at h; simp at h
  | some v => rw [hs] at h; simp at h; rw [h]

theorem Close_log_open (c : AliDCSClient) (v : Bool) (h : c.fSocket = some v) :
    (Close c).net.log = c.net.log ++ [NetCall.close] := by
  unfold Close
  rw [h]

theorem SendMessage_fSocket (c : AliDCSClient) (m : AliDCSMessage) :
    (SendMessage c m).2.fSocket = c.fSocket := by
  unfold SendMessage
  cases c.net.sendResults <;> rfl

/-- The appends of a sub-batch, split after the first `j` names. -/
theorem AddRequestStrings_split (c : AliDCSClient) (list : List String) (n : Nat) :
    ∀ (j : Nat) (i : Int) (m0 m : AliDCSMessage),
      AddRequestStrings c list j i m0 = Exec.ret (some m) →
      AddRequestStrings c list (j + n) i m0 = AddRequestStrings c list n (i + j) m := by
  intro j
  induction j with
  | zero =>
    intro i m0 m h
    simp only [AddRequestStrings, Exec.ret.injEq, Option.some.injEq] at h
    subst h
    simp
  | succ j ih =>
    intro i m0 m h
    have e : j + 1 + n = (j + n) + 1 := by omega
    rw [e]
    rw [AddRequestStrings] at h ⊢
    cases hat : At list i with
    | none => rw [hat] at h; simp at h
    | some name =>
      rw [hat] at h
      simp only at h ⊢
      cases hadd : m0.AddRequestString c.net.maxNames c.net.maxNameSize name with
      | none => rw [hadd] at h; simp at h
      | some m1 =>
        rw [hadd] at h
        simp only at h ⊢
        rw [ih (i + 1) m1 m h]
        congr 1
        push_cast
        omega

/-- An append that fails makes the request of the sub-batch fail: when the first `j` names
of the sub-batch were appended and the append of the next one, `list[b + j]`, is refused,
no request is built. -/
theorem BuildRequest_append_failure (c : AliDCSClient) (reqType : RequestType)
    (list : List String) (s e : Nat) (b subsetEnd : Int) (j : Nat) (m : AliDCSMessage)
    (name : String) (hmulti : c.fMultiSplit ≠ 1) (hj : b + j < subsetEnd)
    (hpre : AddRequestStrings c list j b
      (AliDCSMessage.CreateMultiRequestMessage reqType s e) = Exec.ret (some m))
    (hname : At list (b + j) = some name)
    (hfail : m.AddRequestString c.net.maxNames c.net.maxNameSize name = none) :
    BuildRequest c reqType list s e b subsetEnd = Exec.ret none := by
  unfold BuildRequest
  rw [if_neg hmulti]
  have e1 : (subsetEnd - b).toNat = j + ((subsetEnd - b).toNat - j - 1 + 1) := by omega
  rw [e1, AddRequestStrings_split c list _ j b _ m hpre, AddRequestStrings, hname]
  simp only
  rw [hfail]

/-- C13. List `GetValues` fails with `BadState` when a sub-batch cannot connect: when the
call has arrived at sub-batch number `k` (after `k` sub-batches that succeeded, `k` zero or
more) with the map `result` aggregated so far, and the connection for this sub-batch is not
established, the call returns the null pointer, so `result` is dropped, and the retained
result error code is `BadState`. -/
theorem GetValuesList_connect_failure (c0 : AliDCSClient) (reqType : RequestType)
    (list : List String) (startTime endTime : Nat) (startIndex endIndex : Int) (k : Nat)
    (c : AliDCSClient) (b : Int) (result : TMap)
    (hturns : Turns reqType list startTime endTime (clampEndIndex list endIndex) k
      (c0, startIndex, []) (c, b, result))
    (hb : b < clampEndIndex list endIndex)
    (hconn : IsConnected (Connect c).2 = false) :
    (GetValuesList c0 reqType list startTime endTime startIndex endIndex).1 = Exec.ret none ∧
    (GetValuesList c0 reqType list startTime endTime startIndex
      endIndex).2.fResultErrorCode = fgkBadState ∧
    (GetValuesList c0 reqType list startTime endTime startIndex endIndex).2.net.log =
      (Connect c).2.net.log := by
  obtain ⟨n, hn⟩ := GetValuesList_at_turn c0 reqType list startTime endTime startIndex
    endIndex k c b result hturns
  rw [hn]
  apply SubsetLoop_cases (P := fun out => out.1 = Exec.ret none ∧
    out.2.fResultErrorCode = fgkBadState ∧ out.2.net.log = (Connect c).2.net.log)
    n c reqType list startTime endTime _ b result hb
  · intro _; exact ⟨rfl, rfl, rfl⟩
  all_goals
    intros
    simp_all

/-- C14. List `GetValues`, append failure: when the call has arrived at sub-batch number
`k`, is connected, builds a `MultiRequest` (the batch limit is not 1), and the append of a
name of the sub-batch is refused (the name `list[b + j]`, after the `j` names before it
were appended), the call returns the null pointer and the retained result error code is
`BadMessage`; the call makes no call on the network after the connection of this sub-batch,
so nothing is sent for it or for a later one: the messages sent are those sent before this
sub-batch. -/
theorem GetValuesList_append_failure (c0 : AliDCSClient) (reqType : RequestType)
    (list : List String) (startTime endTime : Nat) (startIndex endIndex : Int) (k : Nat)
    (c : AliDCSClient) (b : Int) (result : TMap) (j : Nat) (m : AliDCSMessage)
    (name : String)
    (hturns : Turns reqType list startTime endTime (clampEndIndex list endIndex) k
      (c0, startIndex, []) (c, b, result))
    (hb : b < clampEndIndex list endIndex)
    (hconn : IsConnected (Connect c).2 = true)
    (hmulti : (Connect c).2.fMultiSplit ≠ 1)
    (hj : b + j < subsetEndOf (Connect c).2.fMultiSplit (clampEndIndex list endIndex) b)
    (hpre : AddRequestStrings (Connect c).2 list j b
      (AliDCSMessage.CreateMultiRequestMessage reqType startTime endTime) =
        Exec.ret (some m))
    (hname : At list (b + j) = some name)
    (hfail : m.AddRequestString (Connect c).2.net.maxNames (Connect c).2.net.maxNameSize
      name = none) :
    (GetValuesList c0 reqType list startTime endTime startIndex endIndex).1 = Exec.ret none ∧
    (GetValuesList c0 reqType list startTime endTime startIndex
      endIndex).2.fResultErrorCode = fgkBadMessage ∧
    (GetValuesList c0 reqType list startTime endTime startIndex endIndex).2.net.log =
      (Connect c).2.net.log ∧
    sentMessages (GetValuesList c0 reqType list startTime endTime startIndex
      endIndex).2.net.log = sentMessages c.net.log := by
  have hbr := BuildRequest_append_failure (Connect c).2 reqType list startTime endTime b
    (subsetEndOf (Connect c).2.fMultiSplit (clampEndIndex list endIndex) b) j m name hmulti
    hj hpre hname hfail
  obtain ⟨n, hn⟩ := GetValuesList_at_turn c0 reqType list startTime endTime startIndex
    endIndex k c b result hturns
  rw [hn]
  apply SubsetLoop_cases (P := fun out => out.1 = Exec.ret none ∧
    out.2.fResultErrorCode = fgkBadMessage ∧ out.2.net.log = (Connect c).2.net.log ∧
    sentMessages out.2.net.log = sentMessages c.net.log)
    n c reqType list startTime endTime _ b result hb
  · intro h; rw [hconn] at h; exact absurd h (by simp)
  · intro stop _ hbr2 hstop
    rw [hbr] at hbr2
    rcases hstop with rfl | rfl <;> simp at hbr2
  · intro _ _
    exact ⟨rfl, rfl, rfl, Connect_sent c⟩
  all_goals
    intros
    simp_all

/-- C15. List `GetValues`, send failure: when the call has arrived at sub-batch number `k`,
is connected, has built the request `msg`, and sending it returns a negative code `E`, the
call returns the null pointer and the retained result error code is `E`; the calls on the
network stop with that send and the close that follows it, so no receive is attempted and
no later sub-batch is issued. -/
theorem GetValuesList_send_failure (c0 : AliDCSClient) (reqType : RequestType)
    (list : List String) (startTime endTime : Nat) (startIndex endIndex : Int) (k : Nat)
    (c : AliDCSClient) (b : Int) (result : TMap) (msg : AliDCSMessage) (E : Int)
    (hturns : Turns reqType list startTime endTime (clampEndIndex list endIndex) k
      (c0, startIndex, []) (c, b, result))
    (hb : b < clampEndIndex list endIndex)
    (hconn : IsConnected (Connect c).2 = true)
    (hbr : BuildRequest (Connect c).2 reqType list startTime endTime b
      (subsetEndOf (Connect c).2.fMultiSplit (clampEndIndex list endIndex) b) =
        Exec.ret (some msg))
    (hsend : (SendMessage (Connect c).2 msg).1 = E) (hE : E < 0) :
    (GetValuesList c0 reqType list startTime endTime startIndex endIndex).1 = Exec.ret none ∧
    (GetValuesList c0 reqType list startTime endTime startIndex
      endIndex).2.fResultErrorCode = E ∧
    (GetValuesList c0 reqType list startTime endTime startIndex endIndex).2.net.log =
      (Connect c).2.net.log ++ [NetCall.send msg E, NetCall.close] ∧
    IsConnected (GetValuesList c0 reqType list startTime endTime startIndex endIndex).2 =
      false := by
  obtain ⟨n, hn⟩ := GetValuesList_at_turn c0 reqType list startTime endTime startIndex
    endIndex k c b result hturns
  rw [hn]
  have hfs : (afterSend (Connect c).2 msg).fSocket = some true := by
    have h1 : (afterSend (Connect c).2 msg).fSocket = (SendMessage (Connect c).2 msg).2.fSocket :=
      rfl
    rw [h1, SendMessage_fSocket]
    exact IsConnected_fSocket _ hconn
  have hlog : (Close (afterSend (Connect c).2 msg)).net.log =
      (Connect c).2.net.log ++ [NetCall.send msg E, NetCall.close] := by
    rw [Close_log_open _ true hfs]
    have h1 : (afterSend (Connect c).2 msg).net.log = (SendMessage (Connect c).2 msg).2.net.log :=
      rfl
    rw [h1, SendMessage_log, hsend]
    simp
  have hcode : (Close (afterSend (Connect c).2 msg)).fResultErrorCode = E := by
    unfold Close
    rw [hfs]
    exact hsend
  apply SubsetLoop_cases (P := fun out => out.1 = Exec.ret none ∧
    out.2.fResultErrorCode = E ∧
    out.2.net.log = (Connect c).2.net.log ++ [NetCall.send msg E, NetCall.close] ∧
    IsConnected out.2 = false)
    n c reqType list startTime endTime _ b result hb
  · intro h; rw [hconn] at h; exact absurd h (by simp)
  · intro stop _ hbr2 hstop
    rw [hbr] at hbr2
    rcases hstop with rfl | rfl <;> simp at hbr2
  · intro _ hbr2
    rw [hbr] at hbr2
    simp at hbr2
  · intro msg2 _ hbr2 _
    rw [hbr] at hbr2
    simp only [Exec.ret.injEq, Option.some.injEq] at hbr2
    subst hbr2
    exact ⟨rfl, hcode, hlog, IsConnected_Close _⟩
  · intro msg2 _ _ _ hbr2 hs2
    rw [hbr] at hbr2
    simp only [Exec.ret.injEq, Option.some.injEq] at hbr2
    subst hbr2
    omega
  · intro msg2 _ _ _ hbr2 hs2
    rw [hbr] at hbr2
    simp only [Exec.ret.injEq, Option.some.injEq] at hbr2
    subst hbr2
    omega
  · intro msg2 _ _ _ _ hbr2 hs2
    rw [hbr] at hbr2
    simp only [Exec.ret.injEq, Option.some.injEq] at hbr2
    subst hbr2
    omega

/-- C13 at a concrete input: batch limit 2, five names, the server answers the first
sub-batch and refuses the connection of the second. The call returns null with `BadState`
retained, and the values of the entry "a" aggregated from the first sub-batch are
dropped. -/
theorem GetValuesList_connect_failure_witness :
    IsConnected (Connect (nextTurn secondRefusedClient
      (AliDCSMessage.multiRequest RequestType.kAlias 0 10 ["a", "b"]) fiveNames 0 [])).2 =
        false ∧
    (GetValuesList secondRefusedClient RequestType.kAlias fiveNames 0 10 0 (-1)).1 =
      Exec.ret none ∧
    (GetValuesList secondRefusedClient RequestType.kAlias fiveNames 0 10 0
      (-1)).2.fResultErrorCode = fgkBadState ∧
    (GetValuesList secondRefusedClient RequestType.kAlias fiveNames 0 10 0 (-1)).2.net.log =
      (Connect (nextTurn secondRefusedClient
        (AliDCSMessage.multiRequest RequestType.kAlias 0 10 ["a", "b"]) fiveNames 0
        [])).2.net.log :=
  ⟨by decide,
    GetValuesList_connect_failure secondRefusedClient RequestType.kAlias fiveNames 0 10 0
      (-1) 1
      (nextTurn secondRefusedClient
        (AliDCSMessage.multiRequest RequestType.kAlias 0 10 ["a", "b"]) fiveNames 0 [])
      2 [("a", [⟨1, 5⟩])]
      (Turns.step 0 _ _ _
        (TurnStep.mk secondRefusedClient 0 [] [("a", [⟨1, 5⟩])]
          (AliDCSMessage.multiRequest RequestType.kAlias 0 10 ["a", "b"])
          (ReceiveLoop 3 (afterSend (Connect secondRefusedClient).2
            (AliDCSMessage.multiRequest RequestType.kAlias 0 10 ["a", "b"])) fiveNames 0
            []).2
          "a" (by decide) (by decide) (by decide) (by decide) (by decide) (by decide))
        (Turns.start _))
      (by decide) (by decide)⟩

/-- C14 at a concrete input: batch limit 2, names of one character at most, five names
the fourth of which is too long. The first sub-batch succeeds; in the second the name "c"
is appended and the append of "dd" is refused: the call returns null with `BadMessage`
retained, and the only message sent is the request of the first sub-batch. -/
theorem GetValuesList_append_failure_witness :
    ((AliDCSMessage.multiRequest RequestType.kAlias 0 10 ["c"]).AddRequestString 10 1 "dd" =
      none ∧
     sentMessages (nextTurn shortNamesClient
      (AliDCSMessage.multiRequest RequestType.kAlias 0 10 ["a", "b"]) longFourthName 0
      []).net.log = [AliDCSMessage.multiRequest RequestType.kAlias 0 10 ["a", "b"]]) ∧
    (GetValuesList shortNamesClient RequestType.kAlias longFourthName 0 10 0 (-1)).1 =
      Exec.ret none ∧
    (GetValuesList shortNamesClient RequestType.kAlias longFourthName 0 10 0
      (-1)).2.fResultErrorCode = fgkBadMessage ∧
    (GetValuesList shortNamesClient RequestType.kAlias longFourthName 0 10 0 (-1)).2.net.log =
      (Connect (nextTurn shortNamesClient
        (AliDCSMessage.multiRequest RequestType.kAlias 0 10 ["a", "b"]) longFourthName 0
        [])).2.net.log ∧
    sentMessages (GetValuesList shortNamesClient RequestType.kAlias longFourthName 0 10 0
      (-1)).2.net.log =
      sentMessages (nextTurn shortNamesClient
        (AliDCSMessage.multiRequest RequestType.kAlias 0 10 ["a", "b"]) longFourthName 0
        []).net.log :=
  ⟨by decide,
    GetValuesList_append_failure shortNamesClient RequestType.kAlias longFourthName 0 10 0
      (-1) 1
      (nextTurn shortNamesClient
        (AliDCSMessage.multiRequest RequestType.kAlias 0 10 ["a", "b"]) longFourthName 0 [])
      2 [("a", [⟨1, 5⟩, ⟨4, 7⟩]), ("b", [⟨3, 7⟩])] 1
      (AliDCSMessage.multiRequest RequestType.kAlias 0 10 ["c"]) "dd"
      (Turns.step 0 _ _ _
        (TurnStep.mk shortNamesClient 0 [] [("a", [⟨1, 5⟩, ⟨4, 7⟩]), ("b", [⟨3, 7⟩])]
          (AliDCSMessage.multiRequest RequestType.kAlias 0 10 ["a", "b"])
          (ReceiveLoop 9 (afterSend (Connect shortNamesClient).2
            (AliDCSMessage.multiRequest RequestType.kAlias 0 10 ["a", "b"])) longFourthName
            0 []).2
          "a" (by decide) (by decide) (by decide) (by decide) (by decide) (by decide))
        (Turns.start _))
      (by decide) (by decide) (by decide) (by decide) (by decide) (by decide)
      (by decide)⟩

/-- C15 at a concrete input: batch limit 2, five names, the first sub-batch succeeds and
the send of the second request returns -4. The call returns null with -4 retained, and
the calls on the network stop with that send and the close after it. -/
theorem GetValuesList_send_failure_witness :
    (GetValuesList secondSendFailsClient RequestType.kAlias fiveNames 0 10 0 (-1)).1 =
      Exec.ret none ∧
    (GetValuesList secondSendFailsClient RequestType.kAlias fiveNames 0 10 0
      (-1)).2.fResultErrorCode = -4 ∧
    (GetValuesList secondSendFailsClient RequestType.kAlias fiveNames 0 10 0 (-1)).2.net.log =
      (Connect (nextTurn secondSendFailsClient
        (AliDCSMessage.multiRequest RequestType.kAlias 0 10 ["a", "b"]) fiveNames 0
        [])).2.net.log ++
        [NetCall.send (AliDCSMessage.multiRequest RequestType.kAlias 0 10 ["c", "d"]) (-4),
         NetCall.close] ∧
    IsConnected (GetValuesList secondSendFailsClient RequestType.kAlias fiveNames 0 10 0
      (-1)).2 = false :=
  GetValuesList_send_failure secondSendFailsClient RequestType.kAlias fiveNames 0 10 0
    (-1) 1
    (nextTurn secondSendFailsClient
      (AliDCSMessage.multiRequest RequestType.kAlias 0 10 ["a", "b"]) fiveNames 0 [])
    2 [("a", [⟨1, 5⟩])]
    (AliDCSMessage.multiRequest RequestType.kAlias 0 10 ["c", "d"]) (-4)
    (Turns.step 0 _ _ _
      (TurnStep.mk secondSendFailsClient 0 [] [("a", [⟨1, 5⟩])]
        (AliDCSMessage.multiRequest RequestType.kAlias 0 10 ["a", "b"])
        (ReceiveLoop 5 (afterSend (Connect secondSendFailsClient).2
          (AliDCSMessage.multiRequest RequestType.kAlias 0 10 ["a", "b"])) fiveNames 0
          []).2
        "a" (by decide) (by decide) (by decide) (by decide) (by decide) (by decide))
      (Turns.start _))
    (by decide) (by decide) (by decide) (by decide) (by decide)

/-! ## The list query: one connection per sub-batch -/

theorem ReceiveValueSet_resultSet_eq (c : AliDCSClient) (result : List AliDCSValue)
    (k r owner : Int) (values : List AliDCSValue) (tl : List (Int × AliDCSMessage))
    (h : c.net.replies = (r, AliDCSMessage.resultSet owner values) :: tl) (hr : 0 ≤ r) :
    ReceiveValueSet c result k =
      if owner < 0 then
        (0, result, owner, afterReceive c r (AliDCSMessage.resultSet owner values) tl)
      else ((values.length : Int), result ++ values, owner,
        afterReceive c r (AliDCSMessage.resultSet owner values) tl) := by
  unfold ReceiveValueSet ReceiveMessage
  rw [h]
  simp only [not_lt.mpr hr, if_false]
  rfl

theorem receivesThenClose_cons (r : Int) (m : AliDCSMessage) (d : List NetCall) :
    receivesThenClose (NetCall.receive r m :: d) = receivesThenClose d := by
  rw [receivesThenClose]

theorem receivedSets_cons_set (b r o : Int) (vs : List AliDCSValue) (d : List NetCall)
    (ho : ¬ o < 0) :
    receivedSets b (NetCall.receive r (AliDCSMessage.resultSet o vs) :: d) =
      (o + b, vs) :: receivedSets b d := by
  simp [receivedSets, List.filterMap_cons, ho]

/-- The receive loop of a sub-batch that succeeds: its calls are receives, and the map is
merged from the result sets in the order of the calls. -/
theorem ReceiveLoop_block (fuel : Nat) :
    ∀ (c : AliDCSClient) (list : List String) (b : Int) (result m : TMap),
      (ReceiveLoop fuel c list b result).1 = Exec.ret (some m) →
      ∃ recvs, (ReceiveLoop fuel c list b result).2.net.log = c.net.log ++ recvs ∧
        receivesThenClose (recvs ++ [NetCall.close]) = true ∧
        m = (receivedSets b recvs).foldl (mergeStep list) result ∧
        (ReceiveLoop fuel c list b result).2.fSocket = c.fSocket := by
  induction fuel with
  | zero => intro c list b result m h; simp [ReceiveLoop] at h
  | succ fuel ih =>
    intro c list b result m h
    have hfst := ReceiveValueSet_fst c [] (-1)
    unfold ReceiveLoop at h ⊢
    by_cases hneg : (ReceiveValueSet c [] (-1)).1 < 0
    · simp only [hneg, if_true] at h
      simp at h
    · obtain ⟨r, o, vs, tl, hrep, hr⟩ := nextReply_nonneg c (by rw [← hfst]; omega)
      have hrv := ReceiveValueSet_resultSet_eq c [] (-1) r o vs tl hrep hr
      rw [hrv] at h ⊢
      by_cases ho : o < 0
      · simp only [ho, if_true, lt_irrefl, if_false] at h ⊢
        refine ⟨[NetCall.receive r (AliDCSMessage.resultSet o vs)], rfl, rfl, ?_, rfl⟩
        simp at h
        simp [receivedSets, ho, h]
      · simp only [ho, if_false] at h ⊢
        have hlen : ¬ ((vs.length : Int) < 0) := by omega
        simp only [hlen, if_false] at h ⊢
        cases hat : At list (o + b) with
        | none =>
          simp only [hat] at h ⊢
          obtain ⟨recvs, h1, h2, h3, h4⟩ := ih _ list b _ m h
          refine ⟨NetCall.receive r (AliDCSMessage.resultSet o vs) :: recvs, ?_, ?_, ?_, ?_⟩
          · rw [h1]; simp [afterReceive]
          · rw [List.cons_append, receivesThenClose_cons]; exact h2
          · rw [h3, receivedSets_cons_set b r o vs recvs ho]
            simp [mergeStep, hat]
          · rw [h4]; rfl
        | some name =>
          simp only [hat] at h ⊢
          cases hget : TMap.GetValue result name with
          | some old =>
            simp only [hget] at h ⊢
            obtain ⟨recvs, h1, h2, h3, h4⟩ := ih _ list b _ m h
            refine ⟨NetCall.receive r (AliDCSMessage.resultSet o vs) :: recvs, ?_, ?_, ?_, ?_⟩
            · rw [h1]; simp [afterReceive]
            · rw [List.cons_append, receivesThenClose_cons]; exact h2
            · rw [h3, receivedSets_cons_set b r o vs recvs ho]
              simp [mergeStep, hat, hget]
            · rw [h4]; rfl
          | none =>
            simp only [hget] at h ⊢
            obtain ⟨recvs, h1, h2, h3, h4⟩ := ih _ list b _ m h
            refine ⟨NetCall.receive r (AliDCSMessage.resultSet o vs) :: recvs, ?_, ?_, ?_, ?_⟩
            · rw [h1]; simp [afterReceive]
            · rw [List.cons_append, receivesThenClose_cons]; exact h2
            · rw [h3, receivedSets_cons_set b r o vs recvs ho]
              simp [mergeStep, hat, hget]
            · rw [h4]; rfl

/-- The calls of a `Connect` loop that ends connected: attempts that fail, then the one
that succeeds. -/
theorem ConnectLoop_connected (n : Nat) :
    ∀ c : AliDCSClient, c.fSocket = none → IsConnected (ConnectLoop n c).2 = true →
      ∃ j, (ConnectLoop n c).2.net.log =
        c.net.log ++ failedAttempts c j ++ [NetCall.openSocket c.fHost c.fPort true] := by
  induction n with
  | zero =>
    intro c hs h
    simp [ConnectLoop, IsConnected, hs] at h
  | succ n ih =>
    intro c hs h
    unfold ConnectLoop at h ⊢
    rcases hacc : c.net.accepts with _ | ⟨a, rest⟩
    · rw [hacc] at h
      simp only at h ⊢
      obtain ⟨j, hj⟩ := ih _ rfl h
      refine ⟨j + 1, ?_⟩
      rw [hj, failedAttempts_succ]
      simp [failedAttempts]
    · cases a with
      | true =>
        refine ⟨0, ?_⟩
        simp [failedAttempts]
      | false =>
        rw [hacc] at h
        simp only at h ⊢
        obtain ⟨j, hj⟩ := ih _ rfl h
        refine ⟨j + 1, ?_⟩
        rw [hj, failedAttempts_succ]
        simp [failedAttempts]

theorem isBlock_failedAttempts (c : AliDCSClient) (j : Nat) (d : List NetCall) :
    isBlock (failedAttempts c j ++ d) = isBlock d := by
  induction j with
  | zero => simp [failedAttempts]
  | succ j ih =>
    rw [failedAttempts_succ]
    simp only [List.cons_append, List.nil_append, List.append_assoc]
    rw [isBlock]
    exact ih

theorem connAfter_append (a : List NetCall) :
    ∀ (isOpen : Bool) (b : List NetCall),
      connAfter isOpen (a ++ b) = (connAfter isOpen a).bind fun s => connAfter s b := by
  induction a with
  | nil => intro isOpen b; simp [connAfter]
  | cons x a ih =>
    intro isOpen b
    cases x <;> cases isOpen <;> simp [connAfter, ih]

theorem receivesThenClose_connAfter (d : List NetCall) :
    receivesThenClose d = true → connAfter true d = some false := by
  induction d with
  | nil => intro h; simp [receivesThenClose] at h
  | cons x d ih =>
    intro h
    cases x with
    | receive r m =>
      rw [receivesThenClose_cons] at h
      simp [connAfter, ih h]
    | close =>
      cases d with
      | nil => simp [connAfter]
      | cons y d => simp [receivesThenClose] at h
    | openSocket _ _ _ => simp [receivesThenClose] at h
    | sleep _ => simp [receivesThenClose] at h
    | send _ _ => simp [receivesThenClose] at h

/-- A block opens one connection, moves messages only while it is open, and leaves it
closed. -/
theorem isBlock_connAfter (n : Nat) :
    ∀ d : List NetCall, d.length ≤ n → isBlock d = true → connAfter false d = some false := by
  induction n with
  | zero =>
    intro d hd h
    cases d with
    | nil => simp [isBlock] at h
    | cons x d => simp at hd
  | succ n ih =>
    intro d hd h
    rcases d with _ | ⟨x, _ | ⟨y, rest⟩⟩
    · simp [isBlock] at h
    · cases x <;> simp [isBlock] at h
    · cases x with
      | openSocket host port valid =>
        cases valid with
        | false =>
          cases y with
          | sleep ms =>
            rw [isBlock] at h
            simp only [connAfter, Bool.false_eq_true, if_false]
            exact ih rest (by simp at hd; omega) h
          | openSocket _ _ _ => simp [isBlock] at h
          | send _ _ => simp [isBlock] at h
          | receive _ _ => simp [isBlock] at h
          | close => simp [isBlock] at h
        | true =>
          cases y with
          | send msg r =>
            rw [isBlock] at h
            simp only [connAfter, Bool.false_eq_true, if_false, if_true]
            exact receivesThenClose_connAfter rest h
          | openSocket _ _ _ => simp [isBlock] at h
          | sleep _ => simp [isBlock] at h
          | receive _ _ => simp [isBlock] at h
          | close => simp [isBlock] at h
      | sleep _ => simp [isBlock] at h
      | send _ _ => simp [isBlock] at h
      | receive _ _ => simp [isBlock] at h
      | close => simp [isBlock] at h

theorem connAfter_blocks (blocks : List (List NetCall))
    (h : ∀ d ∈ blocks, isBlock d = true) : connAfter false blocks.flatten = some false := by
  induction blocks with
  | nil => rfl
  | cons d blocks ih =>
    rw [List.flatten_cons, connAfter_append,
      isBlock_connAfter d.length d (le_refl _) (h d (List.mem_cons_self _ _))]
    exact ih fun x hx => h x (List.mem_cons_of_mem _ hx)

theorem Close_idem (c : AliDCSClient) : Close (Close c) = Close c := by
  unfold Close
  cases h : c.fSocket <;> simp [h]

theorem receivedSets_append (b : Int) (d1 d2 : List NetCall) :
    receivedSets b (d1 ++ d2) = receivedSets b d1 ++ receivedSets b d2 := by
  simp [receivedSets, List.filterMap_append]

theorem receivedSets_failedAttempts (b : Int) (c : AliDCSClient) (j : Nat) :
    receivedSets b (failedAttempts c j) = [] := by
  induction j with
  | zero => simp [failedAttempts, receivedSets]
  | succ j ih =>
    rw [failedAttempts_succ, receivedSets_append, ih]
    simp [receivedSets]

/-- The loop over the sub-batches, when it succeeds: its calls are one block per sub-batch,
and the map is merged from the result sets in the order of the calls. -/
theorem SubsetLoop_blocks (fuel : Nat) :
    ∀ (c : AliDCSClient) (reqType : RequestType) (list : List String) (s e : Nat)
      (E b : Int) (result m : TMap), 1 ≤ c.fMultiSplit →
      (SubsetLoop fuel c reqType list s e E b result).1 = Exec.ret (some m) →
      ∃ blocks : List (List NetCall),
        (SubsetLoop fuel c reqType list s e E b result).2.net.log =
          (if b < E then (Close c).net.log else c.net.log) ++ blocks.flatten ∧
        blocks.length = subBatchCount b E c.fMultiSplit ∧
        (∀ d ∈ blocks, isBlock d = true) ∧
        m = (blockSets c.fMultiSplit b blocks).foldl (mergeStep list) result := by
  induction fuel with
  | zero => intro c reqType list s e E b result m _ h; simp [SubsetLoop] at h
  | succ fuel ih =>
    intro c reqType list s e E b result m hL
    by_cases hb : b < E
    · rw [if_pos hb]
      apply SubsetLoop_cases (P := fun out => out.1 = Exec.ret (some m) →
        ∃ blocks : List (List NetCall),
          out.2.net.log = (Close c).net.log ++ blocks.flatten ∧
          blocks.length = subBatchCount b E c.fMultiSplit ∧
          (∀ d ∈ blocks, isBlock d = true) ∧
          m = (blockSets c.fMultiSplit b blocks).foldl (mergeStep list) result)
        fuel c reqType list s e E b result hb
      · intro _ h; simp at h
      · intro stop _ _ hstop h
        rcases hstop with rfl | rfl <;> simp at h
      · intro _ _ h; simp at h
      · intro _ _ _ _ h; simp at h
      · intro msg stop c3 _ _ _ _ hstop h
        exact absurd h (hstop m)
      · intro _ _ _ _ _ _ _ _ h; simp at h
      · intro msg result1 c3 name hconn hbr hs hrl hat hfm h
        have hfm1 : 1 ≤ (Close c3).fMultiSplit := by rw [hfm]; exact hL
        obtain ⟨blocks, h1, h2, h3, h4⟩ := ih (Close c3) reqType list s e E
          (b + (Close c3).fMultiSplit) result1 m hfm1 h
        rw [Close_idem, ite_self] at h1
        obtain ⟨j, hj⟩ := ConnectLoop_connected c.fRetries.toNat (Close c) (Close_fSocket c)
          hconn
        have hcl : (Connect c).2.net.log = (Close c).net.log ++ failedAttempts (Close c) j ++
            [NetCall.openSocket (Close c).fHost (Close c).fPort true] := hj
        obtain ⟨recvs, r1, r2, r3, r4⟩ := ReceiveLoop_block _ _ list b result result1
          (by rw [hrl])
        rw [hrl] at r1 r4
        simp only at r1 r4
        have hfs : c3.fSocket = some true := by
          rw [r4]
          have e1 : (afterSend (Connect c).2 msg).fSocket =
            (SendMessage (Connect c).2 msg).2.fSocket := rfl
          rw [e1, SendMessage_fSocket]
          exact IsConnected_fSocket _ hconn
        have hsl : (afterSend (Connect c).2 msg).net.log =
            (Connect c).2.net.log ++ [NetCall.send msg (SendMessage (Connect c).2 msg).1] :=
          SendMessage_log _ _
        refine ⟨(failedAttempts (Close c) j ++
            ([NetCall.openSocket (Close c).fHost (Close c).fPort true,
              NetCall.send msg (SendMessage (Connect c).2 msg).1] ++
              (recvs ++ [NetCall.close]))) :: blocks, ?_, ?_, ?_, ?_⟩
        · rw [h1, Close_log_open c3 true hfs, r1, hsl, hcl]
          simp
        · rw [List.length_cons, h2, hfm, subBatchCount_step b E c.fMultiSplit hL hb]
        · intro d hd
          rcases List.mem_cons.mp hd with rfl | hd
          · rw [isBlock_failedAttempts]
            simp only [List.cons_append, List.nil_append]
            rw [isBlock]
            exact r2
          · exact h3 d hd
        · rw [h4, hfm, blockSets, List.foldl_append]
          congr 1
          rw [r3, receivedSets_append, receivedSets_failedAttempts, receivedSets_append,
            receivedSets_append]
          simp [receivedSets]
    · rw [if_neg hb, SubsetLoop_done fuel c reqType list s e E b result hb]
      intro h
      simp only [Exec.ret.injEq, Option.some.injEq] at h
      refine ⟨[], by simp, ?_, by simp, ?_⟩
      · rw [subBatchCount_done b E c.fMultiSplit hL hb]; rfl
      · rw [← h]; rfl

/-- C20. Per-chunk connection cycle: the calls of a successful list query with batch limit
at least 1, the sums `subsetBegin + L` of which stay inside `Int_t`, are, after the close
of a connection left open before the call, one block per
sub-batch, block after block: the connection (attempts that fail, then the one that
succeeds), one send, receives, one close. Over these calls a socket is opened only while
no connection is open, messages are sent and received only while one is, and none is open
at the end of a block, so before the first call of the next one. The map returned is
merged from the result sets in the order of the calls that received them; a result set
whose owner index designates no list entry is received and merges nothing. -/
theorem GetValuesList_connection_cycle (c : AliDCSClient) (reqType : RequestType)
    (list : List String) (startTime endTime : Nat) (startIndex endIndex : Int) (m : TMap)
    (hL : 1 ≤ c.fMultiSplit)
    (hfit : lastSum startIndex (clampEndIndex list endIndex) c.fMultiSplit ≤ 2147483647)
    (h : (GetValuesList c reqType list startTime endTime startIndex endIndex).1 =
      Exec.ret (some m)) :
    (∀ i, i < subBatchCount startIndex (clampEndIndex list endIndex) c.fMultiSplit →
      (subBatch startIndex (clampEndIndex list endIndex) c.fMultiSplit i).1 +
        c.fMultiSplit ≤ 2147483647) ∧
    ∃ blocks : List (List NetCall),
      (GetValuesList c reqType list startTime endTime startIndex endIndex).2.net.log =
        (if startIndex < clampEndIndex list endIndex then (Close c).net.log
          else c.net.log) ++ blocks.flatten ∧
      blocks.length = subBatchCount startIndex (clampEndIndex list endIndex) c.fMultiSplit ∧
      (∀ d ∈ blocks, isBlock d = true) ∧
      connAfter false blocks.flatten = some false ∧
      m = (blockSets c.fMultiSplit startIndex blocks).foldl (mergeStep list) [] := by
  refine ⟨fun i hi => subBatch_sum_fits startIndex (clampEndIndex list endIndex)
    c.fMultiSplit hL hfit i hi, ?_⟩
  unfold GetValuesList at h ⊢
  simp only at h ⊢
  obtain ⟨blocks, h1, h2, h3, h4⟩ := SubsetLoop_blocks _ c reqType list startTime endTime
    (clampEndIndex list endIndex) startIndex [] m hL h
  exact ⟨blocks, h1, h2, h3, connAfter_blocks blocks h3, h4⟩

/-- C20 at a concrete input: batch limit 2, the names 0 to 2 of four, a client that is
connected before the call, a server that refuses the first connection attempt. The calls
are the close of the old connection and two blocks. -/
theorem GetValuesList_connection_cycle_witness :
    (1 ≤ retryClient.fMultiSplit ∧
     lastSum 0 (clampEndIndex ["a", "b", "c", "d"] 3) retryClient.fMultiSplit ≤ 2147483647 ∧
     (GetValuesList retryClient RequestType.kAlias ["a", "b", "c", "d"] 0 10 0 3).1 =
      Exec.ret (some [("a", [⟨1, 5⟩]), ("c", [⟨2, 6⟩])]) ∧
     (GetValuesList retryClient RequestType.kAlias ["a", "b", "c", "d"] 0 10 0 3).2.net.log =
      [NetCall.close,
       NetCall.openSocket "dcs" 4242 false, NetCall.sleep 100,
       NetCall.openSocket "dcs" 4242 true,
       NetCall.send (AliDCSMessage.multiRequest RequestType.kAlias 0 10 ["a", "b"]) 1,
       NetCall.receive 12 (AliDCSMessage.resultSet 0 [⟨1, 5⟩]),
       NetCall.receive 8 (AliDCSMessage.resultSet (-1) []),
       NetCall.close,
       NetCall.openSocket "dcs" 4242 true,
       NetCall.send (AliDCSMessage.multiRequest RequestType.kAlias 0 10 ["c"]) 1,
       NetCall.receive 12 (AliDCSMessage.resultSet 0 [⟨2, 6⟩]),
       NetCall.receive 8 (AliDCSMessage.resultSet (-1) []),
       NetCall.close]) ∧
    ∃ blocks : List (List NetCall),
      (GetValuesList retryClient RequestType.kAlias ["a", "b", "c", "d"] 0 10 0 3).2.net.log =
        (if (0 : Int) < clampEndIndex ["a", "b", "c", "d"] 3 then (Close retryClient).net.log
          else retryClient.net.log) ++ blocks.flatten ∧
      blocks.length =
        subBatchCount 0 (clampEndIndex ["a", "b", "c", "d"] 3) retryClient.fMultiSplit ∧
      (∀ d ∈ blocks, isBlock d = true) ∧
      connAfter false blocks.flatten = some false ∧
      [("a", [⟨1, 5⟩]), ("c", [⟨2, 6⟩])] =
        (blockSets retryClient.fMultiSplit 0 blocks).foldl
          (mergeStep ["a", "b", "c", "d"]) [] :=
  ⟨⟨by decide, by decide, by decide, by decide⟩,
    (GetValuesList_connection_cycle retryClient RequestType.kAlias ["a", "b", "c", "d"] 0 10
      0 3 [("a", [⟨1, 5⟩]), ("c", [⟨2, 6⟩])] (by decide) (by decide) (by decide)).2⟩

/-! ## Close, IsConnected, GetErrorString, the empty range -/

/-- C22. `Close` is idempotent and `IsConnected` is an observer: `Close` after `Close`
gives the state of one `Close`; after `Close`, `IsConnected` is false; `Close` of a client
without socket changes nothing; `IsConnected` yields a value and no state, and the value
depends on the socket member only, so it is the same for two calls in a row. -/
theorem Close_idempotent (c : AliDCSClient) :
    Close (Close c) = Close c ∧
    IsConnected (Close c) = false ∧
    (c.fSocket = none → Close c = c) ∧
    (∀ c2 : AliDCSClient, c2.fSocket = c.fSocket → IsConnected c2 = IsConnected c) ∧
    (IsConnected c = true ↔ c.fSocket = some true) := by
  refine ⟨?_, ?_, ?_, ?_, ?_⟩
  · unfold Close
    cases h : c.fSocket <;> simp [h]
  · unfold Close IsConnected
    cases h : c.fSocket <;> simp [h]
  · intro h
    unfold Close
    rw [h]
  · intro c2 h
    unfold IsConnected
    rw [h]
  · unfold IsConnected
    cases h : c.fSocket with
    | none => simp
    | some v => simp

/-- C23. `GetErrorString` maps each of the seven codes to its label and every other
integer, 0 and the positive counts among them, to "UnknownCode"; two codes with the same
label other than "UnknownCode" are the same code. -/
theorem GetErrorString_labels :
    GetErrorString fgkBadState = "BadState" ∧
    GetErrorString fgkInvalidParameter = "InvalidParameter" ∧
    GetErrorString fgkTimeout = "Timeout" ∧
    GetErrorString fgkBadMessage = "BadMessage" ∧
    GetErrorString fgkCommError = "CommunicationError" ∧
    GetErrorString fgkServerError = "ServerError" ∧
    GetErrorString fgkUnknownDP = "UnknownAlias/DP" ∧
    (∀ code : Int, GetErrorString code = "UnknownCode" ↔ isErrorCode code = false) ∧
    (∀ code : Int, 0 ≤ code → GetErrorString code = "UnknownCode") ∧
    (∀ a b : Int, GetErrorString a = GetErrorString b →
      GetErrorString a ≠ "UnknownCode" → a = b) := by
  have hunk : ∀ code : Int, GetErrorString code = "UnknownCode" ↔ isErrorCode code = false := by
    intro code
    unfold GetErrorString isErrorCode
    split_ifs <;> simp_all [fgkBadStateString, fgkInvalidParameterString, fgkTimeoutString,
      fgkBadMessageString, fgkCommErrorString, fgkServerErrorString, fgkUnknownDPString]
  refine ⟨by decide, by decide, by decide, by decide, by decide, by decide, by decide,
    hunk, ?_, ?_⟩
  · intro code hc
    rw [hunk]
    simp only [isErrorCode, fgkBadState, fgkInvalidParameter, fgkTimeout, fgkBadMessage,
      fgkCommError, fgkServerError, fgkUnknownDP, decide_eq_false_iff_not]
    omega
  · intro a b h hne
    have hb : GetErrorString b ≠ "UnknownCode" := by rw [← h]; exact hne
    have ha1 : isErrorCode a = true := by
      cases hx : isErrorCode a with
      | true => rfl
      | false => exact absurd ((hunk a).mpr hx) hne
    have hb1 : isErrorCode b = true := by
      cases hx : isErrorCode b with
      | true => rfl
      | false => exact absurd ((hunk b).mpr hx) hb
    simp only [isErrorCode, decide_eq_true_eq] at ha1 hb1
    rcases ha1 with rfl | rfl | rfl | rfl | rfl | rfl | rfl <;>
      rcases hb1 with rfl | rfl | rfl | rfl | rfl | rfl | rfl <;>
      first
        | rfl
        | exact absurd h (by decide)

/-- C29. Empty range: when `startIndex` is not below the effective end of the range, the
list `GetValues` returns an empty map, not the null pointer, and the client after the call
is the client before it: no call was made on the network, and the connection and the
retained result error code are as they were. -/
theorem GetValuesList_empty_range (c : AliDCSClient) (reqType : RequestType)
    (list : List String) (startTime endTime : Nat) (startIndex endIndex : Int)
    (h : clampEndIndex list endIndex ≤ startIndex) :
    GetValuesList c reqType list startTime endTime startIndex endIndex =
      (Exec.ret (some []), c) ∧
    (GetValuesList c reqType list startTime endTime startIndex endIndex).2.net.log =
      c.net.log ∧
    IsConnected (GetValuesList c reqType list startTime endTime startIndex endIndex).2 =
      IsConnected c ∧
    (GetValuesList c reqType list startTime endTime startIndex
      endIndex).2.fResultErrorCode = c.fResultErrorCode := by
  have e : GetValuesList c reqType list startTime endTime startIndex endIndex =
      (Exec.ret (some []), c) := by
    unfold GetValuesList
    exact SubsetLoop_done _ c reqType list startTime endTime _ startIndex [] (by omega)
  rw [e]
  exact ⟨rfl, rfl, rfl, rfl⟩

/-- C29 at two concrete inputs, for a client that is connected and retains `Timeout`: an
empty list, and a range that begins at the end of the list. -/
theorem GetValuesList_empty_range_witness :
    (clampEndIndex [] (-1) ≤ 0 ∧
     GetValuesList staleClient RequestType.kAlias [] 0 10 0 (-1) =
      (Exec.ret (some []), staleClient) ∧
     (GetValuesList staleClient RequestType.kAlias [] 0 10 0 (-1)).2.net.log =
      staleClient.net.log ∧
     IsConnected (GetValuesList staleClient RequestType.kAlias [] 0 10 0 (-1)).2 =
      IsConnected staleClient ∧
     (GetValuesList staleClient RequestType.kAlias [] 0 10 0 (-1)).2.fResultErrorCode =
      staleClient.fResultErrorCode) ∧
    (clampEndIndex fiveNames 7 ≤ 5 ∧
     GetValuesList staleClient RequestType.kAlias fiveNames 0 10 5 7 =
      (Exec.ret (some []), staleClient)) :=
  ⟨⟨by decide,
    GetValuesList_empty_range staleClient RequestType.kAlias [] 0 10 0 (-1) (by decide)⟩,
   ⟨by decide,
    (GetValuesList_empty_range staleClient RequestType.kAlias fiveNames 0 10 5 7
      (by decide)).1⟩⟩

/-! ## The list query: the effective end of the range -/

theorem AddRequestStrings_indices (c : AliDCSClient) (list : List String) (n : Nat) :
    ∀ (i : Int) (t : RequestType) (s e : Nat) (names : List String) (msg : AliDCSMessage),
      AddRequestStrings c list n i (AliDCSMessage.multiRequest t s e names) =
        Exec.ret (some msg) →
      ∃ (added : List String) (idxs : List Int),
        msg = AliDCSMessage.multiRequest t s e (names ++ added) ∧
        (∀ j ∈ idxs, i ≤ j ∧ j < i + n) ∧ added.map some = idxs.map (At list) := by
  induction n with
  | zero =>
    intro i t s e names msg h
    simp only [AddRequestStrings, Exec.ret.injEq, Option.some.injEq] at h
    exact ⟨[], [], by simp [← h], by simp, rfl⟩
  | succ n ih =>
    intro i t s e names msg h
    unfold AddRequestStrings at h
    cases hat : At list i with
    | none => simp [hat] at h
    | some name =>
      simp only [hat] at h
      unfold AliDCSMessage.AddRequestString at h
      by_cases hcap : names.length < c.net.maxNames ∧ name.length ≤ c.net.maxNameSize
      · simp only [hcap, and_self, if_true] at h
        obtain ⟨added, idxs, h1, h2, h3⟩ := ih (i + 1) t s e (names ++ [name]) msg h
        refine ⟨name :: added, i :: idxs, by simp [h1], ?_, by simp [hat, h3]⟩
        intro j hj
        rcases List.mem_cons.mp hj with rfl | hj
        · constructor <;> push_cast <;> omega
        · have := h2 j hj
          constructor <;> push_cast <;> omega
      · simp only [hcap, if_false] at h
        simp at h

/-- The names of the request of a sub-batch are list entries at indices of the
sub-batch. -/
theorem BuildRequest_indices (c : AliDCSClient) (reqType : RequestType) (list : List String)
    (s e : Nat) (E b : Int) (msg : AliDCSMessage) (hb : b < E)
    (h : BuildRequest c reqType list s e b (subsetEndOf c.fMultiSplit E b) =
      Exec.ret (some msg)) :
    ∃ idxs : List Int, (∀ j ∈ idxs, b ≤ j ∧ j < E) ∧
      (requestedNames msg).map some = idxs.map (At list) := by
  unfold BuildRequest at h
  by_cases hL : c.fMultiSplit = 1
  · simp only [hL, if_true] at h
    cases hat : At list b with
    | none => simp [hat] at h
    | some name =>
      simp only [hat, Exec.ret.injEq, Option.some.injEq] at h
      refine ⟨[b], by simp [hb], ?_⟩
      simp [← h, AliDCSMessage.CreateRequestMessage, requestedNames, hat]
  · simp only [hL, if_false] at h
    obtain ⟨added, idxs, h1, h2, h3⟩ := AddRequestStrings_indices c list _ b reqType s e []
      msg h
    refine ⟨idxs, ?_, by simp [h1, requestedNames, h3]⟩
    intro j hj
    have := h2 j hj
    have hse : subsetEndOf c.fMultiSplit E b ≤ E := by
      unfold subsetEndOf
      split <;> omega
    constructor <;> omega

/-- What holds of the request of every sub-batch holds of every message the loop over the
sub-batches sends. -/
theorem SubsetLoop_sent_all (Q : AliDCSMessage → Prop) (reqType : RequestType)
    (list : List String) (s e : Nat) (E : Int)
    (hQ : ∀ (c : AliDCSClient) (b : Int) (msg : AliDCSMessage), b < E →
      BuildRequest c reqType list s e b (subsetEndOf c.fMultiSplit E b) =
        Exec.ret (some msg) → Q msg)
    (fuel : Nat) :
    ∀ (c : AliDCSClient) (b : Int) (result : TMap),
      ∃ sent,
        sentMessages (SubsetLoop fuel c reqType list s e E b result).2.net.log =
          sentMessages c.net.log ++ sent ∧ ∀ m ∈ sent, Q m := by
  induction fuel with
  | zero =>
    intro c b result
    exact ⟨[], by simp [SubsetLoop], by simp⟩
  | succ fuel ih =>
    intro c b result
    by_cases hb : b < E
    · apply SubsetLoop_cases (P := fun out => ∃ sent,
        sentMessages out.2.net.log = sentMessages c.net.log ++ sent ∧ ∀ m ∈ sent, Q m)
        fuel c reqType list s e E b result hb
      · intro _
        exact ⟨[], by simp [Connect_sent], by simp⟩
      · intro stop _ _ hstop
        exact ⟨[], by simp [Connect_sent], by simp⟩
      · intro _ _
        exact ⟨[], by simp [Connect_sent], by simp⟩
      · intro msg _ hbr _
        refine ⟨[msg], by rw [Close_sent, afterSend_sent, Connect_sent], ?_⟩
        intro m hm
        rw [List.mem_singleton.mp hm]
        exact hQ _ b msg hb hbr
      · intro msg stop c3 _ hbr _ hrl hstop
        have h3 := ReceiveLoop_sent ((afterSend (Connect c).2 msg).net.replies.length + 1)
          (afterSend (Connect c).2 msg) list b result
        rw [hrl] at h3
        refine ⟨[msg], by rw [h3, afterSend_sent, Connect_sent], ?_⟩
        intro m hm
        rw [List.mem_singleton.mp hm]
        exact hQ _ b msg hb hbr
      · intro msg result1 c3 _ hbr _ hrl _
        have h3 := ReceiveLoop_sent ((afterSend (Connect c).2 msg).net.replies.length + 1)
          (afterSend (Connect c).2 msg) list b result
        rw [hrl] at h3
        refine ⟨[msg], by rw [Close_sent, h3, afterSend_sent, Connect_sent], ?_⟩
        intro m hm
        rw [List.mem_singleton.mp hm]
        exact hQ _ b msg hb hbr
      · intro msg result1 c3 name _ hbr _ hrl _ hc3
        have h3 := ReceiveLoop_sent ((afterSend (Connect c).2 msg).net.replies.length + 1)
          (afterSend (Connect c).2 msg) list b result
        rw [hrl] at h3
        obtain ⟨sent, h1, h2⟩ := ih (Close c3) (b + (Close c3).fMultiSplit) result1
        refine ⟨msg :: sent, ?_, ?_⟩
        · rw [h1, Close_sent, h3, afterSend_sent, Connect_sent]
          simp
        · intro m hm
          rcases List.mem_cons.mp hm with rfl | hm
          · exact hQ _ b m hb hbr
          · exact h2 m hm
    · rw [SubsetLoop_done fuel c reqType list s e E b result hb]
      exact ⟨[], by simp, by simp⟩

/-! ## The single entity query: a result set without records -/

/-- The receive loop of the single entity query stops at the first `ResultSet` that is the
sentinel or carries no record. -/
theorem GetValuesLoop_stops (sets : List (Int × Int × List AliDCSValue)) :
    ∀ (fuel : Nat) (c : AliDCSClient) (result : List AliDCSValue) (n rEnd owner : Int)
      (vsEnd : List AliDCSValue) (rest : List (Int × AliDCSMessage)),
      sets.length < fuel →
      (∀ s ∈ sets, 0 ≤ s.1 ∧ 0 ≤ s.2.1 ∧ s.2.2 ≠ []) →
      0 ≤ rEnd → (owner < 0 ∨ vsEnd = []) →
      c.net.replies =
        resultSetReplies sets ++ (rEnd, AliDCSMessage.resultSet owner vsEnd) :: rest →
      ∃ c1, c1.net.replies = rest ∧
        GetValuesLoop fuel c result n =
          some (n + (sets.map fun s => (s.2.2.length : Int)).sum,
                result ++ (sets.map fun s => s.2.2).flatten, c1) := by
  induction sets with
  | nil =>
    intro fuel c result n rEnd owner vsEnd rest hf _ hE hS hrep
    obtain ⟨fuel, rfl⟩ : ∃ k, fuel = k + 1 := ⟨fuel - 1, by simp at hf; omega⟩
    simp only [resultSetReplies, List.map_nil, List.nil_append] at hrep
    obtain ⟨c1, hc1, hrv⟩ :=
      ReceiveValueSet_resultSet c result 0 rEnd owner vsEnd rest hrep hE
    refine ⟨c1, hc1, ?_⟩
    unfold GetValuesLoop
    rw [hrv]
    by_cases ho : owner < 0
    · simp [ho]
    · have hv : vsEnd = [] := by
        rcases hS with h | h
        · exact absurd h ho
        · exact h
      subst hv
      simp [ho]
  | cons s sets ih =>
    intro fuel c result n rEnd owner vsEnd rest hf hsets hE hS hrep
    obtain ⟨fuel, rfl⟩ : ∃ k, fuel = k + 1 := ⟨fuel - 1, by simp at hf; omega⟩
    have hs := hsets s (List.mem_cons_self _ _)
    simp only [resultSetReplies, List.map_cons, List.cons_append] at hrep
    obtain ⟨c1, hc1, hrv⟩ :=
      ReceiveValueSet_resultSet c result 0 s.1 s.2.1 s.2.2 _ hrep hs.1
    have hlen : (0 : Int) < (s.2.2.length : Int) := by
      have := List.length_pos.mpr hs.2.2
      exact_mod_cast this
    obtain ⟨c2, hc2, hloop⟩ := ih fuel c1 (result ++ s.2.2) (n + s.2.2.length) rEnd owner
      vsEnd rest (by simp at hf; omega) (fun t ht => hsets t (List.mem_cons_of_mem _ ht))
      hE hS hc1
    refine ⟨c2, hc2, ?_⟩
    unfold GetValuesLoop
    rw [hrv]
    simp only [not_lt.mpr hs.2.1, if_false, not_le.mpr hlen]
    rw [hloop]
    simp [List.append_assoc, add_assoc]

/-- C25. Single entity `GetValues` stops at the first empty result set: when the
connection is established, the request is sent, and the server answers with result sets
that carry at least one record each, followed by a `ResultSet` without record, whatever
its owner index is (so also one that is not negative), the call returns the number of records received before that
message, with these records appended to the array; the replies behind that message are
left unread, whatever they are, and the connection is closed. -/
theorem GetValues_stops_at_empty_set (c : AliDCSClient) (reqType : RequestType)
    (reqString : String) (startTime endTime : Nat) (result : List AliDCSValue)
    (sets : List (Int × Int × List AliDCSValue)) (rEnd owner : Int)
    (rest : List (Int × AliDCSMessage))
    (hconn : IsConnected (Connect c).2 = true)
    (hsend : 0 ≤ (SendMessage (Connect c).2
      (AliDCSMessage.CreateRequestMessage reqType startTime endTime reqString)).1)
    (hsets : ∀ s ∈ sets, 0 ≤ s.1 ∧ 0 ≤ s.2.1 ∧ s.2.2 ≠ [])
    (hEnd : 0 ≤ rEnd)
    (hreplies : c.net.replies =
      resultSetReplies sets ++ (rEnd, AliDCSMessage.resultSet owner []) :: rest) :
    ∃ c1, c1.net.replies = rest ∧ IsConnected c1 = false ∧
      GetValues c reqType reqString startTime endTime result =
        some ((sets.map fun s => (s.2.2.length : Int)).sum,
              result ++ (sets.map fun s => s.2.2).flatten, c1) := by
  unfold GetValues
  simp only [hconn, Bool.not_true, Bool.false_eq_true, if_false]
  have hrep : (SendMessage (Connect c).2
      (AliDCSMessage.CreateRequestMessage reqType startTime endTime reqString)).2.net.replies =
      resultSetReplies sets ++ (rEnd, AliDCSMessage.resultSet owner []) :: rest := by
    rw [SendMessage_replies, Connect_replies, hreplies]
  generalize SendMessage (Connect c).2
      (AliDCSMessage.CreateRequestMessage reqType startTime endTime reqString) = sm
    at hsend hrep ⊢
  obtain ⟨sResult, c2⟩ := sm
  simp only at hsend hrep ⊢
  simp only [not_lt.mpr hsend, if_false]
  obtain ⟨c3, hc3, hloop⟩ := GetValuesLoop_stops sets (c2.net.replies.length + 1) c2 result 0
    rEnd owner [] rest (by rw [hrep]; simp [resultSetReplies]; omega) hsets hEnd
    (Or.inr rfl) hrep
  rw [hloop]
  exact ⟨Close c3, by rw [Close_net_replies, hc3], IsConnected_Close c3, by simp⟩

/-- C25 at a concrete input: the server sends two records, a result set without records,
three records more and the sentinel; the call returns 2 with the first two records, and
the result set with the three records and the sentinel are left unread. -/
theorem GetValues_stops_at_empty_set_witness :
    ∃ c1, c1.net.replies =
        [(14, AliDCSMessage.resultSet 0 [⟨3, 7⟩, ⟨4, 8⟩, ⟨5, 9⟩]),
         (8, AliDCSMessage.resultSet (-1) [])] ∧
      IsConnected c1 = false ∧
      GetValues emptySetClient RequestType.kAlias "a" 0 10 [] =
        some (2, [⟨1, 5⟩, ⟨2, 6⟩], c1) :=
  GetValues_stops_at_empty_set emptySetClient RequestType.kAlias "a" 0 10 []
    [(12, 0, [⟨1, 5⟩, ⟨2, 6⟩])] 8 0
    [(14, AliDCSMessage.resultSet 0 [⟨3, 7⟩, ⟨4, 8⟩, ⟨5, 9⟩]),
     (8, AliDCSMessage.resultSet (-1) [])]
    (by decide) (by decide) (by decide) (by decide) (by decide)

/-! ## The list query: the retained result error code -/

theorem arrivals_owner (L E : Int) (replies : List (Int × AliDCSMessage)) :
    ∀ b : Int, (arrivals L E b replies).map Prod.fst =
      (ownerArrivals L E b replies).map fun a => a.2 + a.1 := by
  induction replies with
  | nil => intro b; rfl
  | cons x rest ih =>
    intro b
    obtain ⟨r, msg⟩ := x
    cases msg with
    | resultSet o vs =>
      by_cases hb : b < E
      · by_cases ho : o < 0
        · simp only [arrivals, ownerArrivals, hb, ho, if_true]
          exact ih _
        · simp only [arrivals, ownerArrivals, hb, ho, if_true, if_false, List.map_cons]
          rw [ih b]
      · simp [arrivals, ownerArrivals, hb]
    | request _ _ _ _ => simp [arrivals, ownerArrivals]
    | multiRequest _ _ _ _ => simp [arrivals, ownerArrivals]
    | error _ _ => simp [arrivals, ownerArrivals]
    | unknownDP _ => simp [arrivals, ownerArrivals]
    | other _ => simp [arrivals, ownerArrivals]

theorem ownerArrivals_bounds (L E : Int) (hL : 1 ≤ L) (replies : List (Int × AliDCSMessage)) :
    ∀ b : Int, ∀ a ∈ ownerArrivals L E b replies, b ≤ a.1 ∧ a.1 < E ∧ 0 ≤ a.2 := by
  induction replies with
  | nil => intro b a ha; simp [ownerArrivals] at ha
  | cons x rest ih =>
    intro b a ha
    obtain ⟨r, msg⟩ := x
    cases msg with
    | resultSet o vs =>
      by_cases hb : b < E
      · by_cases ho : o < 0
        · simp only [ownerArrivals, hb, ho, if_true] at ha
          have := ih _ a ha
          exact ⟨by omega, this.2⟩
        · simp only [ownerArrivals, hb, ho, if_true, if_false, List.mem_cons] at ha
          rcases ha with rfl | ha
          · exact ⟨le_refl _, hb, by simp only; omega⟩
          · exact ih _ a ha
      · simp [ownerArrivals, hb] at ha
    | request _ _ _ _ => simp [ownerArrivals] at ha
    | multiRequest _ _ _ _ => simp [ownerArrivals] at ha
    | error _ _ => simp [ownerArrivals] at ha
    | unknownDP _ => simp [ownerArrivals] at ha
    | other _ => simp [ownerArrivals] at ha

theorem keysOf_AddAll (m : TMap) (k : String) (vs : List AliDCSValue) :
    keysOf (TMap.AddAll m k vs) = keysOf m := by
  induction m with
  | nil => rfl
  | cons x rest ih =>
    obtain ⟨k1, v1⟩ := x
    by_cases h : k1 = k
    · simp [TMap.AddAll, keysOf, h]
    · simp only [TMap.AddAll, h, if_false, keysOf, List.map_cons] at ih ⊢
      rw [ih]

theorem keysOf_Add (m : TMap) (k : String) (vs : List AliDCSValue) :
    keysOf (TMap.Add m k vs) = keysOf m ++ [k] := by
  simp [TMap.Add, keysOf]

theorem GetValue_none_iff (m : TMap) (k : String) : m.GetValue k = none ↔ k ∉ keysOf m := by
  induction m with
  | nil => simp [TMap.GetValue, keysOf]
  | cons x rest ih =>
    obtain ⟨k1, v1⟩ := x
    by_cases h : k1 = k
    · simp [TMap.GetValue, keysOf, h]
    · have h2 : ¬ k = k1 := fun e => h e.symm
      simp only [TMap.GetValue, h, if_false, keysOf, List.map_cons, List.mem_cons, h2,
        false_or]
      exact ih

/-- The keys after a merge step: those before it, and the name the step designates when
it had no entry. -/
theorem keysOf_mergeStep (list : List String) (m : TMap) (a : Int × List AliDCSValue) :
    keysOf (mergeStep list m a) = keysOf m ∨
    ∃ name, At list a.1 = some name ∧ name ∉ keysOf m ∧
      keysOf (mergeStep list m a) = keysOf m ++ [name] := by
  unfold mergeStep
  cases hat : At list a.1 with
  | none => exact Or.inl rfl
  | some name =>
    simp only
    cases hget : TMap.GetValue m name with
    | some old => exact Or.inl (keysOf_AddAll m name a.2)
    | none =>
      exact Or.inr ⟨name, rfl, (GetValue_none_iff m name).mp hget, keysOf_Add m name a.2⟩

/-- The keys of a map merged from arrivals are distinct, and each is a key of the map
merged into or the name an arrival designates. -/
theorem keysOf_foldl_mergeStep (list : List String) (arr : List (Int × List AliDCSValue)) :
    ∀ m : TMap, (keysOf m).Nodup →
      (keysOf (arr.foldl (mergeStep list) m)).Nodup ∧
      ∀ key ∈ keysOf (arr.foldl (mergeStep list) m),
        key ∈ keysOf m ∨ ∃ a ∈ arr, At list a.1 = some key := by
  induction arr with
  | nil => intro m hm; exact ⟨hm, fun key hk => Or.inl hk⟩
  | cons a arr ih =>
    intro m hm
    rw [List.foldl_cons]
    rcases keysOf_mergeStep list m a with h | ⟨name, hat, hnot, h⟩
    · obtain ⟨i1, i2⟩ := ih (mergeStep list m a) (by rw [h]; exact hm)
      refine ⟨i1, fun key hk => ?_⟩
      rcases i2 key hk with h1 | ⟨a1, ha1, h1⟩
      · rw [h] at h1; exact Or.inl h1
      · exact Or.inr ⟨a1, List.mem_cons_of_mem _ ha1, h1⟩
    · have hnd : (keysOf (mergeStep list m a)).Nodup := by
        rw [h]
        exact List.Nodup.append hm (List.nodup_singleton _) (by simpa using hnot)
      obtain ⟨i1, i2⟩ := ih (mergeStep list m a) hnd
      refine ⟨i1, fun key hk => ?_⟩
      rcases i2 key hk with h1 | ⟨a1, ha1, h1⟩
      · rw [h, List.mem_append, List.mem_singleton] at h1
        rcases h1 with h1 | rfl
        · exact Or.inl h1
        · exact Or.inr ⟨a, List.mem_cons_self _ _, hat⟩
      · exact Or.inr ⟨a1, List.mem_cons_of_mem _ ha1, h1⟩

/-- The owner indices that stay inside their sub-batch give absolute indices inside the
queried range. -/
theorem ownerArrivals_in_range (L E b : Int) (hL : 1 ≤ L)
    (replies : List (Int × AliDCSMessage))
    (hin : ∀ a ∈ ownerArrivals L E b replies, a.2 < subsetEndOf L E a.1 - a.1) :
    ∀ a ∈ ownerArrivals L E b replies, b ≤ a.2 + a.1 ∧ a.2 + a.1 < E := by
  intro a ha
  obtain ⟨h1, h2, h3⟩ := ownerArrivals_bounds L E hL replies b a ha
  have h4 := hin a ha
  have hse : subsetEndOf L E a.1 ≤ E := by
    unfold subsetEndOf
    split <;> omega
  constructor <;> omega

theorem At_isSome (list : List String) (i : Int) (h0 : 0 ≤ i) (h1 : i < list.length) :
    ∃ name, At list i = some name := by
  unfold At
  rw [if_neg (by omega)]
  have : i.toNat < list.length := by omega
  exact ⟨list[i.toNat], by simp [List.getElem?_eq_getElem this]⟩

/-- C26. Owner index stays inside the queried range. First part: in a successful list
query with batch limit at least 1 and `startIndex >= 0` in which every owner index that is
no sentinel is below the size of the sub-batch it arrives in, every lookup
`list[subsetBegin + ownerIndex]` finds an entry, at an index of the range from
`startIndex` to the effective end, and every key of the map returned is the name of a list
entry at an index of that range. Second part: the client does not check the owner index
against the sub-batch; a query for the one entry "a" of three, answered with the owner
indices 1 and 2, returns a map with the keys "b" and "c". -/
theorem GetValuesList_owner_in_range :
    (∀ (c : AliDCSClient) (reqType : RequestType) (list : List String)
      (startTime endTime : Nat) (startIndex endIndex : Int) (m : TMap),
      1 ≤ c.fMultiSplit → 0 ≤ startIndex →
      (GetValuesList c reqType list startTime endTime startIndex endIndex).1 =
        Exec.ret (some m) →
      (∀ a ∈ ownerArrivals c.fMultiSplit (clampEndIndex list endIndex) startIndex
          c.net.replies,
        a.2 < subsetEndOf c.fMultiSplit (clampEndIndex list endIndex) a.1 - a.1) →
      (∀ a ∈ ownerArrivals c.fMultiSplit (clampEndIndex list endIndex) startIndex
          c.net.replies,
        startIndex ≤ a.2 + a.1 ∧ a.2 + a.1 < clampEndIndex list endIndex ∧
        ∃ name, At list (a.2 + a.1) = some name) ∧
      (∀ key ∈ keysOf m, ∃ i : Int, startIndex ≤ i ∧ i < clampEndIndex list endIndex ∧
        At list i = some key)) ∧
    ((GetValuesList strayOwnerClient RequestType.kAlias ["a", "b", "c"] 0 10 0 1).1 =
        Exec.ret (some [("b", [⟨1, 5⟩]), ("c", [⟨2, 6⟩])]) ∧
      sentMessages (GetValuesList strayOwnerClient RequestType.kAlias ["a", "b", "c"] 0 10 0
        1).2.net.log = [AliDCSMessage.multiRequest RequestType.kAlias 0 10 ["a"]]) := by
  refine ⟨?_, by decide⟩
  intro c reqType list startTime endTime startIndex endIndex m hL h0 h hin
  have hrange := ownerArrivals_in_range c.fMultiSplit (clampEndIndex list endIndex)
    startIndex hL c.net.replies hin
  have hE : clampEndIndex list endIndex ≤ list.length := by
    unfold clampEndIndex
    split <;> omega
  constructor
  · intro a ha
    obtain ⟨r1, r2⟩ := hrange a ha
    exact ⟨r1, r2, At_isSome list _ (by omega) (by omega)⟩
  · intro key hkey
    have hm := SubsetLoop_map _ c reqType list startTime endTime
      (clampEndIndex list endIndex) startIndex [] m h
    rw [hm] at hkey
    rcases (keysOf_foldl_mergeStep list _ [] (by simp [keysOf])).2 key hkey with h1 | h1
    · simp [keysOf] at h1
    · obtain ⟨a, ha, hat⟩ := h1
      have hmem : a.1 ∈ (arrivals c.fMultiSplit (clampEndIndex list endIndex) startIndex
          c.net.replies).map Prod.fst := List.mem_map_of_mem _ ha
      rw [arrivals_owner] at hmem
      obtain ⟨o, ho, heq⟩ := List.mem_map.mp hmem
      obtain ⟨r1, r2⟩ := hrange o ho
      rw [heq] at r1 r2
      exact ⟨a.1, r1, r2, hat⟩

/-- C26, first part, at a concrete input: five names in batches of two, every owner index
0 or 1 and below the size of its sub-batch. -/
theorem GetValuesList_owner_in_range_witness :
    ((1 : Int) ≤ threeBatchClient.fMultiSplit ∧
     (GetValuesList threeBatchClient RequestType.kAlias fiveNames 0 10 0 (-1)).1 =
      Exec.ret (some threeBatchMap) ∧
     ownerArrivals threeBatchClient.fMultiSplit (clampEndIndex fiveNames (-1)) 0
      threeBatchClient.net.replies = [(0, 0), (0, 1), (0, 0), (2, 0), (4, 0)]) ∧
    ((∀ a ∈ ownerArrivals threeBatchClient.fMultiSplit (clampEndIndex fiveNames (-1)) 0
          threeBatchClient.net.replies,
        0 ≤ a.2 + a.1 ∧ a.2 + a.1 < clampEndIndex fiveNames (-1) ∧
        ∃ name, At fiveNames (a.2 + a.1) = some name) ∧
      (∀ key ∈ keysOf threeBatchMap, ∃ i : Int, 0 ≤ i ∧ i < clampEndIndex fiveNames (-1) ∧
        At fiveNames i = some key)) :=
  ⟨by decide,
    GetValuesList_owner_in_range.1 threeBatchClient RequestType.kAlias fiveNames 0 10 0 (-1)
      threeBatchMap (by decide) (by decide) (by decide) (by decide)⟩

/-! ## The list query: result sets without records -/

theorem AddAll_nil (m : TMap) (k : String) : TMap.AddAll m k [] = m := by
  induction m with
  | nil => rfl
  | cons x rest ih =>
    obtain ⟨k1, v1⟩ := x
    by_cases h : k1 = k
    · simp [TMap.AddAll, h]
    · simp only [TMap.AddAll, h, if_false]
      rw [ih]

theorem flatten_filter_nonempty (l : List (Int × List AliDCSValue)) :
    ((l.filter fun a => decide (a.2 ≠ [])).map fun a => a.2).flatten =
      (l.map fun a => a.2).flatten := by
  induction l with
  | nil => rfl
  | cons a l ih =>
    by_cases h : a.2 = []
    · rw [List.filter_cons_of_neg (by simp [h]), ih]
      simp [h]
    · rw [List.filter_cons_of_pos (by simp [h])]
      simp only [List.map_cons, List.flatten_cons, ih]

theorem setsOf_filter (list : List String) (arr : List (Int × List AliDCSValue))
    (name : String) (p : Int × List AliDCSValue → Bool) :
    setsOf list (arr.filter p) name = (setsOf list arr name).filter p := by
  unfold setsOf
  rw [List.filter_filter, List.filter_filter]
  congr 1
  funext a
  exact Bool.and_comm _ _

/-! ## The list query: a result set does not end the sub-batch -/

theorem setsGoOn_not_transfer (d Y : List NetCall) (h : ∀ x ∈ d, x.isTransfer = false) :
    setsGoOn (d ++ Y) = setsGoOn Y := by
  induction d with
  | nil => rfl
  | cons x d ih =>
    have hx := h x (List.mem_cons_self _ _)
    have := ih fun y hy => h y (List.mem_cons_of_mem _ hy)
    cases x <;> simp_all [NetCall.isTransfer, setsGoOn]

theorem setsGoOn_send (msg : AliDCSMessage) (r : Int) (Y : List NetCall) :
    setsGoOn (NetCall.send msg r :: Y) = setsGoOn Y := by
  simp [setsGoOn]

theorem setsGoOn_tail (x : NetCall) (d : List NetCall) (h : setsGoOn (x :: d) = true) :
    setsGoOn d = true := by
  cases x with
  | receive r m =>
    cases m <;> simp_all [setsGoOn]
  | _ => simpa [setsGoOn] using h

/-- What `setsGoOn` says of a record of calls. -/
theorem setsGoOn_spec (d : List NetCall) (h : setsGoOn d = true) :
    ∀ (pre : List NetCall) (r k : Int) (vs : List AliDCSValue) (post : List NetCall),
      d = pre ++ NetCall.receive r (AliDCSMessage.resultSet k vs) :: post → 0 ≤ k →
      ∃ r2 m2 post2, post = NetCall.receive r2 m2 :: post2 := by
  intro pre
  induction pre generalizing d with
  | nil =>
    intro r k vs post hd hk
    subst hd
    simp only [List.nil_append, setsGoOn, Bool.and_eq_true, Bool.or_eq_true,
      decide_eq_true_eq] at h
    rcases h.1 with h1 | h1
    · omega
    · cases post with
      | nil => simp [startsWithReceive] at h1
      | cons y post2 =>
        cases y <;> simp [startsWithReceive] at h1
        exact ⟨_, _, _, rfl⟩
  | cons x pre ih =>
    intro r k vs post hd hk
    subst hd
    exact ih _ (setsGoOn_tail x _ h) r k vs post rfl hk

/-- The receive loop of a sub-batch that succeeds makes at least one receive, and each
result set it receives with an owner index that is not negative is followed by a further
receive of the loop. -/
theorem ReceiveLoop_goOn (fuel : Nat) :
    ∀ (c : AliDCSClient) (list : List String) (b : Int) (result m : TMap),
      (ReceiveLoop fuel c list b result).1 = Exec.ret (some m) →
      ∃ r0 m0 tail, (ReceiveLoop fuel c list b result).2.net.log =
          c.net.log ++ NetCall.receive r0 m0 :: tail ∧
        ∀ Y, setsGoOn (NetCall.receive r0 m0 :: tail ++ Y) = setsGoOn Y := by
  induction fuel with
  | zero => intro c list b result m h; simp [ReceiveLoop] at h
  | succ fuel ih =>
    intro c list b result m h
    have hfst := ReceiveValueSet_fst c [] (-1)
    unfold ReceiveLoop at h ⊢
    by_cases hneg : (ReceiveValueSet c [] (-1)).1 < 0
    · simp only [hneg, if_true] at h
      simp at h
    · obtain ⟨r, o, vs, tl, hrep, hr⟩ := nextReply_nonneg c (by rw [← hfst]; omega)
      have hrv := ReceiveValueSet_resultSet_eq c [] (-1) r o vs tl hrep hr
      rw [hrv] at h ⊢
      by_cases ho : o < 0
      · simp only [ho, if_true, lt_irrefl, if_false] at h ⊢
        refine ⟨r, AliDCSMessage.resultSet o vs, [], rfl, ?_⟩
        intro Y
        simp [setsGoOn, ho]
      · simp only [ho, if_false] at h ⊢
        have hlen : ¬ ((vs.length : Int) < 0) := by omega
        simp only [hlen, if_false] at h ⊢
        have step : ∀ (res : TMap) (cc : AliDCSClient),
            cc.net.log = c.net.log ++ [NetCall.receive r (AliDCSMessage.resultSet o vs)] →
            (ReceiveLoop fuel cc list b res).1 = Exec.ret (some m) →
            ∃ r0 m0 tail, (ReceiveLoop fuel cc list b res).2.net.log =
                c.net.log ++ NetCall.receive r0 m0 :: tail ∧
              ∀ Y, setsGoOn (NetCall.receive r0 m0 :: tail ++ Y) = setsGoOn Y := by
          intro res cc hcc hres
          obtain ⟨r0, m0, tail, h1, h2⟩ := ih cc list b res m hres
          refine ⟨r, AliDCSMessage.resultSet o vs, NetCall.receive r0 m0 :: tail, ?_, ?_⟩
          · rw [h1, hcc]
            simp
          · intro Y
            have := h2 Y
            simp only [List.cons_append] at this ⊢
            rw [setsGoOn]
            simp only [startsWithReceive, Bool.or_true, Bool.true_and]
            exact this
        cases hat : At list (o + b) with
        | none =>
          simp only [hat] at h ⊢
          exact step _ _ (by simp [afterReceive]) h
        | some name =>
          simp only [hat] at h ⊢
          cases hget : TMap.GetValue result name with
          | some old =>
            simp only [hget] at h ⊢
            exact step _ _ (by simp [afterReceive]) h
          | none =>
            simp only [hget] at h ⊢
            exact step _ _ (by simp [afterReceive]) h

/-- In a list query that succeeds, each result set received with an owner index that is
not negative is followed by a further receive. -/
theorem SubsetLoop_goOn (fuel : Nat) :
    ∀ (c : AliDCSClient) (reqType : RequestType) (list : List String) (s e : Nat)
      (E b : Int) (result m : TMap),
      (SubsetLoop fuel c reqType list s e E b result).1 = Exec.ret (some m) →
      ∃ d, (SubsetLoop fuel c reqType list s e E b result).2.net.log = c.net.log ++ d ∧
        ∀ Y, setsGoOn (d ++ Y) = setsGoOn Y := by
  induction fuel with
  | zero => intro c reqType list s e E b result m h; simp [SubsetLoop] at h
  | succ fuel ih =>
    intro c reqType list s e E b result m
    by_cases hb : b < E
    · apply SubsetLoop_cases (P := fun out => out.1 = Exec.ret (some m) →
        ∃ d, out.2.net.log = c.net.log ++ d ∧ ∀ Y, setsGoOn (d ++ Y) = setsGoOn Y)
        fuel c reqType list s e E b result hb
      · intro _ h; simp at h
      · intro stop _ _ hstop h
        rcases hstop with rfl | rfl <;> simp at h
      · intro _ _ h; simp at h
      · intro _ _ _ _ h; simp at h
      · intro msg stop c3 _ _ _ _ hstop h
        exact absurd h (hstop m)
      · intro msg result1 c3 _ _ _ _ _ h
        simp at h
      · intro msg result1 c3 name _ _ _ hrl _ _ h
        obtain ⟨d5, h5, q5⟩ := ih _ _ _ _ _ _ _ _ _ h
        obtain ⟨d1, h1, q1⟩ := Connect_log c
        obtain ⟨r0, m0, tail, h3, q3⟩ := ReceiveLoop_goOn
          ((afterSend (Connect c).2 msg).net.replies.length + 1)
          (afterSend (Connect c).2 msg) list b result result1 (by rw [hrl])
        rw [hrl] at h3
        simp only at h3
        obtain ⟨d4, h4, q4⟩ := Close_log c3
        have hsl : (afterSend (Connect c).2 msg).net.log =
            (Connect c).2.net.log ++ [NetCall.send msg (SendMessage (Connect c).2 msg).1] :=
          SendMessage_log _ _
        refine ⟨d1 ++ (NetCall.send msg (SendMessage (Connect c).2 msg).1 ::
          ((NetCall.receive r0 m0 :: tail) ++ (d4 ++ d5))), ?_, ?_⟩
        · rw [h5, h4, h3, hsl, h1]
          simp [List.append_assoc]
        · intro Y
          rw [List.append_assoc, setsGoOn_not_transfer _ _ q1, List.cons_append,
            setsGoOn_send, List.append_assoc, q3, List.append_assoc,
            setsGoOn_not_transfer _ _ q4, q5]
    · rw [SubsetLoop_done fuel c reqType list s e E b result hb]
      intro _
      exact ⟨[], by simp, fun Y => rfl⟩

/-- C27. List `GetValues` keeps empty result sets and omits silent entities. In a
successful list query, the receive of a `ResultSet` with an owner index that is not
negative, with or without records, is directly followed by a further receive: it does not
end the sub-batch. At such a `ResultSet` without records the receive loop goes on with the
next reply, with an empty entry entered for the name the owner index designates when it
had none, and the map as it was when the name had an entry or the owner index designates
no list entry. In a successful list query, a name that result sets designate, all of them
without records, has the empty sequence as its entry; the entry of a name is what the
result sets with records give; and a name that no result set designates has no entry. -/
theorem GetValuesList_keeps_empty_sets (c : AliDCSClient) (reqType : RequestType)
    (list : List String) (startTime endTime : Nat) (startIndex endIndex : Int) (m : TMap)
    (h : (GetValuesList c reqType list startTime endTime startIndex endIndex).1 =
      Exec.ret (some m)) :
    (∃ d, (GetValuesList c reqType list startTime endTime startIndex endIndex).2.net.log =
        c.net.log ++ d ∧
      ∀ (pre : List NetCall) (r k : Int) (vs : List AliDCSValue) (post : List NetCall),
        d = pre ++ NetCall.receive r (AliDCSMessage.resultSet k vs) :: post → 0 ≤ k →
        ∃ r2 m2 post2, post = NetCall.receive r2 m2 :: post2) ∧
    (∀ (fuel : Nat) (c1 : AliDCSClient) (b : Int) (result : TMap) (r k : Int)
      (tl : List (Int × AliDCSMessage)),
      c1.net.replies = (r, AliDCSMessage.resultSet k []) :: tl → 0 ≤ r → 0 ≤ k →
      ReceiveLoop (fuel + 1) c1 list b result =
        ReceiveLoop fuel
          { afterReceive c1 r (AliDCSMessage.resultSet k []) tl with fResultErrorCode := 0 }
          list b
          (match At list (k + b) with
           | none => result
           | some name =>
             match result.GetValue name with
             | some _ => result
             | none => result.Add name [])) ∧
    (∀ name,
      (∃ a ∈ arrivals c.fMultiSplit (clampEndIndex list endIndex) startIndex c.net.replies,
        At list a.1 = some name) →
      (∀ a ∈ arrivals c.fMultiSplit (clampEndIndex list endIndex) startIndex c.net.replies,
        At list a.1 = some name → a.2 = []) →
      m.GetValue name = some []) ∧
    (∀ name,
      (∃ a ∈ arrivals c.fMultiSplit (clampEndIndex list endIndex) startIndex c.net.replies,
        At list a.1 = some name) →
      m.GetValue name = some (((setsOf list
        ((arrivals c.fMultiSplit (clampEndIndex list endIndex) startIndex
          c.net.replies).filter fun a => decide (a.2 ≠ [])) name).map fun a => a.2).flatten)) ∧
    (∀ name,
      (∀ a ∈ arrivals c.fMultiSplit (clampEndIndex list endIndex) startIndex c.net.replies,
        At list a.1 ≠ some name) →
      m.GetValue name = none ∧ name ∉ keysOf m) := by
  have hm := SubsetLoop_map _ c reqType list startTime endTime (clampEndIndex list endIndex)
    startIndex [] m h
  have hget : ∀ name, m.GetValue name =
      if setsOf list (arrivals c.fMultiSplit (clampEndIndex list endIndex) startIndex
          c.net.replies) name = [] then none
      else some (((setsOf list (arrivals c.fMultiSplit (clampEndIndex list endIndex)
          startIndex c.net.replies) name).map fun a => a.2).flatten) := by
    intro name
    rw [hm, GetValue_foldl_mergeStep]
    split <;> simp [TMap.GetValue]
  have hne : ∀ name,
      (∃ a ∈ arrivals c.fMultiSplit (clampEndIndex list endIndex) startIndex c.net.replies,
        At list a.1 = some name) →
      setsOf list (arrivals c.fMultiSplit (clampEndIndex list endIndex) startIndex
        c.net.replies) name ≠ [] := by
    intro name ⟨a, ha, hat⟩ hnil
    have : a ∈ setsOf list (arrivals c.fMultiSplit (clampEndIndex list endIndex) startIndex
        c.net.replies) name := by
      unfold setsOf
      exact List.mem_filter.mpr ⟨ha, by simp [hat]⟩
    rw [hnil] at this
    simp at this
  refine ⟨?_, ?_, ?_, ?_, ?_⟩
  · obtain ⟨d, hd, hgo⟩ := SubsetLoop_goOn _ c reqType list startTime endTime
      (clampEndIndex list endIndex) startIndex [] m h
    refine ⟨d, hd, setsGoOn_spec d ?_⟩
    have := hgo []
    simpa [setsGoOn] using this
  · intro fuel c1 b result r k tl hrep hr hk
    have hrv := ReceiveValueSet_resultSet_eq c1 [] (-1) r k [] tl hrep hr
    rw [ReceiveLoop, hrv]
    simp only [not_lt.mpr hk, if_false, List.length_nil, Nat.cast_zero, lt_irrefl,
      List.append_nil]
    cases hat : At list (k + b) with
    | none => rfl
    | some name =>
      simp only
      cases hg : TMap.GetValue result name with
      | some old =>
        simp only
        rw [AddAll_nil]
      | none => rfl
  · intro name hex hall
    rw [hget name, if_neg (hne name hex)]
    congr 1
    rw [List.flatten_eq_nil_iff]
    intro l hl
    obtain ⟨a, ha, rfl⟩ := List.mem_map.mp hl
    unfold setsOf at ha
    obtain ⟨ha1, ha2⟩ := List.mem_filter.mp ha
    exact hall a ha1 (by simpa using ha2)
  · intro name hex
    rw [hget name, if_neg (hne name hex), setsOf_filter, flatten_filter_nonempty]
  · intro name hall
    have hnil : setsOf list (arrivals c.fMultiSplit (clampEndIndex list endIndex) startIndex
        c.net.replies) name = [] := by
      unfold setsOf
      rw [List.filter_eq_nil_iff]
      intro a ha
      simpa using hall a ha
    have hnone : m.GetValue name = none := by rw [hget name, if_pos hnil]
    exact ⟨hnone, (GetValue_none_iff m name).mp hnone⟩

/-- C27 at a concrete input: four names in batches of two; "b" gets a result set without
records before the records of "a" arrive, "a" a result set without records after its
record, "d" nothing. The receive of the result set of "b" without records is the first
receive of the call and a receive follows it. The map has the empty sequence for "b", the
one record for "a", the record of "c" of the second sub-batch, and no entry for "d". -/
theorem GetValuesList_keeps_empty_sets_witness :
    ((GetValuesList emptySetsClient RequestType.kAlias ["a", "b", "c", "d"] 0 10 0 (-1)).1 =
      Exec.ret (some [("b", []), ("a", [⟨1, 5⟩]), ("c", [⟨9, 9⟩])]) ∧
     arrivals emptySetsClient.fMultiSplit (clampEndIndex ["a", "b", "c", "d"] (-1)) 0
      emptySetsClient.net.replies = [(1, []), (0, [⟨1, 5⟩]), (0, []), (2, [⟨9, 9⟩])] ∧
     (GetValuesList emptySetsClient RequestType.kAlias ["a", "b", "c", "d"] 0 10 0
      (-1)).2.net.log = emptySetsClient.net.log ++
        [NetCall.openSocket "dcs" 4242 true,
         NetCall.send (AliDCSMessage.multiRequest RequestType.kAlias 0 10 ["a", "b"]) 1,
         NetCall.receive 8 (AliDCSMessage.resultSet 1 []),
         NetCall.receive 12 (AliDCSMessage.resultSet 0 [⟨1, 5⟩]),
         NetCall.receive 8 (AliDCSMessage.resultSet 0 []),
         NetCall.receive 8 (AliDCSMessage.resultSet (-1) []),
         NetCall.close,
         NetCall.openSocket "dcs" 4242 true,
         NetCall.send (AliDCSMessage.multiRequest RequestType.kAlias 0 10 ["c", "d"]) 1,
         NetCall.receive 12 (AliDCSMessage.resultSet 0 [⟨9, 9⟩]),
         NetCall.receive 8 (AliDCSMessage.resultSet (-1) []),
         NetCall.close] ∧
     (GetValuesList droppedSetClient RequestType.kAlias ["a", "b", "c"] 0 10 0 2).1 =
      Exec.ret (some [("a", [⟨2, 6⟩])])) ∧
    (∃ d, (GetValuesList emptySetsClient RequestType.kAlias ["a", "b", "c", "d"] 0 10 0
        (-1)).2.net.log = emptySetsClient.net.log ++ d ∧
      ∀ (pre : List NetCall) (r k : Int) (vs : List AliDCSValue) (post : List NetCall),
        d = pre ++ NetCall.receive r (AliDCSMessage.resultSet k vs) :: post → 0 ≤ k →
        ∃ r2 m2 post2, post = NetCall.receive r2 m2 :: post2) ∧
    (TMap.GetValue [("b", []), ("a", [⟨1, 5⟩]), ("c", [⟨9, 9⟩])] "b" = some [] ∧
     (TMap.GetValue [("b", []), ("a", [⟨1, 5⟩]), ("c", [⟨9, 9⟩])] "d" = none ∧
      "d" ∉ keysOf [("b", []), ("a", [⟨1, 5⟩]), ("c", [⟨9, 9⟩])])) :=
  ⟨⟨by decide, by decide, by decide, by decide⟩,
    (GetValuesList_keeps_empty_sets emptySetsClient RequestType.kAlias ["a", "b", "c", "d"]
      0 10 0 (-1) [("b", []), ("a", [⟨1, 5⟩]), ("c", [⟨9, 9⟩])] (by decide)).1,
    (GetValuesList_keeps_empty_sets emptySetsClient RequestType.kAlias ["a", "b", "c", "d"]
      0 10 0 (-1) [("b", []), ("a", [⟨1, 5⟩]), ("c", [⟨9, 9⟩])] (by decide)).2.2.1 "b"
      ⟨(1, []), by decide, by decide⟩ (by decide),
    (GetValuesList_keeps_empty_sets emptySetsClient RequestType.kAlias ["a", "b", "c", "d"]
      0 10 0 (-1) [("b", []), ("a", [⟨1, 5⟩]), ("c", [⟨9, 9⟩])] (by decide)).2.2.2.2 "d"
      (by decide)⟩

/-! ## The list query: names that occur more than once -/

theorem length_le_dedup (keys names : List String) (hnd : keys.Nodup)
    (hsub : ∀ k ∈ keys, k ∈ names) : keys.length ≤ names.dedup.length := by
  rw [← List.toFinset_card_of_nodup hnd, ← List.card_toFinset]
  apply Finset.card_le_card
  intro k hk
  rw [List.mem_toFinset] at hk ⊢
  exact hsub k hk

theorem At_mem (list : List String) (i : Int) (name : String) (h : At list i = some name) :
    name ∈ list := by
  obtain ⟨_, hget⟩ := At_some list i name h
  exact List.get?_mem hget

theorem At_mem_namesOf (list : List String) (s E i : Int) (name : String) (hs : 0 ≤ s)
    (h1 : s ≤ i) (h2 : i < E) (h : At list i = some name) : name ∈ namesOf list s E := by
  obtain ⟨_, hget⟩ := At_some list i name h
  unfold namesOf
  apply List.mem_iff_getElem?.mpr
  refine ⟨i.toNat - s.toNat, ?_⟩
  rw [List.getElem?_take_of_lt (by omega), List.getElem?_drop]
  rw [List.get?_eq_getElem?] at hget
  rw [← hget]
  congr 1
  omega

/-- C28, the sentence on the number of entries at an input that refutes it: a query for
the one entry "a" of the list "a", "b", "c", answered with result sets for the owner
indices 1 and 2, returns a map with two entries, while the range holds one name. -/
theorem duplicate_names_counterexample :
    (GetValuesList strayOwnerClient RequestType.kAlias ["a", "b", "c"] 0 10 0 1).1 =
      Exec.ret (some [("b", [⟨1, 5⟩]), ("c", [⟨2, 6⟩])]) ∧
    (namesOf ["a", "b", "c"] 0 (clampEndIndex ["a", "b", "c"] 1)).dedup.length = 1 ∧
    ¬ (([("b", [⟨1, 5⟩]), ("c", [⟨2, 6⟩])] : TMap).length ≤
      (namesOf ["a", "b", "c"] 0 (clampEndIndex ["a", "b", "c"] 1)).dedup.length) := by
  decide

/-- C28 as amended. Duplicate names share one entry: in a successful list query the keys
of the map are distinct names; the entry of a name is the concatenation, in the order of
arrival, of the records of all result sets whose absolute index designates an entry with
that name, at whatever index of the list; the number of entries does not exceed the number
of distinct names of the list; and when the batch limit is at least 1, `startIndex >= 0`
and every owner index is below the size of the sub-batch it arrives in, it does not exceed
the number of distinct names of the queried range. -/
theorem GetValuesList_duplicate_names (c : AliDCSClient) (reqType : RequestType)
    (list : List String) (startTime endTime : Nat) (startIndex endIndex : Int) (m : TMap)
    (h : (GetValuesList c reqType list startTime endTime startIndex endIndex).1 =
      Exec.ret (some m)) :
    (keysOf m).Nodup ∧
    (∀ name, m.GetValue name =
      mergedValues list
        (arrivals c.fMultiSplit (clampEndIndex list endIndex) startIndex c.net.replies)
        name) ∧
    m.length ≤ list.dedup.length ∧
    (1 ≤ c.fMultiSplit → 0 ≤ startIndex →
      (∀ a ∈ ownerArrivals c.fMultiSplit (clampEndIndex list endIndex) startIndex
          c.net.replies,
        a.2 < subsetEndOf c.fMultiSplit (clampEndIndex list endIndex) a.1 - a.1) →
      m.length ≤ (namesOf list startIndex (clampEndIndex list endIndex)).dedup.length) := by
  have hm := SubsetLoop_map _ c reqType list startTime endTime (clampEndIndex list endIndex)
    startIndex [] m h
  obtain ⟨hnd, hkeys⟩ := keysOf_foldl_mergeStep list
    (arrivals c.fMultiSplit (clampEndIndex list endIndex) startIndex c.net.replies) []
    (by simp [keysOf])
  rw [← hm] at hnd hkeys
  have hlen : m.length = (keysOf m).length := by simp [keysOf]
  refine ⟨hnd, ?_, ?_, ?_⟩
  · intro name
    rw [hm, GetValue_foldl_mergeStep]
    unfold mergedValues
    split <;> simp [TMap.GetValue]
  · rw [hlen]
    apply length_le_dedup _ _ hnd
    intro key hkey
    rcases hkeys key hkey with h1 | ⟨a, _, hat⟩
    · simp [keysOf] at h1
    · exact At_mem list a.1 key hat
  · intro hL h0 hin
    rw [hlen]
    apply length_le_dedup _ _ hnd
    intro key hkey
    rcases hkeys key hkey with h1 | ⟨a, ha, hat⟩
    · simp [keysOf] at h1
    · have hrange := ownerArrivals_in_range c.fMultiSplit (clampEndIndex list endIndex)
        startIndex hL c.net.replies hin
      have hmem : a.1 ∈ (arrivals c.fMultiSplit (clampEndIndex list endIndex) startIndex
          c.net.replies).map Prod.fst := List.mem_map_of_mem _ ha
      rw [arrivals_owner] at hmem
      obtain ⟨o, ho, heq⟩ := List.mem_map.mp hmem
      obtain ⟨r1, r2⟩ := hrange o ho
      rw [heq] at r1 r2
      exact At_mem_namesOf list startIndex _ a.1 key h0 r1 r2 hat

/-- C28 as amended, at concrete inputs: five names in batches of two, the name "a" at the
indices 0 and 4; its one entry holds the records received for index 0 in the first
sub-batch and for index 4 in the last, and the map has three entries for four distinct
names. And a query of two of three names whose server sends a result set with the owner
index 5, which designates no entry of the list: the result set is dropped and the map has
the one entry of "a". -/
theorem GetValuesList_duplicate_names_witness :
    ((GetValuesList threeBatchClient RequestType.kAlias fiveNames 0 10 0 (-1)).1 =
      Exec.ret (some threeBatchMap) ∧
     At fiveNames 0 = some "a" ∧ At fiveNames 4 = some "a" ∧
     threeBatchMap.GetValue "a" = some [⟨1, 5⟩, ⟨4, 7⟩, ⟨10, 9⟩] ∧
     threeBatchMap.length = 3 ∧ fiveNames.dedup.length = 4 ∧
     (GetValuesList droppedSetClient RequestType.kAlias ["a", "b", "c"] 0 10 0 2).1 =
      Exec.ret (some [("a", [⟨2, 6⟩])]) ∧
     arrivals droppedSetClient.fMultiSplit (clampEndIndex ["a", "b", "c"] 2) 0
      droppedSetClient.net.replies = [(5, [⟨1, 5⟩]), (0, [⟨2, 6⟩])]) ∧
    ((keysOf threeBatchMap).Nodup ∧
    (∀ name, threeBatchMap.GetValue name =
      mergedValues fiveNames
        (arrivals threeBatchClient.fMultiSplit (clampEndIndex fiveNames (-1)) 0
          threeBatchClient.net.replies) name) ∧
    threeBatchMap.length ≤ fiveNames.dedup.length ∧
    (1 ≤ threeBatchClient.fMultiSplit → (0 : Int) ≤ 0 →
      (∀ a ∈ ownerArrivals threeBatchClient.fMultiSplit (clampEndIndex fiveNames (-1)) 0
          threeBatchClient.net.replies,
        a.2 < subsetEndOf threeBatchClient.fMultiSplit (clampEndIndex fiveNames (-1)) a.1 -
          a.1) →
      threeBatchMap.length ≤
        (namesOf fiveNames 0 (clampEndIndex fiveNames (-1))).dedup.length)) ∧
    ((keysOf ([("a", [⟨2, 6⟩])] : TMap)).Nodup ∧
    (∀ name, TMap.GetValue [("a", [⟨2, 6⟩])] name =
      mergedValues ["a", "b", "c"]
        (arrivals droppedSetClient.fMultiSplit (clampEndIndex ["a", "b", "c"] 2) 0
          droppedSetClient.net.replies) name) ∧
    ([("a", [⟨2, 6⟩])] : TMap).length ≤ ["a", "b", "c"].dedup.length) :=
  ⟨⟨by decide, by decide, by decide, by decide, by decide, by decide, by decide,
      by decide⟩,
    GetValuesList_duplicate_names threeBatchClient RequestType.kAlias fiveNames 0 10 0 (-1)
      threeBatchMap (by decide),
    (GetValuesList_duplicate_names droppedSetClient RequestType.kAlias ["a", "b", "c"] 0 10
      0 2 [("a", [⟨2, 6⟩])] (by decide)).1,
    (GetValuesList_duplicate_names droppedSetClient RequestType.kAlias ["a", "b", "c"] 0 10
      0 2 [("a", [⟨2, 6⟩])] (by decide)).2.1,
    (GetValuesList_duplicate_names droppedSetClient RequestType.kAlias ["a", "b", "c"] 0 10
      0 2 [("a", [⟨2, 6⟩])] (by decide)).2.2.1⟩

/-! ## The list query: the effective end is the end of what is requested -/

theorem clampEndIndex_idem (list : List String) (endIndex : Int) :
    clampEndIndex list (clampEndIndex list endIndex) = clampEndIndex list endIndex := by
  unfold clampEndIndex
  split <;> simp_all

theorem namesOf_empty (list : List String) (b e : Int) (h : e ≤ b) : namesOf list b e = [] := by
  unfold namesOf
  have : (e - b).toNat = 0 := by omega
  rw [this, List.take_zero]

theorem namesOf_append (list : List String) (b m e : Int) (h0 : 0 ≤ b) (h1 : b ≤ m)
    (h2 : m ≤ e) : namesOf list b m ++ namesOf list m e = namesOf list b e := by
  unfold namesOf
  have e1 : (e - b).toNat = (m - b).toNat + (e - m).toNat := by omega
  have e2 : m.toNat = b.toNat + (m - b).toNat := by omega
  rw [e1, List.take_add, e2, ← List.drop_drop]

theorem namesOf_single (list : List String) (b : Int) (name : String)
    (h : At list b = some name) : namesOf list b (b + 1) = [name] := by
  obtain ⟨h0, hget⟩ := At_some list b name h
  unfold namesOf
  have e1 : (b + 1 - b).toNat = 1 := by omega
  rw [e1]
  rw [List.get?_eq_getElem?] at hget
  obtain ⟨hlt, hv⟩ := List.getElem?_eq_some_iff.mp hget
  rw [List.drop_eq_getElem_cons hlt]
  simp [hv]

/-- The names of the requests of the sub-batches of a range inside the list, request after
request, are the names of the range in list order. -/
theorem requestedNames_subBatches (L : Int) (hL : 1 ≤ L) (reqType : RequestType)
    (s e : Nat) (list : List String) (E : Int) (hE : E ≤ list.length) (n : Nat) :
    ∀ b : Int, 0 ≤ b → subBatchCount b E L = n →
      (((subBatches b E L).map (requestFor L reqType s e list)).map requestedNames).flatten =
        namesOf list b E := by
  induction n with
  | zero =>
    intro b h0 hn
    have hb : ¬ b < E := by
      intro hb
      rw [subBatchCount_step b E L hL hb] at hn
      omega
    rw [subBatches_done b E L hL hb, namesOf_empty list b E (by omega)]
    rfl
  | succ n ih =>
    intro b h0 hn
    have hb : b < E := by
      by_contra hb
      rw [subBatchCount_done b E L hL hb] at hn
      omega
    rw [subBatchCount_step b E L hL hb] at hn
    rw [subBatches_step b E L hL hb, List.map_cons, List.map_cons, List.flatten_cons,
      ih (b + L) (by omega) (by omega)]
    obtain ⟨name, hname⟩ := At_isSome list b h0 (by omega)
    by_cases h1 : L = 1
    · subst h1
      have hmin : min (b + 1) E = b + 1 := by omega
      have hreq : requestedNames (requestFor 1 reqType s e list (b, min (b + 1) E)) =
          [name] := by
        simp [requestFor, requestedNames, hname]
      rw [hreq, ← namesOf_single list b name hname]
      exact namesOf_append list b (b + 1) E h0 (by omega) (by omega)
    · have hreq : requestedNames (requestFor L reqType s e list (b, min (b + L) E)) =
          namesOf list b (min (b + L) E) := by
        simp [requestFor, requestedNames, h1]
      rw [hreq]
      by_cases h2 : b + L ≤ E
      · have hmin : min (b + L) E = b + L := by omega
        rw [hmin]
        exact namesOf_append list b (b + L) E h0 (by omega) h2
      · have hmin : min (b + L) E = E := by omega
        rw [hmin, namesOf_empty list (b + L) E (by omega), List.append_nil]

/-- C21. `endIndex` clamping. The effective end of the queried range is the length of the
list when `endIndex` is negative or beyond it, and `endIndex` itself when it lies between
0 and the length. The list `GetValues` runs on the effective end: the call with `endIndex`
is the call with the effective end in its place. The names of every request it sends are,
name by name, list entries at indices below the effective end, so no entry at or beyond it
is requested. And a call that returns a map (batch limit at least 1, `startIndex >= 0`,
sums inside `Int_t`) has requested, request after request, exactly the entries from
`startIndex` up to the effective end, each once and in list order. -/
theorem GetValuesList_clamps (c : AliDCSClient) (reqType : RequestType)
    (list : List String) (startTime endTime : Nat) (startIndex endIndex : Int) :
    ((endIndex < 0 ∨ endIndex > list.length) →
      clampEndIndex list endIndex = list.length) ∧
    (0 ≤ endIndex → endIndex ≤ list.length → clampEndIndex list endIndex = endIndex) ∧
    (0 ≤ clampEndIndex list endIndex ∧ clampEndIndex list endIndex ≤ list.length) ∧
    GetValuesList c reqType list startTime endTime startIndex endIndex =
      GetValuesList c reqType list startTime endTime startIndex
        (clampEndIndex list endIndex) ∧
    (∃ sent,
      sentMessages (GetValuesList c reqType list startTime endTime startIndex
        endIndex).2.net.log = sentMessages c.net.log ++ sent ∧
      (∀ m ∈ sent, ∃ idxs : List Int,
        (∀ j ∈ idxs, 0 ≤ j ∧ j < clampEndIndex list endIndex) ∧
        (requestedNames m).map some = idxs.map (At list)) ∧
      (1 ≤ c.fMultiSplit → 0 ≤ startIndex →
        lastSum startIndex (clampEndIndex list endIndex) c.fMultiSplit ≤ 2147483647 →
        ∀ m, (GetValuesList c reqType list startTime endTime startIndex endIndex).1 =
          Exec.ret (some m) →
        (sent.map requestedNames).flatten =
          namesOf list startIndex (clampEndIndex list endIndex))) := by
  have hE : 0 ≤ clampEndIndex list endIndex ∧ clampEndIndex list endIndex ≤ list.length := by
    unfold clampEndIndex
    split <;> omega
  refine ⟨?_, ?_, hE, ?_, ?_⟩
  · intro h
    unfold clampEndIndex
    rw [if_pos h]
  · intro h1 h2
    unfold clampEndIndex
    rw [if_neg (by omega)]
  · unfold GetValuesList
    simp only [clampEndIndex_idem]
  · obtain ⟨sent, h1, h2⟩ := SubsetLoop_sent_all
      (fun m => ∃ idxs : List Int,
        (∀ j ∈ idxs, 0 ≤ j ∧ j < clampEndIndex list endIndex) ∧
        (requestedNames m).map some = idxs.map (At list))
      reqType list startTime endTime (clampEndIndex list endIndex)
      (by
        intro c1 b msg hb hbr
        obtain ⟨idxs, h1, h2⟩ := BuildRequest_indices c1 reqType list startTime endTime _ b
          msg hb hbr
        refine ⟨idxs, ?_, h2⟩
        intro j hj
        refine ⟨?_, (h1 j hj).2⟩
        have hmem : At list j ∈ idxs.map (At list) := List.mem_map_of_mem _ hj
        rw [← h2] at hmem
        obtain ⟨name, _, hname⟩ := List.mem_map.mp hmem
        exact (At_some list j name hname.symm).1)
      ((clampEndIndex list endIndex - startIndex).toNat + c.net.accepts.length + 1) c
      startIndex []
    refine ⟨sent, h1, h2, ?_⟩
    intro hL h0 _ m hm
    obtain ⟨sent2, g1, _, g3⟩ := SubsetLoop_sent
      ((clampEndIndex list endIndex - startIndex).toNat + c.net.accepts.length + 1) c
      reqType list startTime endTime (clampEndIndex list endIndex) startIndex [] hL
    have hs : sent = sent2 := List.append_cancel_left (h1.symm.trans g1)
    rw [hs, g3 m hm]
    exact requestedNames_subBatches c.fMultiSplit hL reqType startTime endTime list
      (clampEndIndex list endIndex) hE.2 _ startIndex h0 rfl

/-- C21 at concrete inputs: the effective end for four values of `endIndex`, and a query
for the entries from 1 on of five names with `endIndex` unset, in batches of two: the call
is the call with end 5, and the names asked for are "b", "c", then "d", "a". -/
theorem GetValuesList_clamps_witness :
    (clampEndIndex fiveNames (-1) = 5 ∧ clampEndIndex fiveNames 9 = 5 ∧
     clampEndIndex fiveNames 4 = 4 ∧ clampEndIndex fiveNames 0 = 0 ∧
     (sentMessages (GetValuesList clampClient RequestType.kAlias fiveNames 0 10 1
      (-1)).2.net.log).map requestedNames = [["b", "c"], ["d", "a"]] ∧
     namesOf fiveNames 1 (clampEndIndex fiveNames (-1)) = ["b", "c", "d", "a"] ∧
     1 ≤ clampClient.fMultiSplit ∧
     lastSum 1 (clampEndIndex fiveNames (-1)) clampClient.fMultiSplit ≤ 2147483647 ∧
     (GetValuesList clampClient RequestType.kAlias fiveNames 0 10 1 (-1)).1 =
      Exec.ret (some [("b", [⟨1, 5⟩]), ("d", [⟨9, 9⟩])])) ∧
    GetValuesList clampClient RequestType.kAlias fiveNames 0 10 1 (-1) =
      GetValuesList clampClient RequestType.kAlias fiveNames 0 10 1
        (clampEndIndex fiveNames (-1)) :=
  ⟨by decide,
    (GetValuesList_clamps clampClient RequestType.kAlias fiveNames 0 10 1 (-1)).2.2.2.1⟩

/-! ## The list query: the step that fails -/

end AliDCSClient

/-! ## Transport: the runs of the transfer loop -/

namespace Transport

theorem drop_tail_script (l : List Int) (n : Nat) : l.tail.drop n = l.drop (n + 1) := by
  cases l <;> simp

theorem SendBufferLoop_run (R : Int) (t : Nat) (buffer : List Nat) (size : Int) (fuel : Nat) :
    ∀ (sock : TSocket) (sent tries : Int),
      (size - sent).toNat + (R - tries).toNat < fuel →
      ∃ code sock1 d,
        SendBufferLoop R t buffer size fuel sock sent tries = some (code, sock1) ∧
        sock1.calls = sock.calls ++ d ∧
        sock1.script = sock.script.drop d.length ∧
        sock1.tx = sock.tx ++ sentBytes buffer d ∧
        sock1.rx = sock.rx ∧
        XferRun R size ESelect.kWrite t SockCall.sendRaw sent tries d code := by
  induction fuel with
  | zero => intro sock sent tries h; omega
  | succ fuel ih =>
    intro sock sent tries hfuel
    unfold SendBufferLoop
    by_cases hc : sent < size ∧ tries < R
    · simp only [hc, and_self, if_true]
      by_cases h0 : (sock.Select ESelect.kWrite t).1 = 0
      · simp only [h0, if_true]
        obtain ⟨code, sock1, d, h1, h2, h3, h4, h5, h6⟩ :=
          ih (sock.Select ESelect.kWrite t).2 sent (tries + 1) (by omega)
        refine ⟨code, sock1, SockCall.select ESelect.kWrite t 0 :: d, h1, ?_, ?_, ?_, ?_, ?_⟩
        · rw [h2]
          simp only [TSocket.Select] at h0 ⊢
          rw [h0]
          simp
        · rw [h3]
          simp only [TSocket.Select, List.length_cons]
          exact drop_tail_script _ _
        · rw [h4]
          simp [TSocket.Select, sentBytes]
        · rw [h5]
          simp [TSocket.Select]
        · exact XferRun.zero sent tries d code hc.1 hc.2 h6
      · simp only [h0, if_false]
        by_cases hneg : (sock.Select ESelect.kWrite t).1 < 0
        · simp only [hneg, if_true]
          refine ⟨fgkCommError, _, [SockCall.select ESelect.kWrite t
            (sock.Select ESelect.kWrite t).1], rfl, ?_, ?_, ?_, ?_, ?_⟩
          · simp [TSocket.Select]
          · simp only [TSocket.Select, List.length_singleton]
            rw [← drop_tail_script]
            simp
          · simp [TSocket.Select, sentBytes]
          · simp [TSocket.Select]
          · exact XferRun.pollError sent tries _ hc.1 hc.2 hneg
        · simp only [hneg, if_false]
          have hpos : 0 < (sock.Select ESelect.kWrite t).1 := by omega
          by_cases hraw : ((sock.Select ESelect.kWrite t).2.SendRaw buffer sent
              (size - sent)).1 > 0
          · simp only [hraw, if_true]
            obtain ⟨code, sock1, d, h1, h2, h3, h4, h5, h6⟩ :=
              ih ((sock.Select ESelect.kWrite t).2.SendRaw buffer sent (size - sent)).2
                (sent + ((sock.Select ESelect.kWrite t).2.SendRaw buffer sent
                  (size - sent)).1) tries (by omega)
            refine ⟨code, sock1, SockCall.select ESelect.kWrite t
              (sock.Select ESelect.kWrite t).1 ::
              SockCall.sendRaw sent (size - sent)
                ((sock.Select ESelect.kWrite t).2.SendRaw buffer sent (size - sent)).1 :: d,
              h1, ?_, ?_, ?_, ?_, ?_⟩
            · rw [h2]
              simp [TSocket.Select, TSocket.SendRaw]
            · rw [h3]
              simp only [TSocket.Select, TSocket.SendRaw, List.length_cons]
              rw [drop_tail_script, drop_tail_script]
            · rw [h4]
              simp only [TSocket.Select, TSocket.SendRaw, sentBytes] at hraw ⊢
              simp only [hraw, if_true, List.append_assoc]
            · rw [h5]
              simp [TSocket.Select, TSocket.SendRaw]
            · exact XferRun.rawOk sent tries _ _ d code hc.1 hc.2 hpos hraw h6
          · simp only [hraw, if_false]
            refine ⟨fgkCommError, _, [SockCall.select ESelect.kWrite t
              (sock.Select ESelect.kWrite t).1,
              SockCall.sendRaw sent (size - sent)
                ((sock.Select ESelect.kWrite t).2.SendRaw buffer sent (size - sent)).1],
              rfl, ?_, ?_, ?_, ?_, ?_⟩
            · simp [TSocket.Select, TSocket.SendRaw]
            · simp only [TSocket.Select, TSocket.SendRaw, List.length_cons,
                List.length_singleton]
              rcases sock.script with _ | ⟨a, _ | ⟨b, l⟩⟩ <;> simp
            · simp only [TSocket.Select, TSocket.SendRaw, sentBytes] at hraw ⊢
              simp only [hraw, if_false, List.append_nil]
            · simp [TSocket.Select, TSocket.SendRaw]
            · exact XferRun.rawError sent tries _ _ hc.1 hc.2 hpos (by omega)
    · simp only [hc, if_false]
      by_cases hR : tries = R
      · rw [if_pos hR]
        exact ⟨fgkTimeout, sock, [], rfl, by simp, by simp, by simp [sentBytes], rfl,
          XferRun.timeout sent tries hc hR⟩
      · rw [if_neg hR]
        exact ⟨sent, sock, [], rfl, by simp, by simp, by simp [sentBytes], rfl,
          XferRun.done sent tries hc hR⟩

theorem ReceiveBufferLoop_run (R : Int) (t : Nat) (size : Int) (fuel : Nat) :
    ∀ (sock : TSocket) (buffer : List Nat) (recv tries : Int),
      (size - recv).toNat + (R - tries).toNat < fuel →
      ∃ code buffer1 sock1 d,
        ReceiveBufferLoop R t size fuel sock buffer recv tries = some (code, buffer1, sock1) ∧
        sock1.calls = sock.calls ++ d ∧
        sock1.script = sock.script.drop d.length ∧
        (buffer1, sock1.rx) = storeBytes (buffer, sock.rx) d ∧
        sock1.tx = sock.tx ∧
        XferRun R size ESelect.kRead t SockCall.recvRaw recv tries d code := by
  induction fuel with
  | zero => intro sock buffer recv tries h; omega
  | succ fuel ih =>
    intro sock buffer recv tries hfuel
    unfold ReceiveBufferLoop
    by_cases hc : recv < size ∧ tries < R
    · simp only [hc, and_self, if_true]
      by_cases h0 : (sock.Select ESelect.kRead t).1 = 0
      · simp only [h0, if_true]
        obtain ⟨code, buffer1, sock1, d, h1, h2, h3, h4, h5, h6⟩ :=
          ih (sock.Select ESelect.kRead t).2 buffer recv (tries + 1) (by omega)
        refine ⟨code, buffer1, sock1, SockCall.select ESelect.kRead t 0 :: d, h1,
          ?_, ?_, ?_, ?_, ?_⟩
        · rw [h2]
          simp only [TSocket.Select] at h0 ⊢
          rw [h0]
          simp
        · rw [h3]
          simp only [TSocket.Select, List.length_cons]
          exact drop_tail_script _ _
        · rw [h4]
          simp [TSocket.Select, storeBytes]
        · rw [h5]
          simp [TSocket.Select]
        · exact XferRun.zero recv tries d code hc.1 hc.2 h6
      · simp only [h0, if_false]
        by_cases hneg : (sock.Select ESelect.kRead t).1 < 0
        · simp only [hneg, if_true]
          refine ⟨fgkCommError, buffer, _, [SockCall.select ESelect.kRead t
            (sock.Select ESelect.kRead t).1], rfl, ?_, ?_, ?_, ?_, ?_⟩
          · simp [TSocket.Select]
          · simp only [TSocket.Select, List.length_singleton]
            rw [← drop_tail_script]
            simp
          · simp [TSocket.Select, storeBytes]
          · simp [TSocket.Select]
          · exact XferRun.pollError recv tries _ hc.1 hc.2 hneg
        · simp only [hneg, if_false]
          have hpos : 0 < (sock.Select ESelect.kRead t).1 := by omega
          by_cases hraw : ((sock.Select ESelect.kRead t).2.RecvRaw buffer recv
              (size - recv)).1 > 0
          · simp only [hraw, if_true]
            obtain ⟨code, buffer1, sock1, d, h1, h2, h3, h4, h5, h6⟩ :=
              ih ((sock.Select ESelect.kRead t).2.RecvRaw buffer recv (size - recv)).2.2
                ((sock.Select ESelect.kRead t).2.RecvRaw buffer recv (size - recv)).2.1
                (recv + ((sock.Select ESelect.kRead t).2.RecvRaw buffer recv
                  (size - recv)).1) tries (by omega)
            refine ⟨code, buffer1, sock1, SockCall.select ESelect.kRead t
              (sock.Select ESelect.kRead t).1 ::
              SockCall.recvRaw recv (size - recv)
                ((sock.Select ESelect.kRead t).2.RecvRaw buffer recv (size - recv)).1 :: d,
              h1, ?_, ?_, ?_, ?_, ?_⟩
            · rw [h2]
              simp [TSocket.Select, TSocket.RecvRaw]
            · rw [h3]
              simp only [TSocket.Select, TSocket.RecvRaw, List.length_cons]
              rw [drop_tail_script, drop_tail_script]
            · rw [h4]
              simp only [TSocket.Select, TSocket.RecvRaw, storeBytes]
            · rw [h5]
              simp [TSocket.Select, TSocket.RecvRaw]
            · exact XferRun.rawOk recv tries _ _ d code hc.1 hc.2 hpos hraw h6
          · simp only [hraw, if_false]
            refine ⟨fgkCommError, _, _, [SockCall.select ESelect.kRead t
              (sock.Select ESelect.kRead t).1,
              SockCall.recvRaw recv (size - recv)
                ((sock.Select ESelect.kRead t).2.RecvRaw buffer recv (size - recv)).1],
              rfl, ?_, ?_, ?_, ?_, ?_⟩
            · simp [TSocket.Select, TSocket.RecvRaw]
            · simp only [TSocket.Select, TSocket.RecvRaw, List.length_cons,
                List.length_singleton]
              rcases sock.script with _ | ⟨a, _ | ⟨b, l⟩⟩ <;> simp
            · simp only [TSocket.Select, TSocket.RecvRaw, storeBytes]
            · simp [TSocket.Select, TSocket.RecvRaw]
            · exact XferRun.rawError recv tries _ _ hc.1 hc.2 hpos (by omega)
    · simp only [hc, if_false]
      by_cases hR : tries = R
      · rw [if_pos hR]
        exact ⟨fgkTimeout, buffer, sock, [], rfl, by simp, by simp, by simp [storeBytes], rfl,
          XferRun.timeout recv tries hc hR⟩
      · rw [if_neg hR]
        exact ⟨recv, buffer, sock, [], rfl, by simp, by simp, by simp [storeBytes], rfl,
          XferRun.done recv tries hc hR⟩

theorem HardLast_cons (x : SockCall) (d : List SockCall) (code : Int)
    (hx : x.isHardError = false) (h : HardLast d code) : HardLast (x :: d) code := by
  rcases h with h | ⟨d0, y, hd, hq, hy, hcode⟩
  · left
    intro z hz
    rcases List.mem_cons.mp hz with rfl | hz
    · exact hx
    · exact h z hz
  · right
    refine ⟨x :: d0, y, by rw [hd]; rfl, ?_, hy, hcode⟩
    intro z hz
    rcases List.mem_cons.mp hz with rfl | hz
    · exact hx
    · exact hq z hz

theorem XferRun_hardLast (R size : Int) (interest : ESelect) (t : Nat)
    (raw : Int → Int → Int → SockCall)
    (hraw : raw = SockCall.sendRaw ∨ raw = SockCall.recvRaw)
    (sent tries : Int) (d : List SockCall) (code : Int)
    (h : XferRun R size interest t raw sent tries d code) : HardLast d code := by
  induction h with
  | timeout sent tries _ _ => exact Or.inl (by simp)
  | done sent tries _ _ => exact Or.inl (by simp)
  | zero sent tries d code _ _ _ ih =>
    exact HardLast_cons _ _ _ (by simp [SockCall.isHardError]) ih
  | pollError sent tries r _ _ hr =>
    exact Or.inr ⟨[], _, rfl, by simp, by simp [SockCall.isHardError, hr], rfl⟩
  | rawOk sent tries r res d code _ _ hr hres _ ih =>
    apply HardLast_cons _ _ _ (by simp [SockCall.isHardError]; omega)
    apply HardLast_cons _ _ _ _ ih
    rcases hraw with rfl | rfl <;> simp [SockCall.isHardError] <;> omega
  | rawError sent tries r res _ _ hr hres =>
    refine Or.inr ⟨[SockCall.select interest t r], _, rfl, ?_, ?_, rfl⟩
    · intro y hy
      rw [List.mem_singleton] at hy
      subst hy
      simp [SockCall.isHardError]
      omega
    · rcases hraw with rfl | rfl <;> simp [SockCall.isHardError, hres]

theorem hardLast_split (d : List SockCall) (code : Int) (h : HardLast d code)
    (pre post : List SockCall) (x : SockCall) (hd : d = pre ++ x :: post)
    (hx : x.isHardError = true) : code = fgkCommError ∧ post = [] := by
  rcases h with h | ⟨d0, y, hd0, hq, _, hcode⟩
  · have := h x (by rw [hd]; simp)
    rw [hx] at this
    exact absurd this (by simp)
  · refine ⟨hcode, ?_⟩
    have hnot : x ∉ d0 := by
      intro hmem
      have := hq x hmem
      rw [hx] at this
      exact absurd this (by simp)
    cases hp : post with
    | nil => rfl
    | cons p ps =>
      exfalso
      rw [hp] at hd
      have h2 := congrArg List.dropLast (hd.symm.trans hd0)
      rw [List.dropLast_concat, List.dropLast_append_of_ne_nil _ (by simp),
        List.dropLast_cons_of_ne_nil (by simp)] at h2
      apply hnot
      rw [← h2]
      simp

theorem XferRun_exit (R size : Int) (interest : ESelect) (t : Nat)
    (raw : Int → Int → Int → SockCall) (sent tries : Int) (d : List SockCall) (code : Int)
    (h : XferRun R size interest t raw sent tries d code)
    (hc : ¬ (sent < size ∧ tries < R)) :
    d = [] ∧ code = if tries = R then fgkTimeout else sent := by
  induction h with
  | timeout sent tries _ hR => exact ⟨rfl, by simp [hR]⟩
  | done sent tries _ hR => exact ⟨rfl, by simp [hR]⟩
  | zero sent tries d code h1 h2 _ _ => exact absurd ⟨h1, h2⟩ hc
  | pollError sent tries r h1 h2 _ => exact absurd ⟨h1, h2⟩ hc
  | rawOk sent tries r res d code h1 h2 _ _ _ _ => exact absurd ⟨h1, h2⟩ hc
  | rawError sent tries r res h1 h2 _ _ => exact absurd ⟨h1, h2⟩ hc

theorem XferRun_timeout (R size : Int) (interest : ESelect) (t : Nat)
    (raw : Int → Int → Int → SockCall)
    (hraw : raw = SockCall.sendRaw ∨ raw = SockCall.recvRaw)
    (sent tries : Int) (d : List SockCall) (code : Int)
    (h : XferRun R size interest t raw sent tries d code) :
    0 ≤ sent → tries ≤ R →
    (code = fgkTimeout ↔ tries + (zeroPolls d : Int) = R) ∧
    tries + (zeroPolls d : Int) ≤ R ∧
    0 ≤ transferred d ∧
    (code = fgkTimeout → sent < size → sent + transferred d < size) := by
  induction h with
  | timeout sent tries _ hR =>
    intro _ _
    simp [zeroPolls, transferred, hR]
  | done sent tries _ hR =>
    intro hs hle
    refine ⟨?_, by simp [zeroPolls]; omega, by simp [transferred], by simp [transferred]⟩
    simp only [zeroPolls, List.countP_nil, Nat.cast_zero, add_zero]
    constructor
    · intro h; rw [h] at hs; exact absurd hs (by decide)
    · intro h; exact absurd h hR
  | zero sent tries d code hlt htr _ ih =>
    intro hs hle
    obtain ⟨i1, i2, i3, i4⟩ := ih hs (by omega)
    have hz : (zeroPolls (SockCall.select interest t 0 :: d) : Int) = zeroPolls d + 1 := by
      simp [zeroPolls, SockCall.isZeroPoll]
    have ht : transferred (SockCall.select interest t 0 :: d) = transferred d := by
      simp [transferred, SockCall.moved]
    rw [hz, ht]
    refine ⟨?_, by omega, i3, i4⟩
    rw [i1]
    constructor <;> intro h <;> omega
  | pollError sent tries r hlt htr hr =>
    intro hs hle
    have hz : (zeroPolls [SockCall.select interest t r] : Int) = 0 := by
      have : ¬ r = 0 := by omega
      simp [zeroPolls, SockCall.isZeroPoll, this]
    rw [hz]
    refine ⟨?_, by omega, by simp [transferred, SockCall.moved], ?_⟩
    · constructor
      · intro h; exact absurd h (by decide)
      · intro h; omega
    · intro h; exact absurd h (by decide)
  | rawOk sent tries r res d code hlt htr hr hres hrun ih =>
    intro hs hle
    obtain ⟨i1, i2, i3, i4⟩ := ih (by omega) hle
    have hz : (zeroPolls (SockCall.select interest t r :: raw sent (size - sent) res :: d) :
        Int) = zeroPolls d := by
      have : ¬ r = 0 := by omega
      rcases hraw with rfl | rfl <;> simp [zeroPolls, SockCall.isZeroPoll, this]
    have ht : transferred (SockCall.select interest t r :: raw sent (size - sent) res :: d) =
        res + transferred d := by
      rcases hraw with rfl | rfl <;> simp [transferred, SockCall.moved, hres]
    rw [hz, ht]
    refine ⟨i1, i2, by omega, ?_⟩
    intro hcode _
    by_cases hin : sent + res < size
    · have := i4 hcode hin
      omega
    · exfalso
      obtain ⟨_, hcd⟩ := XferRun_exit R size interest t raw _ _ _ _ hrun
        (fun h => hin h.1)
      have hne : ¬ tries = R := by omega
      rw [if_neg hne] at hcd
      rw [hcd] at hcode
      have : (0 : Int) ≤ sent + res := by omega
      rw [hcode] at this
      exact absurd this (by decide)
  | rawError sent tries r res hlt htr hr hres =>
    intro hs hle
    have hz : (zeroPolls [SockCall.select interest t r, raw sent (size - sent) res] : Int) =
        0 := by
      have : ¬ r = 0 := by omega
      rcases hraw with rfl | rfl <;> simp [zeroPolls, SockCall.isZeroPoll, this]
    have ht : transferred [SockCall.select interest t r, raw sent (size - sent) res] = 0 := by
      have : ¬ res > 0 := by omega
      rcases hraw with rfl | rfl <;> simp [transferred, SockCall.moved, this]
    rw [hz, ht]
    refine ⟨?_, by omega, le_refl _, ?_⟩
    · constructor
      · intro h; exact absurd h (by decide)
      · intro h; omega
    · intro h; exact absurd h (by decide)

theorem XferRun_contiguous (R size : Int) (interest : ESelect) (t : Nat)
    (raw : Int → Int → Int → SockCall)
    (hraw : raw = SockCall.sendRaw ∨ raw = SockCall.recvRaw)
    (sent tries : Int) (d : List SockCall) (code : Int)
    (h : XferRun R size interest t raw sent tries d code) : Contiguous size sent d := by
  induction h with
  | timeout sent tries _ _ => trivial
  | done sent tries _ _ => trivial
  | zero sent tries d code _ _ _ ih => exact ih
  | pollError sent tries r _ _ _ => trivial
  | rawOk sent tries r res d code _ _ _ hres _ ih =>
    rcases hraw with rfl | rfl
    · refine ⟨rfl, rfl, ?_⟩
      simpa [SockCall.moved, hres] using ih
    · refine ⟨rfl, rfl, ?_⟩
      simpa [SockCall.moved, hres] using ih
  | rawError sent tries r res _ _ _ _ =>
    rcases hraw with rfl | rfl
    · exact ⟨rfl, rfl, trivial⟩
    · exact ⟨rfl, rfl, trivial⟩

theorem XferRun_exact (R size : Int) (interest : ESelect) (t : Nat)
    (raw : Int → Int → Int → SockCall)
    (hraw : raw = SockCall.sendRaw ∨ raw = SockCall.recvRaw)
    (sent tries : Int) (d : List SockCall) (code : Int)
    (h : XferRun R size interest t raw sent tries d code) :
    sent ≤ size → tries ≤ R → (∀ x ∈ d, x.overshoots = false) →
    sent + transferred d ≤ size ∧
    (0 ≤ code → code = size ∧ sent + transferred d = size) := by
  induction h with
  | timeout sent tries _ _ =>
    intro hs _ _
    exact ⟨by simpa [transferred] using hs, fun h => absurd h (by decide)⟩
  | done sent tries hc hR =>
    intro hs hle _
    refine ⟨by simpa [transferred] using hs, fun _ => ?_⟩
    have : ¬ sent < size := fun h => hc ⟨h, by omega⟩
    simp only [transferred, List.map_nil, List.sum_nil, add_zero]
    omega
  | zero sent tries d code _ _ _ ih =>
    intro hs hle ho
    have := ih hs (by omega) (fun x hx => ho x (List.mem_cons_of_mem _ hx))
    simpa [transferred, SockCall.moved] using this
  | pollError sent tries r _ _ _ =>
    intro hs _ _
    exact ⟨by simpa [transferred, SockCall.moved] using hs, fun h => absurd h (by decide)⟩
  | rawOk sent tries r res d code _ _ _ hres _ ih =>
    intro hs hle ho
    have hov := ho (raw sent (size - sent) res) (by simp)
    have hres2 : res ≤ size - sent := by
      rcases hraw with rfl | rfl <;> simpa [SockCall.overshoots] using hov
    have := ih (by omega) hle
      (fun x hx => ho x (List.mem_cons_of_mem _ (List.mem_cons_of_mem _ hx)))
    have ht : transferred (SockCall.select interest t r :: raw sent (size - sent) res :: d) =
        res + transferred d := by
      rcases hraw with rfl | rfl <;> simp [transferred, SockCall.moved, hres]
    rw [ht]
    constructor
    · omega
    · intro hcode
      have := this.2 hcode
      omega
  | rawError sent tries r res _ _ _ hres =>
    intro hs _ _
    have ht : transferred [SockCall.select interest t r, raw sent (size - sent) res] = 0 := by
      have : ¬ res > 0 := by omega
      rcases hraw with rfl | rfl <;> simp [transferred, SockCall.moved, this]
    rw [ht]
    exact ⟨by omega, fun h => absurd h (by decide)⟩

theorem XferRun_sentBytes (R size : Int) (interest : ESelect) (t : Nat) (buffer : List Nat)
    (sent tries : Int) (d : List SockCall) (code : Int)
    (h : XferRun R size interest t SockCall.sendRaw sent tries d code) :
    0 ≤ sent →
    sentBytes buffer d = (buffer.drop sent.toNat).take (transferred d).toNat := by
  induction h with
  | timeout sent tries _ _ => intro _; simp [sentBytes, transferred]
  | done sent tries _ _ => intro _; simp [sentBytes, transferred]
  | zero sent tries d code _ _ _ ih =>
    intro hs
    simpa [sentBytes, transferred, SockCall.moved] using ih hs
  | pollError sent tries r _ _ _ => intro _; simp [sentBytes, transferred, SockCall.moved]
  | rawOk sent tries r res d code _ _ _ hres hrun ih =>
    intro hs
    have ih1 := ih (by omega)
    have ht : transferred (SockCall.select interest t r ::
        SockCall.sendRaw sent (size - sent) res :: d) = res + transferred d := by
      simp [transferred, SockCall.moved, hres]
    rw [ht]
    simp only [sentBytes, hres, if_true, gt_iff_lt]
    rw [ih1]
    have hnn : 0 ≤ transferred d := by
      have : transferred d = (d.map SockCall.moved).sum := rfl
      rw [this]
      apply List.sum_nonneg
      intro x hx
      obtain ⟨y, _, rfl⟩ := List.mem_map.mp hx
      cases y <;> simp [SockCall.moved] <;> split <;> omega
    have e1 : (res + transferred d).toNat = res.toNat + (transferred d).toNat := by omega
    have e2 : (sent + res).toNat = sent.toNat + res.toNat := by omega
    rw [e1, e2, List.take_add, List.drop_drop]
  | rawError sent tries r res _ _ _ hres =>
    intro _
    have : ¬ res > 0 := by omega
    simp [sentBytes, transferred, SockCall.moved, this]

theorem transferred_nonneg (d : List SockCall) : 0 ≤ transferred d := by
  have : transferred d = (d.map SockCall.moved).sum := rfl
  rw [this]
  apply List.sum_nonneg
  intro x hx
  obtain ⟨y, _, rfl⟩ := List.mem_map.mp hx
  cases y <;> simp [SockCall.moved] <;> split <;> omega

theorem XferRun_storeBytes (R size : Int) (interest : ESelect) (t : Nat)
    (recv tries : Int) (d : List SockCall) (code : Int)
    (h : XferRun R size interest t SockCall.recvRaw recv tries d code) :
    ∀ (buffer rx : List Nat), 0 ≤ recv →
    (recv + transferred d).toNat ≤ buffer.length → (transferred d).toNat ≤ rx.length →
    storeBytes (buffer, rx) d =
      (buffer.take recv.toNat ++ rx.take (transferred d).toNat ++
        buffer.drop (recv + transferred d).toNat, rx.drop (transferred d).toNat) := by
  induction h with
  | timeout sent tries _ _ => intro buffer rx _ _ _; simp [storeBytes, transferred]
  | done sent tries _ _ => intro buffer rx _ _ _; simp [storeBytes, transferred]
  | zero sent tries d code _ _ _ ih =>
    intro buffer rx hs hb hr
    have ht : transferred (SockCall.select interest t 0 :: d) = transferred d := by
      simp [transferred, SockCall.moved]
    rw [ht] at hb hr ⊢
    simpa [storeBytes] using ih buffer rx hs hb hr
  | pollError sent tries r _ _ _ =>
    intro buffer rx _ _ _
    simp [storeBytes, transferred, SockCall.moved]
  | rawOk sent tries r res d code _ _ _ hres hrun ih =>
    intro buffer rx hs hb hr
    have hnn := transferred_nonneg d
    have ht : transferred (SockCall.select interest t r ::
        SockCall.recvRaw sent (size - sent) res :: d) = res + transferred d := by
      simp [transferred, SockCall.moved, hres]
    rw [ht] at hb hr ⊢
    have e1 : (res + transferred d).toNat = res.toNat + (transferred d).toNat := by omega
    have e2 : (sent + (res + transferred d)).toNat =
        sent.toNat + res.toNat + (transferred d).toNat := by omega
    have e3 : (sent + res).toNat = sent.toNat + res.toNat := by omega
    have e4 : (sent + res + transferred d).toNat =
        sent.toNat + res.toNat + (transferred d).toNat := by omega
    rw [e1] at hr
    rw [e2] at hb
    have hlen : (rx.take res.toNat).length = res.toNat := by
      rw [List.length_take]; omega
    simp only [storeBytes, hres, if_true, gt_iff_lt, hlen]
    rw [ih _ _ (by omega) (by
        rw [e4]
        simp only [List.length_append, List.length_take, List.length_drop]
        omega) (by
        simp only [List.length_drop]
        omega)]
    rw [e1, e2, e3, e4]
    have hb1 : sent.toNat ≤ buffer.length := by omega
    congr 1
    · rw [List.take_add (rx) res.toNat (transferred d).toNat]
      have hA : (List.take sent.toNat buffer ++ List.take res.toNat rx).length =
          sent.toNat + res.toNat := by
        rw [List.length_append, hlen, List.length_take, min_eq_left hb1]
      have t1 : List.take (sent.toNat + res.toNat)
          (List.take sent.toNat buffer ++ List.take res.toNat rx ++
            List.drop (sent.toNat + res.toNat) buffer) =
          List.take sent.toNat buffer ++ List.take res.toNat rx :=
        List.take_left' hA
      have t2 : List.drop (sent.toNat + res.toNat + (transferred d).toNat)
          (List.take sent.toNat buffer ++ List.take res.toNat rx ++
            List.drop (sent.toNat + res.toNat) buffer) =
          List.drop (sent.toNat + res.toNat + (transferred d).toNat) buffer := by
        rw [← List.drop_drop, List.drop_left' hA, List.drop_drop]
      rw [t1, t2]
      simp [List.append_assoc]
    · rw [List.drop_drop]
  | rawError sent tries r res _ _ _ hres =>
    intro buffer rx _ _ _
    have : ¬ res > 0 := by omega
    have ht : transferred [SockCall.select interest t r,
        SockCall.recvRaw sent (size - sent) res] = 0 := by
      simp [transferred, SockCall.moved, this]
    rw [ht]
    simp [storeBytes, this]

/-! ## Transport: fail fast, timeout, exact transfer -/

theorem SendBuffer_run (R : Int) (t : Nat) (sock : TSocket) (buffer : List Nat)
    (size : Int) :
    ∃ code sock1 d,
      SendBuffer R t sock buffer size = some (code, sock1) ∧
      sock1.calls = sock.calls ++ d ∧
      sock1.script = sock.script.drop d.length ∧
      sock1.tx = sock.tx ++ sentBytes buffer d ∧
      sock1.rx = sock.rx ∧
      XferRun R size ESelect.kWrite t SockCall.sendRaw 0 0 d code := by
  unfold SendBuffer
  exact SendBufferLoop_run R t buffer size _ sock 0 0 (by simp)

theorem ReceiveBuffer_run (R : Int) (t : Nat) (sock : TSocket) (buffer : List Nat)
    (size : Int) :
    ∃ code buffer1 sock1 d,
      ReceiveBuffer R t sock buffer size = some (code, buffer1, sock1) ∧
      sock1.calls = sock.calls ++ d ∧
      sock1.script = sock.script.drop d.length ∧
      (buffer1, sock1.rx) = storeBytes (buffer, sock.rx) d ∧
      sock1.tx = sock.tx ∧
      XferRun R size ESelect.kRead t SockCall.recvRaw 0 0 d code := by
  unfold ReceiveBuffer
  exact ReceiveBufferLoop_run R t size _ sock buffer 0 0 (by simp)

/-- C8. Transport fails fast on hard errors: `SendBuffer` and `ReceiveBuffer` return, and
whenever one of the calls they made on the socket is a readiness poll with a negative
result or a raw write or read with a result that is not positive, the operation returns
`CommError` and that call is the last one made, whatever the retry bound and the number
of results still scripted. -/
theorem transport_fails_fast (R : Int) (t : Nat) (sock : TSocket) (buffer : List Nat)
    (size : Int) :
    (∃ code sock1 d,
      SendBuffer R t sock buffer size = some (code, sock1) ∧
      sock1.calls = sock.calls ++ d ∧
      ∀ pre x post, d = pre ++ x :: post → x.isHardError = true →
        code = fgkCommError ∧ post = []) ∧
    (∃ code buffer1 sock1 d,
      ReceiveBuffer R t sock buffer size = some (code, buffer1, sock1) ∧
      sock1.calls = sock.calls ++ d ∧
      ∀ pre x post, d = pre ++ x :: post → x.isHardError = true →
        code = fgkCommError ∧ post = []) := by
  constructor
  · obtain ⟨code, sock1, d, h1, h2, _, _, _, hrun⟩ := SendBuffer_run R t sock buffer size
    refine ⟨code, sock1, d, h1, h2, ?_⟩
    intro pre x post hd hx
    exact hardLast_split d code (XferRun_hardLast _ _ _ _ _ (Or.inl rfl) _ _ _ _ hrun)
      pre post x hd hx
  · obtain ⟨code, buffer1, sock1, d, h1, h2, _, _, _, hrun⟩ :=
      ReceiveBuffer_run R t sock buffer size
    refine ⟨code, buffer1, sock1, d, h1, h2, ?_⟩
    intro pre x post hd hx
    exact hardLast_split d code (XferRun_hardLast _ _ _ _ _ (Or.inr rfl) _ _ _ _ hrun)
      pre post x hd hx

/-- The code of C8 at a concrete input: retry bound 5, 4 bytes asked, the second poll
reports an error; both operations return `CommError` after three calls and leave the
three results scripted behind unused. -/
theorem transport_fails_fast_example :
    (SendBuffer 5 100 brokenSocket [7, 8, 9, 10] 4).map (fun r => (r.1, r.2.calls, r.2.script)) =
      some (fgkCommError,
        [SockCall.select ESelect.kWrite 100 1, SockCall.sendRaw 0 4 2,
         SockCall.select ESelect.kWrite 100 (-1)], [1, 1, 1]) ∧
    (ReceiveBuffer 5 100 brokenSocket [0, 0, 0, 0] 4).map
        (fun r => (r.1, r.2.2.calls, r.2.2.script)) =
      some (fgkCommError,
        [SockCall.select ESelect.kRead 100 1, SockCall.recvRaw 0 4 2,
         SockCall.select ESelect.kRead 100 (-1)], [1, 1, 1]) := by
  decide

theorem timeout_core (R size : Int) (interest : ESelect) (t : Nat)
    (raw : Int → Int → Int → SockCall)
    (hraw : raw = SockCall.sendRaw ∨ raw = SockCall.recvRaw)
    (d : List SockCall) (code : Int) (hR : 1 ≤ R) (hsize : 1 ≤ size)
    (hrun : XferRun R size interest t raw 0 0 d code) :
    (code = fgkTimeout ↔ (zeroPolls d : Int) = R) ∧ (zeroPolls d : Int) ≤ R ∧
    (code = fgkTimeout → transferred d < size ∧ ∀ x ∈ d, x.isHardError = false) := by
  obtain ⟨h1, h2, _, h4⟩ := XferRun_timeout R size interest t raw hraw 0 0 d code hrun
    (le_refl _) (by omega)
  refine ⟨by simpa using h1, by simpa using h2, ?_⟩
  intro hcode
  refine ⟨by simpa using h4 hcode (by omega), ?_⟩
  rcases XferRun_hardLast R size interest t raw hraw 0 0 d code hrun with h | ⟨_, _, _, _, _, hc⟩
  · exact h
  · rw [hc] at hcode
    exact absurd hcode (by decide)

theorem scriptResults_succ (script : List Int) (n : Nat) :
    scriptResults script (n + 1) = script.headD 0 :: scriptResults script.tail n := by
  unfold scriptResults
  rw [List.range_succ_eq_map, List.map_cons, List.map_map]
  congr 1
  · cases script <;> rfl
  · apply List.map_congr_left
    intro i _
    cases script <;> simp [List.getD]

theorem scriptResults_zero (script : List Int) : scriptResults script 0 = [] := rfl

theorem scriptResults_silent (script : List Int) (h : ∀ x ∈ script, x = 0) (n : Nat) :
    ∀ r ∈ scriptResults script n, r = 0 := by
  intro r hr
  unfold scriptResults at hr
  obtain ⟨i, _, rfl⟩ := List.mem_map.mp hr
  by_cases hi : i < script.length
  · rw [List.getD_eq_getElem _ _ hi]
    exact h _ (List.getElem_mem hi)
  · rw [List.getD_eq_default _ _ (by omega)]

/-- The calls of `SendBuffer` are answered from the script, in order. -/
theorem SendBufferLoop_results (R : Int) (t : Nat) (buffer : List Nat) (size : Int)
    (fuel : Nat) :
    ∀ (sock : TSocket) (sent tries code : Int) (sock1 : TSocket),
      SendBufferLoop R t buffer size fuel sock sent tries = some (code, sock1) →
      ∃ d, sock1.calls = sock.calls ++ d ∧
        d.map SockCall.result = scriptResults sock.script d.length := by
  induction fuel with
  | zero => intro sock sent tries code sock1 h; simp [SendBufferLoop] at h
  | succ fuel ih =>
    intro sock sent tries code sock1 h
    unfold SendBufferLoop at h
    by_cases hc : sent < size ∧ tries < R
    · simp only [hc, and_self, if_true] at h
      by_cases h0 : (sock.Select ESelect.kWrite t).1 = 0
      · simp only [h0, if_true] at h
        obtain ⟨d, h1, h2⟩ := ih _ _ _ _ _ h
        refine ⟨SockCall.select ESelect.kWrite t (sock.script.headD 0) :: d, ?_, ?_⟩
        · rw [h1]; simp [TSocket.Select]
        · rw [List.map_cons, List.length_cons, scriptResults_succ, h2]
          rfl
      · simp only [h0, if_false] at h
        by_cases hneg : (sock.Select ESelect.kWrite t).1 < 0
        · simp only [hneg, if_true, Option.some.injEq, Prod.mk.injEq] at h
          refine ⟨[SockCall.select ESelect.kWrite t (sock.script.headD 0)], ?_, ?_⟩
          · rw [← h.2]; simp [TSocket.Select]
          · simp [scriptResults_succ, scriptResults_zero, SockCall.result]
        · simp only [hneg, if_false] at h
          by_cases hraw : ((sock.Select ESelect.kWrite t).2.SendRaw buffer sent
              (size - sent)).1 > 0
          · simp only [hraw, if_true] at h
            obtain ⟨d, h1, h2⟩ := ih _ _ _ _ _ h
            refine ⟨SockCall.select ESelect.kWrite t (sock.script.headD 0) ::
              SockCall.sendRaw sent (size - sent) (sock.script.tail.headD 0) :: d, ?_, ?_⟩
            · rw [h1]; simp [TSocket.Select, TSocket.SendRaw]
            · rw [List.map_cons, List.map_cons, List.length_cons, List.length_cons,
                scriptResults_succ, scriptResults_succ, h2]
              rfl
          · simp only [hraw, if_false, Option.some.injEq, Prod.mk.injEq] at h
            refine ⟨[SockCall.select ESelect.kWrite t (sock.script.headD 0),
              SockCall.sendRaw sent (size - sent) (sock.script.tail.headD 0)], ?_, ?_⟩
            · rw [← h.2]; simp [TSocket.Select, TSocket.SendRaw]
            · simp [scriptResults_succ, scriptResults_zero, SockCall.result]
    · simp only [hc, if_false] at h
      refine ⟨[], ?_, rfl⟩
      split at h <;> simp only [Option.some.injEq, Prod.mk.injEq] at h <;> rw [← h.2] <;> simp

/-- The calls of `ReceiveBuffer` are answered from the script, in order. -/
theorem ReceiveBufferLoop_results (R : Int) (t : Nat) (size : Int) (fuel : Nat) :
    ∀ (sock : TSocket) (buffer : List Nat) (recv tries code : Int) (buffer1 : List Nat)
      (sock1 : TSocket),
      ReceiveBufferLoop R t size fuel sock buffer recv tries = some (code, buffer1, sock1) →
      ∃ d, sock1.calls = sock.calls ++ d ∧
        d.map SockCall.result = scriptResults sock.script d.length := by
  induction fuel with
  | zero => intro sock buffer recv tries code buffer1 sock1 h; simp [ReceiveBufferLoop] at h
  | succ fuel ih =>
    intro sock buffer recv tries code buffer1 sock1 h
    unfold ReceiveBufferLoop at h
    by_cases hc : recv < size ∧ tries < R
    · simp only [hc, and_self, if_true] at h
      by_cases h0 : (sock.Select ESelect.kRead t).1 = 0
      · simp only [h0, if_true] at h
        obtain ⟨d, h1, h2⟩ := ih _ _ _ _ _ _ _ h
        refine ⟨SockCall.select ESelect.kRead t (sock.script.headD 0) :: d, ?_, ?_⟩
        · rw [h1]; simp [TSocket.Select]
        · rw [List.map_cons, List.length_cons, scriptResults_succ, h2]
          rfl
      · simp only [h0, if_false] at h
        by_cases hneg : (sock.Select ESelect.kRead t).1 < 0
        · simp only [hneg, if_true, Option.some.injEq, Prod.mk.injEq] at h
          refine ⟨[SockCall.select ESelect.kRead t (sock.script.headD 0)], ?_, ?_⟩
          · rw [← h.2.2]; simp [TSocket.Select]
          · simp [scriptResults_succ, scriptResults_zero, SockCall.result]
        · simp only [hneg, if_false] at h
          by_cases hraw : ((sock.Select ESelect.kRead t).2.RecvRaw buffer recv
              (size - recv)).1 > 0
          · simp only [hraw, if_true] at h
            obtain ⟨d, h1, h2⟩ := ih _ _ _ _ _ _ _ h
            refine ⟨SockCall.select ESelect.kRead t (sock.script.headD 0) ::
              SockCall.recvRaw recv (size - recv) (sock.script.tail.headD 0) :: d, ?_, ?_⟩
            · rw [h1]; simp [TSocket.Select, TSocket.RecvRaw]
            · rw [List.map_cons, List.map_cons, List.length_cons, List.length_cons,
                scriptResults_succ, scriptResults_succ, h2]
              rfl
          · simp only [hraw, if_false, Option.some.injEq, Prod.mk.injEq] at h
            refine ⟨[SockCall.select ESelect.kRead t (sock.script.headD 0),
              SockCall.recvRaw recv (size - recv) (sock.script.tail.headD 0)], ?_, ?_⟩
            · rw [← h.2.2]; simp [TSocket.Select, TSocket.RecvRaw]
            · simp [scriptResults_succ, scriptResults_zero, SockCall.result]
    · simp only [hc, if_false] at h
      refine ⟨[], ?_, rfl⟩
      split at h <;> simp only [Option.some.injEq, Prod.mk.injEq] at h <;>
        rw [← h.2.2] <;> simp

/-- A run of the transfer loop that does not end in `Timeout` ends for one of two reasons:
a call reported a hard error and the code is `CommError`, or the bytes asked for were
moved and the code is their number. -/
theorem XferRun_reason (R size : Int) (interest : ESelect) (t : Nat)
    (raw : Int → Int → Int → SockCall)
    (hraw : raw = SockCall.sendRaw ∨ raw = SockCall.recvRaw)
    (sent tries : Int) (d : List SockCall) (code : Int)
    (h : XferRun R size interest t raw sent tries d code) :
    tries ≤ R → code ≠ fgkTimeout →
    (code = fgkCommError ∧ ∃ x ∈ d, x.isHardError = true) ∨
    (code = sent + transferred d ∧ size ≤ sent + transferred d) := by
  induction h with
  | timeout sent tries _ _ => intro _ hne; exact absurd rfl hne
  | done sent tries hc hR =>
    intro hle _
    right
    simp only [transferred, List.map_nil, List.sum_nil, add_zero, true_and]
    by_contra hlt
    exact hc ⟨by omega, by omega⟩
  | zero sent tries d code hlt htr _ ih =>
    intro hle hne
    have ht : transferred (SockCall.select interest t 0 :: d) = transferred d := by
      simp [transferred, SockCall.moved]
    rcases ih (by omega) hne with ⟨h1, x, hx, hx1⟩ | h2
    · exact Or.inl ⟨h1, x, List.mem_cons_of_mem _ hx, hx1⟩
    · rw [ht]; exact Or.inr h2
  | pollError sent tries r hlt htr hr =>
    intro _ _
    exact Or.inl ⟨rfl, _, List.mem_singleton.mpr rfl, by simp [SockCall.isHardError, hr]⟩
  | rawOk sent tries r res d code hlt htr hr hres _ ih =>
    intro hle hne
    have ht : transferred (SockCall.select interest t r :: raw sent (size - sent) res :: d) =
        res + transferred d := by
      rcases hraw with rfl | rfl <;> simp [transferred, SockCall.moved, hres]
    rcases ih hle hne with ⟨h1, x, hx, hx1⟩ | h2
    · exact Or.inl ⟨h1, x, List.mem_cons_of_mem _ (List.mem_cons_of_mem _ hx), hx1⟩
    · rw [ht]
      right
      constructor <;> omega
  | rawError sent tries r res hlt htr hr hres =>
    intro _ _
    refine Or.inl ⟨rfl, raw sent (size - sent) res, by simp, ?_⟩
    rcases hraw with rfl | rfl <;> simp [SockCall.isHardError, hres]

/-- A run of the transfer loop all calls of which are answered with 0 is a run of polls
that report nothing ready, as many as there are tries left, and ends in `Timeout`. -/
theorem XferRun_silent (R size : Int) (interest : ESelect) (t : Nat)
    (raw : Int → Int → Int → SockCall)
    (sent tries : Int) (d : List SockCall) (code : Int)
    (h : XferRun R size interest t raw sent tries d code) :
    (∀ x ∈ d, x.result = 0) → sent < size → tries ≤ R →
    code = fgkTimeout ∧ d = List.replicate (R - tries).toNat (SockCall.select interest t 0) := by
  induction h with
  | timeout sent tries _ hR => intro _ _ _; simp [hR]
  | done sent tries hc hR =>
    intro _ hlt hle
    exact absurd ⟨hlt, by omega⟩ hc
  | zero sent tries d code hlt htr _ ih =>
    intro hz _ _
    obtain ⟨i1, i2⟩ := ih (fun x hx => hz x (List.mem_cons_of_mem _ hx)) hlt (by omega)
    refine ⟨i1, ?_⟩
    have e : (R - tries).toNat = (R - (tries + 1)).toNat + 1 := by omega
    rw [e, List.replicate_succ, ← i2]
  | pollError sent tries r hlt htr hr =>
    intro hz _ _
    have := hz _ (List.mem_singleton.mpr rfl)
    simp only [SockCall.result] at this
    omega
  | rawOk sent tries r res d code hlt htr hr hres _ _ =>
    intro hz _ _
    have := hz _ (List.mem_cons_self _ _)
    simp only [SockCall.result] at this
    omega
  | rawError sent tries r res hlt htr hr hres =>
    intro hz _ _
    have := hz _ (List.mem_cons_self _ _)
    simp only [SockCall.result] at this
    omega

/-- What the calls of a transfer say on `Timeout`, for `R >= 1` and `size >= 1`. -/
theorem timeout_full (R size : Int) (interest : ESelect) (t : Nat)
    (raw : Int → Int → Int → SockCall)
    (hraw : raw = SockCall.sendRaw ∨ raw = SockCall.recvRaw)
    (script : List Int) (d : List SockCall) (code : Int) (hR : 1 ≤ R) (hsize : 1 ≤ size)
    (hres : d.map SockCall.result = scriptResults script d.length)
    (hrun : XferRun R size interest t raw 0 0 d code) :
    (code = fgkTimeout ↔ (zeroPolls d : Int) = R) ∧ (zeroPolls d : Int) ≤ R ∧
    (code = fgkTimeout → transferred d < size ∧ ∀ x ∈ d, x.isHardError = false) ∧
    (code ≠ fgkTimeout →
      (code = fgkCommError ∧ ∃ x ∈ d, x.isHardError = true) ∨
      (code = transferred d ∧ size ≤ transferred d)) ∧
    ((∀ x ∈ script, x = 0) →
      code = fgkTimeout ∧ d = List.replicate R.toNat (SockCall.select interest t 0)) := by
  obtain ⟨c1, c2, c3⟩ := timeout_core R size interest t raw hraw d code hR hsize hrun
  refine ⟨c1, c2, c3, ?_, ?_⟩
  · intro hne
    have := XferRun_reason R size interest t raw hraw 0 0 d code hrun (by omega) hne
    simpa using this
  · intro hz
    have hall : ∀ x ∈ d, x.result = 0 := by
      intro x hx
      have hm : x.result ∈ d.map SockCall.result := List.mem_map_of_mem _ hx
      rw [hres] at hm
      exact scriptResults_silent script hz _ _ hm
    have := XferRun_silent R size interest t raw 0 0 d code hrun hall (by omega) (by omega)
    simpa using this

/-- C9. Transport timeout: for retry bound `R >= 1` and `size >= 1`, `SendBuffer` and
`ReceiveBuffer` make calls that are answered from the script of the socket, in order, and
return `Timeout` exactly when the polls that reported nothing ready, counted over all the
calls of the operation, are `R`; they are never more than `R`; when `Timeout` is returned
fewer than `size` bytes were moved and no call reported a hard error; when another code is
returned, either a call reported a hard error and the code is `CommError`, or `size` bytes
or more were moved and the code is their number; and on a socket all results of which are
0 the operation makes `R` polls and returns `Timeout`. -/
theorem transport_timeout (R : Int) (t : Nat) (sock : TSocket) (buffer : List Nat)
    (size : Int) (hR : 1 ≤ R) (hsize : 1 ≤ size) :
    (∃ code sock1 d,
      SendBuffer R t sock buffer size = some (code, sock1) ∧
      sock1.calls = sock.calls ++ d ∧
      d.map SockCall.result = scriptResults sock.script d.length ∧
      (code = fgkTimeout ↔ (zeroPolls d : Int) = R) ∧ (zeroPolls d : Int) ≤ R ∧
      (code = fgkTimeout → transferred d < size ∧ ∀ x ∈ d, x.isHardError = false) ∧
      (code ≠ fgkTimeout →
        (code = fgkCommError ∧ ∃ x ∈ d, x.isHardError = true) ∨
        (code = transferred d ∧ size ≤ transferred d)) ∧
      ((∀ x ∈ sock.script, x = 0) →
        code = fgkTimeout ∧
        d = List.replicate R.toNat (SockCall.select ESelect.kWrite t 0))) ∧
    (∃ code buffer1 sock1 d,
      ReceiveBuffer R t sock buffer size = some (code, buffer1, sock1) ∧
      sock1.calls = sock.calls ++ d ∧
      d.map SockCall.result = scriptResults sock.script d.length ∧
      (code = fgkTimeout ↔ (zeroPolls d : Int) = R) ∧ (zeroPolls d : Int) ≤ R ∧
      (code = fgkTimeout → transferred d < size ∧ ∀ x ∈ d, x.isHardError = false) ∧
      (code ≠ fgkTimeout →
        (code = fgkCommError ∧ ∃ x ∈ d, x.isHardError = true) ∨
        (code = transferred d ∧ size ≤ transferred d)) ∧
      ((∀ x ∈ sock.script, x = 0) →
        code = fgkTimeout ∧
        d = List.replicate R.toNat (SockCall.select ESelect.kRead t 0))) := by
  constructor
  · obtain ⟨code, sock1, d, h1, h2, _, _, _, hrun⟩ := SendBuffer_run R t sock buffer size
    obtain ⟨d1, g1, g2⟩ := SendBufferLoop_results R t buffer size _ sock 0 0 code sock1 h1
    have hd : d1 = d := List.append_cancel_left (g1.symm.trans h2)
    rw [hd] at g2
    exact ⟨code, sock1, d, h1, h2, g2,
      timeout_full R size _ t _ (Or.inl rfl) sock.script d code hR hsize g2 hrun⟩
  · obtain ⟨code, buffer1, sock1, d, h1, h2, _, _, _, hrun⟩ :=
      ReceiveBuffer_run R t sock buffer size
    obtain ⟨d1, g1, g2⟩ := ReceiveBufferLoop_results R t size _ sock buffer 0 0 code buffer1
      sock1 h1
    have hd : d1 = d := List.append_cancel_left (g1.symm.trans h2)
    rw [hd] at g2
    exact ⟨code, buffer1, sock1, d, h1, h2, g2,
      timeout_full R size _ t _ (Or.inr rfl) sock.script d code hR hsize g2 hrun⟩

/-- C9, at concrete inputs. Retry bound 2, 3 bytes asked, polls that report nothing
ready, ready (2 bytes move), nothing ready: both operations return `Timeout` after these
calls. A socket whose peer is silent: both operations make 2 polls and return `Timeout`.
Retry bound 3 on the first socket: the second poll that reports nothing ready is followed
by further calls and both operations return 3. -/
theorem transport_timeout_witness :
    ((SendBuffer 2 100 slowSocket [7, 8, 9] 3).map (fun r => (r.1, r.2.calls)) =
      some (fgkTimeout,
        [SockCall.select ESelect.kWrite 100 0, SockCall.select ESelect.kWrite 100 1,
         SockCall.sendRaw 0 3 2, SockCall.select ESelect.kWrite 100 0]) ∧
     (ReceiveBuffer 2 100 slowSocket [0, 0, 0] 3).map (fun r => (r.1, r.2.2.calls)) =
      some (fgkTimeout,
        [SockCall.select ESelect.kRead 100 0, SockCall.select ESelect.kRead 100 1,
         SockCall.recvRaw 0 3 2, SockCall.select ESelect.kRead 100 0]) ∧
     (SendBuffer 2 100 silentSocket [7, 8, 9] 3).map (fun r => (r.1, r.2.calls)) =
      some (fgkTimeout,
        [SockCall.select ESelect.kWrite 100 0, SockCall.select ESelect.kWrite 100 0]) ∧
     (ReceiveBuffer 2 100 silentSocket [0, 0, 0] 3).map (fun r => (r.1, r.2.2.calls)) =
      some (fgkTimeout,
        [SockCall.select ESelect.kRead 100 0, SockCall.select ESelect.kRead 100 0]) ∧
     (SendBuffer 3 100 slowSocket [7, 8, 9] 3).map (fun r => r.1) = some 3 ∧
     (ReceiveBuffer 3 100 slowSocket [0, 0, 0] 3).map (fun r => (r.1, r.2.1)) =
      some (3, [5, 6, 7])) ∧
    ((∃ code sock1 d,
      SendBuffer 2 100 slowSocket [7, 8, 9] 3 = some (code, sock1) ∧
      sock1.calls = slowSocket.calls ++ d ∧
      d.map SockCall.result = scriptResults slowSocket.script d.length ∧
      (code = fgkTimeout ↔ (zeroPolls d : Int) = 2) ∧ (zeroPolls d : Int) ≤ 2 ∧
      (code = fgkTimeout → transferred d < 3 ∧ ∀ x ∈ d, x.isHardError = false) ∧
      (code ≠ fgkTimeout →
        (code = fgkCommError ∧ ∃ x ∈ d, x.isHardError = true) ∨
        (code = transferred d ∧ 3 ≤ transferred d)) ∧
      ((∀ x ∈ slowSocket.script, x = 0) →
        code = fgkTimeout ∧
        d = List.replicate (2 : Int).toNat (SockCall.select ESelect.kWrite 100 0))) ∧
    (∃ code buffer1 sock1 d,
      ReceiveBuffer 2 100 slowSocket [7, 8, 9] 3 = some (code, buffer1, sock1) ∧
      sock1.calls = slowSocket.calls ++ d ∧
      d.map SockCall.result = scriptResults slowSocket.script d.length ∧
      (code = fgkTimeout ↔ (zeroPolls d : Int) = 2) ∧ (zeroPolls d : Int) ≤ 2 ∧
      (code = fgkTimeout → transferred d < 3 ∧ ∀ x ∈ d, x.isHardError = false) ∧
      (code ≠ fgkTimeout →
        (code = fgkCommError ∧ ∃ x ∈ d, x.isHardError = true) ∨
        (code = transferred d ∧ 3 ≤ transferred d)) ∧
      ((∀ x ∈ slowSocket.script, x = 0) →
        code = fgkTimeout ∧
        d = List.replicate (2 : Int).toNat (SockCall.select ESelect.kRead 100 0)))) :=
  ⟨by decide, transport_timeout 2 100 slowSocket [7, 8, 9] 3 (by decide) (by decide)⟩

/-- C10. Transport exact transfer: for retry bound `R >= 1` and `size >= 0`, `SendBuffer`
and `ReceiveBuffer` return; every raw transfer starts at the offset where the transfers
before it stopped and asks for what is left up to `size`; and when no raw transfer moved
more than it was asked for, a result that is not negative equals `size`, the bytes moved
are `size` in all, the bytes written are `buffer[0..size)` in order, and the bytes read
are the first `size` bytes of the peer, stored in `buffer[0..size)` in order. -/
theorem transport_exact_transfer (R : Int) (t : Nat) (sock : TSocket) (buffer : List Nat)
    (size : Int) (hR : 1 ≤ R) (hsize : 0 ≤ size) :
    (∃ code sock1 d,
      SendBuffer R t sock buffer size = some (code, sock1) ∧
      sock1.calls = sock.calls ++ d ∧
      Contiguous size 0 d ∧
      ((∀ x ∈ d, x.overshoots = false) → 0 ≤ code →
        code = size ∧ transferred d = size ∧
        sock1.tx = sock.tx ++ buffer.take size.toNat)) ∧
    (∃ code buffer1 sock1 d,
      ReceiveBuffer R t sock buffer size = some (code, buffer1, sock1) ∧
      sock1.calls = sock.calls ++ d ∧
      Contiguous size 0 d ∧
      ((∀ x ∈ d, x.overshoots = false) → 0 ≤ code →
        code = size ∧ transferred d = size ∧
        (size.toNat ≤ buffer.length → size.toNat ≤ sock.rx.length →
          buffer1 = sock.rx.take size.toNat ++ buffer.drop size.toNat ∧
          sock1.rx = sock.rx.drop size.toNat))) := by
  constructor
  · obtain ⟨code, sock1, d, h1, h2, _, h4, _, hrun⟩ := SendBuffer_run R t sock buffer size
    refine ⟨code, sock1, d, h1, h2,
      XferRun_contiguous _ _ _ _ _ (Or.inl rfl) _ _ _ _ hrun, ?_⟩
    intro hov hcode
    obtain ⟨_, hex⟩ := XferRun_exact R size _ t _ (Or.inl rfl) 0 0 d code hrun hsize
      (by omega) hov
    obtain ⟨e1, e2⟩ := hex hcode
    rw [zero_add] at e2
    refine ⟨e1, e2, ?_⟩
    rw [h4, XferRun_sentBytes R size _ t buffer 0 0 d code hrun (le_refl _), e2]
    simp
  · obtain ⟨code, buffer1, sock1, d, h1, h2, _, h4, _, hrun⟩ :=
      ReceiveBuffer_run R t sock buffer size
    refine ⟨code, buffer1, sock1, d, h1, h2,
      XferRun_contiguous _ _ _ _ _ (Or.inr rfl) _ _ _ _ hrun, ?_⟩
    intro hov hcode
    obtain ⟨_, hex⟩ := XferRun_exact R size _ t _ (Or.inr rfl) 0 0 d code hrun hsize
      (by omega) hov
    obtain ⟨e1, e2⟩ := hex hcode
    rw [zero_add] at e2
    refine ⟨e1, e2, ?_⟩
    intro hb hr
    have hst := XferRun_storeBytes R size _ t 0 0 d code hrun buffer sock.rx (le_refl _)
      (by rw [zero_add, e2]; exact hb) (by rw [e2]; exact hr)
    rw [hst, zero_add, e2] at h4
    simp only [Int.toNat_zero, List.take_zero, List.nil_append, Prod.mk.injEq] at h4
    exact h4

/-- C10, at a concrete input: retry bound 3, 3 bytes asked, moved as 2 bytes and 1 byte
with a poll that reports nothing ready in between; both operations return 3, the bytes
written are those of the buffer and the buffer read into holds the bytes of the peer. -/
theorem transport_exact_transfer_witness :
    (SendBuffer 3 100 slowSocket [7, 8, 9] 3).map (fun r => (r.1, r.2.tx)) =
      some (3, [7, 8, 9]) ∧
    (ReceiveBuffer 3 100 slowSocket [0, 0, 0] 3).map (fun r => (r.1, r.2.1)) =
      some (3, [5, 6, 7]) ∧
    ((∃ code sock1 d,
      SendBuffer 3 100 slowSocket [7, 8, 9] 3 = some (code, sock1) ∧
      sock1.calls = slowSocket.calls ++ d ∧
      Contiguous 3 0 d ∧
      ((∀ x ∈ d, x.overshoots = false) → 0 ≤ code →
        code = 3 ∧ transferred d = 3 ∧
        sock1.tx = slowSocket.tx ++ [7, 8, 9].take (3 : Int).toNat)) ∧
    (∃ code buffer1 sock1 d,
      ReceiveBuffer 3 100 slowSocket [7, 8, 9] 3 = some (code, buffer1, sock1) ∧
      sock1.calls = slowSocket.calls ++ d ∧
      Contiguous 3 0 d ∧
      ((∀ x ∈ d, x.overshoots = false) → 0 ≤ code →
        code = 3 ∧ transferred d = 3 ∧
        ((3 : Int).toNat ≤ [7, 8, 9].length → (3 : Int).toNat ≤ slowSocket.rx.length →
          buffer1 = slowSocket.rx.take (3 : Int).toNat ++ [7, 8, 9].drop (3 : Int).toNat ∧
          sock1.rx = slowSocket.rx.drop (3 : Int).toNat)))) :=
  ⟨by decide, by decide,
    transport_exact_transfer 3 100 slowSocket [7, 8, 9] 3 (by decide) (by decide)⟩

/-! ## ReceiveMessage: header, then body -/

/-- What a call of `ReceiveBuffer` for `size` bytes does: it returns, every raw read asks
for what is left up to `size`, and when no raw read moved more than it was asked for and
the retry bound is at least 1, a result that is not negative equals `size`, with the
first `size` bytes of the peer stored in the buffer. -/
theorem ReceiveBuffer_facts (R : Int) (t : Nat) (sock : TSocket) (n : Nat) :
    ∃ code buffer1 sock1 d,
      ReceiveBuffer R t sock (List.replicate n 0) n = some (code, buffer1, sock1) ∧
      sock1.calls = sock.calls ++ d ∧
      Contiguous n 0 d ∧
      (1 ≤ R → (∀ x ∈ d, x.overshoots = false) → 0 ≤ code →
        code = n ∧ transferred d = n ∧
        (n ≤ sock.rx.length → buffer1 = sock.rx.take n ∧ sock1.rx = sock.rx.drop n)) := by
  obtain ⟨code, buffer1, sock1, d, h1, h2, _, h4, _, hrun⟩ :=
    ReceiveBuffer_run R t sock (List.replicate n 0) n
  refine ⟨code, buffer1, sock1, d, h1, h2,
    XferRun_contiguous _ _ _ _ _ (Or.inr rfl) _ _ _ _ hrun, ?_⟩
  intro hR hov hcode
  obtain ⟨_, hex⟩ := XferRun_exact R n _ t _ (Or.inr rfl) 0 0 d code hrun (by omega)
    (by omega) hov
  obtain ⟨e1, e2⟩ := hex hcode
  rw [zero_add] at e2
  refine ⟨e1, e2, ?_⟩
  intro hr
  have hst := XferRun_storeBytes R n _ t 0 0 d code hrun (List.replicate n 0) sock.rx
    (le_refl _) (by rw [zero_add, e2]; simp) (by rw [e2]; simpa using hr)
  rw [hst, zero_add, e2] at h4
  simp only [Int.toNat_zero, List.take_zero, List.nil_append, Prod.mk.injEq,
    Int.toNat_ofNat] at h4
  refine ⟨?_, h4.2⟩
  rw [h4.1]
  simp

/-- C18. `ReceiveMessage` framing: the first read is a `ReceiveBuffer` for `HEADER_SIZE`
bytes. When it returns a negative code, `ReceiveMessage` returns that code and makes no
further call on the socket. When the header does not decode, it returns `BadMessage` and
makes no further call. Otherwise the second read is a `ReceiveBuffer` for the body size
the header announces; a negative code of it is returned as it is and no message is
decoded; else the message is decoded from header and body and the result is `HEADER_SIZE`
plus the result of the body read. With a retry bound of at least 1 and raw reads that move
no more than they are asked for, a read that succeeds has moved exactly the bytes asked
for, so the result on success is `HEADER_SIZE` plus the announced body size. -/
theorem ReceiveMessage_framing (codec : Codec) (R : Int) (t : Nat) (sock : TSocket) :
    ∃ r header s1 d1,
      ReceiveBuffer R t sock (List.replicate codec.HEADER_SIZE 0) codec.HEADER_SIZE =
        some (r, header, s1) ∧
      s1.calls = sock.calls ++ d1 ∧
      Contiguous codec.HEADER_SIZE 0 d1 ∧
      (1 ≤ R → (∀ x ∈ d1, x.overshoots = false) → 0 ≤ r →
        r = codec.HEADER_SIZE ∧ transferred d1 = codec.HEADER_SIZE ∧
        (codec.HEADER_SIZE ≤ sock.rx.length →
          header = sock.rx.take codec.HEADER_SIZE ∧
          s1.rx = sock.rx.drop codec.HEADER_SIZE)) ∧
      (r < 0 → ReceiveMessage codec R t sock = some (r, none, s1)) ∧
      (0 ≤ r → codec.SetRawHeader header = none →
        ReceiveMessage codec R t sock = some (fgkBadMessage, none, s1)) ∧
      (0 ≤ r → ∀ n, codec.SetRawHeader header = some n →
        ∃ r2 body s2 d2,
          ReceiveBuffer R t s1 (List.replicate n 0) n = some (r2, body, s2) ∧
          s2.calls = s1.calls ++ d2 ∧
          Contiguous n 0 d2 ∧
          (1 ≤ R → (∀ x ∈ d2, x.overshoots = false) → 0 ≤ r2 →
            r2 = n ∧ transferred d2 = n ∧
            (n ≤ s1.rx.length → body = s1.rx.take n ∧ s2.rx = s1.rx.drop n)) ∧
          (r2 < 0 → ReceiveMessage codec R t sock = some (r2, none, s2)) ∧
          (0 ≤ r2 → ReceiveMessage codec R t sock =
            some (codec.HEADER_SIZE + r2, some (codec.LoadFromBuffer header body), s2) ∧
            0 ≤ (codec.HEADER_SIZE : Int) + r2)) := by
  obtain ⟨r, header, s1, d1, h1, h2, h3, h4⟩ := ReceiveBuffer_facts R t sock codec.HEADER_SIZE
  refine ⟨r, header, s1, d1, h1, h2, h3, h4, ?_, ?_, ?_⟩
  · intro hr
    unfold ReceiveMessage
    rw [h1]
    simp only [hr, if_true]
  · intro hr hdec
    unfold ReceiveMessage
    rw [h1]
    simp only [not_lt.mpr hr, if_false, hdec]
  · intro hr n hdec
    obtain ⟨r2, body, s2, d2, g1, g2, g3, g4⟩ := ReceiveBuffer_facts R t s1 n
    refine ⟨r2, body, s2, d2, g1, g2, g3, g4, ?_, ?_⟩
    · intro hr2
      unfold ReceiveMessage
      rw [h1]
      simp only [not_lt.mpr hr, if_false, hdec, g1, hr2, if_true]
    · intro hr2
      refine ⟨?_, by omega⟩
      unfold ReceiveMessage
      rw [h1]
      simp only [not_lt.mpr hr, if_false, hdec, g1, not_lt.mpr hr2]

/-- The framing at concrete inputs, for headers of two bytes. A header that announces
three bytes and a body that comes in two pieces: the result is 2 + 3 and the message is
decoded from the three bytes of the body. A poll that reports an error during the read of
the body: the result is `CommError` and no message is decoded. A header that does not
decode: the result is `BadMessage` and the socket is not read further. -/
theorem ReceiveMessage_examples :
    (ReceiveMessage sumCodec 2 100 framedSocket).map (fun r => (r.1, r.2.1, r.2.2.rx)) =
      some (5, some (AliDCSMessage.other 24), []) ∧
    (ReceiveMessage sumCodec 2 100
      { framedSocket with script := [1, 2, 1, 2, -1, 1, 1] }).map
        (fun r => (r.1, r.2.1, r.2.2.script)) = some (fgkCommError, none, [1, 1]) ∧
    (ReceiveMessage sumCodec 2 100
      { framedSocket with rx := [4, 3, 7, 8, 9] }).map
        (fun r => (r.1, r.2.1, r.2.2.rx)) = some (fgkBadMessage, none, [7, 8, 9]) := by
  decide

/-! ## Transport: the number of calls -/

/-- A run of the transfer loop makes at most as many polls as there are tries and bytes
left, and at most as many raw transfers as there are bytes left. -/
theorem XferRun_bound (R size : Int) (interest : ESelect) (t : Nat)
    (raw : Int → Int → Int → SockCall)
    (hraw : raw = SockCall.sendRaw ∨ raw = SockCall.recvRaw)
    (sent tries : Int) (d : List SockCall) (code : Int)
    (h : XferRun R size interest t raw sent tries d code) :
    polls d ≤ (R - tries).toNat + (size - sent).toNat ∧
    rawTransfers d ≤ (size - sent).toNat := by
  induction h with
  | timeout sent tries _ _ => simp [polls, rawTransfers]
  | done sent tries _ _ => simp [polls, rawTransfers]
  | zero sent tries d code hlt htr _ ih =>
    obtain ⟨i1, i2⟩ := ih
    have hp : polls (SockCall.select interest t 0 :: d) = polls d + 1 := by
      simp [polls, SockCall.isPoll]
    have hr : rawTransfers (SockCall.select interest t 0 :: d) = rawTransfers d := by
      simp [rawTransfers, SockCall.isRaw]
    rw [hp, hr]
    constructor <;> omega
  | pollError sent tries r hlt htr hr =>
    have hp : polls [SockCall.select interest t r] = 1 := by simp [polls, SockCall.isPoll]
    have hr : rawTransfers [SockCall.select interest t r] = 0 := by
      simp [rawTransfers, SockCall.isRaw]
    rw [hp, hr]
    constructor <;> omega
  | rawOk sent tries r res d code hlt htr hr hres _ ih =>
    obtain ⟨i1, i2⟩ := ih
    have hp : polls (SockCall.select interest t r :: raw sent (size - sent) res :: d) =
        polls d + 1 := by
      rcases hraw with rfl | rfl <;> simp [polls, SockCall.isPoll]
    have hr : rawTransfers (SockCall.select interest t r :: raw sent (size - sent) res :: d) =
        rawTransfers d + 1 := by
      rcases hraw with rfl | rfl <;> simp [rawTransfers, SockCall.isRaw]
    rw [hp, hr]
    constructor <;> omega
  | rawError sent tries r res hlt htr hr hres =>
    have hp : polls [SockCall.select interest t r, raw sent (size - sent) res] = 1 := by
      rcases hraw with rfl | rfl <;> simp [polls, SockCall.isPoll]
    have hr : rawTransfers [SockCall.select interest t r, raw sent (size - sent) res] =
        1 := by
      rcases hraw with rfl | rfl <;> simp [rawTransfers, SockCall.isRaw]
    rw [hp, hr]
    constructor <;> omega

/-- C24. Transport operations end within a bound: for a retry bound `R >= 0`, a
`size >= 0` and every script of poll and raw transfer results, `SendBuffer` and
`ReceiveBuffer` return after at most `R + size` readiness polls and at most `size` raw
transfers. -/
theorem transport_bounded (R : Int) (t : Nat) (sock : TSocket) (buffer : List Nat)
    (size : Int) (hR : 0 ≤ R) (hsize : 0 ≤ size) :
    (∃ code sock1 d,
      SendBuffer R t sock buffer size = some (code, sock1) ∧
      sock1.calls = sock.calls ++ d ∧
      (polls d : Int) ≤ R + size ∧ (rawTransfers d : Int) ≤ size ∧
      d.length = polls d + rawTransfers d) ∧
    (∃ code buffer1 sock1 d,
      ReceiveBuffer R t sock buffer size = some (code, buffer1, sock1) ∧
      sock1.calls = sock.calls ++ d ∧
      (polls d : Int) ≤ R + size ∧ (rawTransfers d : Int) ≤ size ∧
      d.length = polls d + rawTransfers d) := by
  have hlen : ∀ d : List SockCall, d.length = polls d + rawTransfers d := by
    intro d
    induction d with
    | nil => rfl
    | cons x d ih =>
      cases x <;> simp [polls, rawTransfers, SockCall.isPoll, SockCall.isRaw] at ih ⊢ <;>
        omega
  constructor
  · obtain ⟨code, sock1, d, h1, h2, _, _, _, hrun⟩ := SendBuffer_run R t sock buffer size
    obtain ⟨b1, b2⟩ := XferRun_bound R size _ t _ (Or.inl rfl) 0 0 d code hrun
    exact ⟨code, sock1, d, h1, h2, by omega, by omega, hlen d⟩
  · obtain ⟨code, buffer1, sock1, d, h1, h2, _, _, _, hrun⟩ :=
      ReceiveBuffer_run R t sock buffer size
    obtain ⟨b1, b2⟩ := XferRun_bound R size _ t _ (Or.inr rfl) 0 0 d code hrun
    exact ⟨code, buffer1, sock1, d, h1, h2, by omega, by omega, hlen d⟩

/-- C24 at a concrete input: retry bound 3, 3 bytes, a socket whose polls twice report
nothing ready; both operations make 4 polls and 2 raw transfers. -/
theorem transport_bounded_witness :
    ((SendBuffer 3 100 slowSocket [7, 8, 9] 3).map
        (fun r => (polls r.2.calls, rawTransfers r.2.calls)) = some (4, 2) ∧
     (ReceiveBuffer 3 100 slowSocket [0, 0, 0] 3).map
        (fun r => (polls r.2.2.calls, rawTransfers r.2.2.calls)) = some (4, 2)) ∧
    ((∃ code sock1 d,
      SendBuffer 3 100 slowSocket [7, 8, 9] 3 = some (code, sock1) ∧
      sock1.calls = slowSocket.calls ++ d ∧
      (polls d : Int) ≤ 3 + 3 ∧ (rawTransfers d : Int) ≤ 3 ∧
      d.length = polls d + rawTransfers d) ∧
    (∃ code buffer1 sock1 d,
      ReceiveBuffer 3 100 slowSocket [7, 8, 9] 3 = some (code, buffer1, sock1) ∧
      sock1.calls = slowSocket.calls ++ d ∧
      (polls d : Int) ≤ 3 + 3 ∧ (rawTransfers d : Int) ≤ 3 ∧
      d.length = polls d + rawTransfers d)) :=
  ⟨by decide, transport_bounded 3 100 slowSocket [7, 8, 9] 3 (by decide) (by decide)⟩

end Transport
